import Mathlib

/-!
# The VAC client for React Native: connection management and navigation snapshots

A shallow embedding of `src/index.js`: the resolution of the connection target
(`pickHostPortToken`), the client that `createVacClient` creates (`connect`,
`scheduleReconnect`, `safeSend`, the listener registry, the socket callbacks and the
public interface), and `buildSnapshotFromReactNavigation`.

A JavaScript function completes normally or throws: a function of the source is a
function to `Except JsVal α`, paired with the state it leaves behind when it has one.
A dispatch of `emit` runs handlers of the application, which may subscribe again while
it runs, so the functions that dispatch take a number of steps `fuel` and return `none`
when the dispatch does not end within it.
-/

namespace Vac

/-! ## Values -/

/-- JavaScript values that are plain data: no functions, no getters, no shared or cyclic
references. Numbers are the integers. An object is the list of its own properties, read
from the left: the first entry of a key is the property. -/
inductive JsVal where
  | undefined
  | null
  | bool (b : Bool)
  | num (n : Int)
  | str (s : String)
  | arr (items : List JsVal)
  | obj (fields : List (String × JsVal))
  deriving Repr, Inhabited

namespace JsVal

/-- The conversion to a boolean that `if (v)`, `!v`, `a && b` and `a || b` apply. -/
def truthy : JsVal → Bool
  | undefined => false
  | null => false
  | bool b => b
  | num n => n != 0
  | str s => s != ""
  | arr _ => true
  | obj _ => true

/-- The own property `k` in a list of properties, `undefined` when there is none. -/
def lookup (k : String) : List (String × JsVal) → JsVal
  | [] => undefined
  | (k', v) :: rest => if k' = k then v else lookup k rest

/-- The property read `v.k` for one of the names the source reads (`routes`, `name`,
`state`, `screens`, `host`, `port`, `token`, `message`, `VAC_HOST`, `VAC_PORT`,
`VAC_TOKEN`): only an object has such a property. It is also `v?.k`; the source applies the
plain `v.k` only to a value it has found truthy. -/
def get (v : JsVal) (k : String) : JsVal :=
  match v with
  | obj fields => lookup k fields
  | _ => undefined

/-- The equality SameValueZero, by which a `Set` holds a value once. Primitive values
are equal when they are the same value; an object or array is equal only to itself, and
every object or array of a value of this model is an object of its own. -/
def sameValueZero : JsVal → JsVal → Bool
  | undefined, undefined => true
  | null, null => true
  | bool a, bool b => a == b
  | num a, num b => a == b
  | str a, str b => a == b
  | _, _ => false

end JsVal

/-- The call `typeof v === 'object'`. -/
def typeofObject : JsVal → Bool
  | .null => true
  | .arr _ => true
  | .obj _ => true
  | _ => false

/-- The call `Array.isArray(v)`. -/
def isArray : JsVal → Bool
  | .arr _ => true
  | _ => false

/-- The expression `a ?? b`. -/
def nullish (a b : JsVal) : JsVal :=
  match a with
  | .undefined => b
  | .null => b
  | _ => a

/-- The object `new Error(msg)`. -/
def jsError (msg : String) : JsVal := .obj [("name", .str "Error"), ("message", .str msg)]

/-- The TypeError the language raises, for instance when a value that is not a function
is called. -/
def typeError (msg : String) : JsVal := .obj [("name", .str "TypeError"), ("message", .str msg)]

/-! ## Navigation snapshots -/

/-- The entries of a `Set` of values, in insertion order. -/
abbrev JsSet := List JsVal

/-- The method `Set.prototype.has`. -/
def JsSet.has (s : JsSet) (v : JsVal) : Bool := s.any (fun x => JsVal.sameValueZero x v)

/-- The method `Set.prototype.add`. -/
def JsSet.add (s : JsSet) (v : JsVal) : JsSet := if JsSet.has s v then s else s ++ [v]

mutual
/-- The function `walk(s)` inside `buildSnapshotFromReactNavigation`, with the set
`screens` it updates. Only an object has a `routes` property: for any other truthy `s`
the array `s.routes || []` is empty, as it is behind `if (!s) return` for a falsy one.
For an object, the `try` block is `walkRoutesOf`, and what it throws is dropped by
`catch {}`. -/
def walk : JsVal → JsSet → Except JsVal Unit × JsSet
  | .obj fields, screens =>
    match walkRoutesOf fields screens with
    | (.ok _, screens') => (.ok (), screens')
    | (.error _, screens') => (.ok (), screens')
  | _, screens => (.ok (), screens)
termination_by structural s => s
/-- The `try` block of `walk` for the object with properties `fields`: the property
`routes` is looked up and `(s.routes || []).forEach(...)` runs on it. -/
def walkRoutesOf : List (String × JsVal) → JsSet → Except JsVal Unit × JsSet
  | [], screens => (.ok (), screens)
  | (k, v) :: rest, screens =>
    if k = "routes" then walkRoutes v screens else walkRoutesOf rest screens
termination_by structural fields => fields
/-- The call `(routes || []).forEach(...)` on the value of `s.routes`: the iteration of
an array; nothing for a falsy value, replaced by `[]`; a TypeError for any other value,
which has no `forEach`. -/
def walkRoutes : JsVal → JsSet → Except JsVal Unit × JsSet
  | .arr routes, screens => walkForEach routes screens
  | other, screens =>
    if other.truthy then (.error (typeError "routes.forEach is not a function"), screens)
    else (.ok (), screens)
termination_by structural routes => routes
/-- The iteration `routes.forEach(r => ...)`: the callback on each element in order,
ended by the first call that throws. -/
def walkForEach : List JsVal → JsSet → Except JsVal Unit × JsSet
  | [], screens => (.ok (), screens)
  | r :: rest, screens =>
    match walkRoute r screens with
    | (.ok _, screens') => walkForEach rest screens'
    | (.error e, screens') => (.error e, screens')
termination_by structural routes => routes
/-- The callback `r => { if (r?.name) screens.add(r.name); if (r?.state) walk(r.state); }`.
Only an object has a `name` or a `state`. -/
def walkRoute : JsVal → JsSet → Except JsVal Unit × JsSet
  | .obj fields, screens =>
    walkStateOf fields
      (if (JsVal.lookup "name" fields).truthy then JsSet.add screens (JsVal.lookup "name" fields)
       else screens)
  | _, screens => (.ok (), screens)
termination_by structural r => r
/-- The statement `if (r?.state) walk(r.state)` for the route with properties `fields`. -/
def walkStateOf : List (String × JsVal) → JsSet → Except JsVal Unit × JsSet
  | [], screens => (.ok (), screens)
  | (k, v) :: rest, screens =>
    if k = "state" then
      if v.truthy then walk v screens else (.ok (), screens)
    else walkStateOf rest screens
termination_by structural fields => fields
end

/-- The function `buildSnapshotFromReactNavigation`: `walk(state)` on an empty set, then
the object `{ screens: Array.from(screens) }`. -/
def buildSnapshotFromReactNavigation (state : JsVal) : Except JsVal JsVal :=
  match walk state [] with
  | (.ok _, screens) => .ok (.obj [("screens", .arr screens)])
  | (.error e, _) => .error e

/-- A route of a navigation state as the interface types it: a name, and possibly a
nested state with routes of its own. -/
inductive NavRoute where
  | leaf (name : String)
  | nested (name : String) (routes : List NavRoute)
  deriving Repr, Inhabited

mutual
/-- The route as a JavaScript object, `{name}` or `{name, state: {routes}}`. -/
def NavRoute.toJs : NavRoute → JsVal
  | .leaf name => .obj [("name", .str name)]
  | .nested name routes =>
    .obj [("name", .str name), ("state", .obj [("routes", .arr (NavRoute.listToJs routes))])]
termination_by structural r => r
/-- The routes as JavaScript objects. -/
def NavRoute.listToJs : List NavRoute → List JsVal
  | [] => []
  | r :: rest => r.toJs :: NavRoute.listToJs rest
termination_by structural rs => rs
end

/-- The navigation state `{routes: [...]}`. -/
def navState (routes : List NavRoute) : JsVal := .obj [("routes", .arr (NavRoute.listToJs routes))]

mutual
/-- The names of a route and of the routes below it, depth first: the name of the route
before the names of its nested state. -/
def NavRoute.names : NavRoute → List String
  | .leaf name => [name]
  | .nested name routes => name :: NavRoute.listNames routes
termination_by structural r => r
/-- The names of a list of routes, depth first, siblings in list order. -/
def NavRoute.listNames : List NavRoute → List String
  | [] => []
  | r :: rest => r.names ++ NavRoute.listNames rest
termination_by structural rs => rs
end

/-- The list with each element kept at its first occurrence only. -/
def firstOccurrences : List String → List String
  | [] => []
  | x :: xs => x :: (firstOccurrences xs).filter (fun y => y != x)

/-- One name met by the traversal: the set of names so far, with `n` added at the end
unless it is empty or already there. -/
def insertName (acc : List String) (n : String) : List String :=
  if n = "" then acc else if n ∈ acc then acc else acc ++ [n]

/-- The value `n` is the name of a route reached from the state `s`: a route is an
element of the array `s.routes`, or of the array `routes` of the `state` of such a
route, and its name is its truthy `name`. -/
inductive NameIn (n : JsVal) : JsVal → Prop where
  | here {s : JsVal} {routes : List JsVal} {r : JsVal} :
      s.get "routes" = .arr routes → r ∈ routes → (r.get "name").truthy = true →
      n = r.get "name" → NameIn n s
  | deeper {s : JsVal} {routes : List JsVal} {r : JsVal} :
      s.get "routes" = .arr routes → r ∈ routes → NameIn n (r.get "state") → NameIn n s

/-! ## Host environment -/

/-- The built-ins of the host that the client calls and whose code is not part of the
source. -/
structure Builtins where
  /-- The call `Number(v)` for a value that is not a number. -/
  numberOf : JsVal → JsVal
  /-- The call `new URL(s)`: the `hostname` and `port` texts of the URL, `none` when the
  constructor throws. -/
  parseUrl : String → Option (String × String)
  /-- The text of a value inside a template literal. -/
  toStr : JsVal → String
  /-- The call `encodeURIComponent(v)`. -/
  encodeURIComponent : JsVal → String
  /-- The call `JSON.stringify(v)`: its result, or the error it throws. -/
  jsonStringify : JsVal → Except JsVal JsVal
  /-- The call `JSON.parse(v)`: its result, or the error it throws. -/
  jsonParse : JsVal → Except JsVal JsVal
  /-- The error `new WebSocket(url)` throws, when it throws. -/
  wsCtorError : String → Option JsVal
  /-- The error `send(data)` throws on the open socket of that number, when it throws. -/
  wsSendError : Nat → JsVal → Option JsVal

/-- The call `Number(v)`. -/
def toNumber (P : Builtins) : JsVal → JsVal
  | .num n => .num n
  | v => P.numberOf v

/-! ## Configuration -/

/-- The object `reconnect` of the options; a field that is absent is `none`. -/
structure Reconnect where
  baseMs : Option Int
  maxMs : Option Int
  deriving Repr, DecidableEq

/-- The argument of `createVacClient`. For `reconnect` and `discover`, which have
defaults, the outer `none` is a key that is absent, and `reconnect := some none` a key
that is present with the value `null` or `undefined`. For `resolver`, `none` is a value
that is not a function, and `some f` a function whose call number `k`, counted from 0,
completes as `f k`. -/
structure Options where
  host : JsVal := .undefined
  port : JsVal := .undefined
  token : JsVal := .undefined
  app : JsVal := .undefined
  appVersion : JsVal := .undefined
  reconnect : Option (Option Reconnect) := none
  discover : Option JsVal := none
  env : JsVal := .undefined
  resolver : Option (Nat → Except JsVal JsVal) := none
  config : JsVal := .undefined

/-- The merged configuration `cfg`. -/
structure Config where
  host : JsVal
  port : JsVal
  token : JsVal
  app : JsVal
  appVersion : JsVal
  reconnect : Option Reconnect
  discover : JsVal
  env : JsVal
  resolver : Option (Nat → Except JsVal JsVal)
  config : JsVal

/-- The constant `DEFAULTS.reconnect`. -/
def DEFAULTS.reconnect : Reconnect := { baseMs := some 1000, maxMs := some 30000 }

/-- The constant `DEFAULTS.discover`. -/
def DEFAULTS.discover : JsVal := .bool true

/-- The object `{ ...DEFAULTS, ...options }`. -/
def mergeDefaults (options : Options) : Config :=
  { host := options.host
    port := options.port
    token := options.token
    app := options.app
    appVersion := options.appVersion
    reconnect := match options.reconnect with
      | none => some DEFAULTS.reconnect
      | some r => r
    discover := match options.discover with
      | none => DEFAULTS.discover
      | some d => d
    env := options.env
    resolver := options.resolver
    config := options.config }

/-- A resolved connection target. -/
structure Target where
  host : JsVal
  port : JsVal
  token : JsVal

/-- The part of `pickHostPortToken` that follows the call `const r = cfg.resolver()`. -/
def pickFromResolved (P : Builtins) (cfg : Config) (r : JsVal) : Option Target :=
  if typeofObject r && r.truthy && (r.get "host").truthy && (r.get "port").truthy then
    some { host := r.get "host", port := r.get "port", token := nullish (r.get "token") cfg.token }
  else
    match r with
    | .str s =>
      match P.parseUrl s with
      | some (hostname, port) =>
        some { host := .str hostname
               port := toNumber P (if (JsVal.str port).truthy then .str port else .num 80)
               token := cfg.token }
      | none => none
    | _ => none

/-- The function `pickHostPortToken`. The argument `calls` and the second component of
the result count the calls made to the resolver. -/
def pickHostPortToken (P : Builtins) (cfg : Config) (calls : Nat) :
    Except JsVal (Option Target) × Nat :=
  if cfg.host.truthy && cfg.port.truthy then
    (.ok (some { host := cfg.host, port := cfg.port, token := cfg.token }), calls)
  else if cfg.config.truthy && (cfg.config.get "host").truthy && (cfg.config.get "port").truthy then
    (.ok (some { host := cfg.config.get "host", port := cfg.config.get "port",
                 token := nullish (cfg.config.get "token") cfg.token }), calls)
  else if cfg.env.truthy && (cfg.env.get "VAC_HOST").truthy && (cfg.env.get "VAC_PORT").truthy then
    (.ok (some { host := cfg.env.get "VAC_HOST", port := toNumber P (cfg.env.get "VAC_PORT"),
                 token := nullish (cfg.env.get "VAC_TOKEN") cfg.token }), calls)
  else if cfg.discover.truthy then
    match cfg.resolver with
    | some resolver =>
      match resolver calls with
      | .ok r => (.ok (pickFromResolved P cfg r), calls + 1)
      | .error e => (.error e, calls + 1)
    | none => (.ok none, calls)
  else (.ok none, calls)

/-- The host and port of a source of the configuration, when it supplies both. -/
def bothOf (host port : JsVal) : Option (JsVal × JsVal) :=
  if host.truthy ∧ port.truthy then some (host, port) else none

/-- The first source of the precedence order: the explicit `host` and `port`. -/
def explicitSource (cfg : Config) : Option (JsVal × JsVal) := bothOf cfg.host cfg.port

/-- The second source: the static config object. -/
def configSource (cfg : Config) : Option (JsVal × JsVal) :=
  bothOf (cfg.config.get "host") (cfg.config.get "port")

/-- The third source: the injected environment values, the port as a number. -/
def envSource (P : Builtins) (cfg : Config) : Option (JsVal × JsVal) :=
  (bothOf (cfg.env.get "VAC_HOST") (cfg.env.get "VAC_PORT")).map
    (fun hp => (hp.1, toNumber P hp.2))

/-- The fourth source: the result of the discovery callback at its call number `calls`,
when discovery is enabled and the callback is a function that returns. -/
def discoverySource (P : Builtins) (cfg : Config) (calls : Nat) : Option (JsVal × JsVal) :=
  if cfg.discover.truthy then
    match cfg.resolver with
    | some resolver =>
      match resolver calls with
      | .ok r => (pickFromResolved P cfg r).map (fun t => (t.host, t.port))
      | .error _ => none
    | none => none
  else none

/-- The host and port that a completion of `pickHostPortToken` returns, if any. -/
def hostPort : Except JsVal (Option Target) → Option (JsVal × JsVal)
  | .ok (some t) => some (t.host, t.port)
  | _ => none

/-! ## The client: state -/

/-- The four lifecycle events, the keys of the object `listeners`. -/
inductive Ev where
  | evOpen
  | evClose
  | evError
  | evMessage
  deriving Repr, DecidableEq

/-- The value of the expression `listeners[ev]`. -/
inductive Slot where
  /-- One of the four sets. -/
  | own (ev : Ev)
  /-- A member that `listeners` inherits from `Object.prototype`: a value without `add`,
  `delete` or `forEach`. -/
  | inherited
  /-- The value `undefined`. -/
  | missing
  deriving Repr, DecidableEq

/-- The names that an object literal inherits from `Object.prototype`. -/
def objectPrototypeNames : List String :=
  ["constructor", "__proto__", "hasOwnProperty", "isPrototypeOf", "propertyIsEnumerable",
   "toLocaleString", "toString", "valueOf", "__defineGetter__", "__defineSetter__",
   "__lookupGetter__", "__lookupSetter__"]

/-- The lookup `listeners[ev]`. -/
def slotOf (ev : String) : Slot :=
  if ev = "open" then .own .evOpen
  else if ev = "close" then .own .evClose
  else if ev = "error" then .own .evError
  else if ev = "message" then .own .evMessage
  else if objectPrototypeNames.contains ev then .inherited
  else .missing

/-- The data of a `Set` of handlers: the entries in insertion order, a deleted entry
staying behind as `none` (the mark `empty` of the language specification), so that an
iteration under way keeps its position. A handler is known by its number. -/
abbrev HandlerSet := List (Option Nat)

/-- The method `Set.prototype.add`. -/
def HandlerSet.add (s : HandlerSet) (h : Nat) : HandlerSet :=
  if s.contains (some h) then s else s ++ [some h]

/-- The method `Set.prototype.delete`. -/
def HandlerSet.delete (s : HandlerSet) (h : Nat) : HandlerSet :=
  s.map (fun e => if e = some h then none else e)

/-- The object `listeners`. -/
structure Listeners where
  onOpen : HandlerSet := []
  onClose : HandlerSet := []
  onError : HandlerSet := []
  onMessage : HandlerSet := []
  deriving Repr, DecidableEq

/-- The set of an event. -/
def Listeners.get (l : Listeners) : Ev → HandlerSet
  | .evOpen => l.onOpen
  | .evClose => l.onClose
  | .evError => l.onError
  | .evMessage => l.onMessage

/-- The registry with the set of an event replaced. -/
def Listeners.set (l : Listeners) (ev : Ev) (s : HandlerSet) : Listeners :=
  match ev with
  | .evOpen => { l with onOpen := s }
  | .evClose => { l with onClose := s }
  | .evError => { l with onError := s }
  | .evMessage => { l with onMessage := s }

/-- A WebSocket object the client created. Its `readyState` is 0 CONNECTING, 1 OPEN,
2 CLOSING or 3 CLOSED. -/
structure Socket where
  url : String
  readyState : Nat
  deriving Repr, DecidableEq

/-- What the client does to its environment, in the order it does it. -/
inductive Op where
  /-- The call `new WebSocket(url)` returned the socket of number `id`. -/
  | newSocket (id : Nat) (url : String)
  /-- The call `close()` on the socket `id`. -/
  | wsClose (id : Nat)
  /-- The call `send(data)` on the socket `id` returned: the frame is with the transport. -/
  | wsSend (id : Nat) (data : JsVal)
  /-- The call `send(data)` on the socket `id` threw. -/
  | wsSendThrew (id : Nat) (data : JsVal)
  /-- The call `setTimeout(connect, delay)` returned the timer of number `id`. -/
  | setTimeout (id : Nat) (delay : Int)
  /-- The call `clearTimeout(timer)`. -/
  | clearTimeout (timer : Option Nat)
  /-- The call by `emit` of the handler `handler` for the event `ev` with `args`. -/
  | handlerCall (ev : Ev) (handler : Nat) (args : List JsVal)
  deriving Repr

/-- The variables of the closure that `createVacClient` creates (`cfg`, `ws`, `attempts`,
`timer`, `listeners`), with the part of the environment they refer to. -/
structure Client where
  cfg : Config
  /-- The variable `ws`: the number of the socket, `none` while it is `undefined`. -/
  ws : Option Nat := none
  attempts : Nat := 0
  /-- The variable `timer`: the number of the last timer set. -/
  timer : Option Nat := none
  listeners : Listeners := {}
  /-- Every socket created so far; the number of a socket is its position. -/
  sockets : List Socket := []
  /-- The timers set and neither fired nor cleared, with their delays. -/
  pending : List (Nat × Int) := []
  /-- The number of timers set so far. -/
  timersSet : Nat := 0
  /-- The number of calls made to the resolver so far. -/
  resolverCalls : Nat := 0
  /-- The operations so far. -/
  trace : List Op := []

/-- One call of application code on the public interface of the client:
`subscribe ev h` is `on(ev, h)`, `unsubscribe ev h` calls the function that `on(ev, h)`
returned, and `throw` is a fault of the code itself. -/
inductive Action where
  | send (msg : JsVal)
  | close
  | subscribe (ev : String) (handler : Nat)
  | unsubscribe (ev : String) (handler : Nat)
  | publishNavigatorSnapshot (snapshot : JsVal)
  | throw (e : JsVal)
  deriving Repr

/-- The call neither sends nor closes: it subscribes, unsubscribes or throws. -/
def Action.quiet : Action → Bool
  | .subscribe _ _ => true
  | .unsubscribe _ _ => true
  | .throw _ => true
  | _ => false

/-- The call subscribes a handler to the event `ev`. -/
def Action.subscribesTo (ev : Ev) : Action → Bool
  | .subscribe name _ => slotOf name == .own ev
  | _ => false

/-- The handlers of the application: the body of the handler of number `h`, for the
arguments it is called with, as the calls it makes in order. -/
abbrev App := Nat → List JsVal → List Action

/-- The `readyState` of the socket of number `id`. -/
def Client.readyState (c : Client) (id : Nat) : Option Nat :=
  (c.sockets.get? id).map (fun s => s.readyState)

/-- The client with one more operation on its trace. -/
def Client.log (c : Client) (op : Op) : Client := { c with trace := c.trace ++ [op] }

/-! ## The client: reconnection, sending, closing -/

/-- The call `clearTimeout(timer)`. -/
def clearTimer (c : Client) : Client :=
  { c with
    pending := c.pending.filter (fun t => some t.1 != c.timer)
    trace := c.trace ++ [.clearTimeout c.timer] }

/-- The expression `x || d` for an optional number. -/
def orDefault (x : Option Int) (d : Int) : Int :=
  match x with
  | some n => if n = 0 then d else n
  | none => d

/-- The delay that `scheduleReconnect` computes,
`Math.min(maxMs || 30000, (baseMs || 1000) * Math.pow(2, attempts))`. -/
def reconnectDelay (r : Reconnect) (attempts : Nat) : Int :=
  min (orDefault r.maxMs 30000) (orDefault r.baseMs 1000 * 2 ^ attempts)

/-- The function `scheduleReconnect`. Reading `cfg.reconnect.maxMs` throws when
`cfg.reconnect` is `null` or `undefined`. -/
def scheduleReconnect (c : Client) : Except JsVal Unit × Client :=
  let c1 := clearTimer c
  match c1.cfg.reconnect with
  | none => (.error (typeError "cfg.reconnect is undefined"), c1)
  | some r =>
    let delay := reconnectDelay r c1.attempts
    (.ok (), { c1 with
      attempts := c1.attempts + 1
      timer := some c1.timersSet
      pending := c1.pending ++ [(c1.timersSet, delay)]
      timersSet := c1.timersSet + 1
      trace := c1.trace ++ [.setTimeout c1.timersSet delay] })

/-- The method `close()` of a WebSocket, which does nothing on a socket that is closing
or closed, and does not throw when called without arguments. -/
def Socket.close (s : Socket) : Socket :=
  if s.readyState = 2 ∨ s.readyState = 3 then s else { s with readyState := 2 }

/-- The statement `try { ws?.close(); } catch {}`. -/
def closeSocket (c : Client) : Client :=
  match c.ws with
  | none => c
  | some id =>
    { c with
      sockets := c.sockets.modify (fun s => Socket.close s) id
      trace := c.trace ++ [.wsClose id] }

/-- The expression `typeof obj === 'string' ? obj : JSON.stringify(obj)`. -/
def frameOf (P : Builtins) (obj : JsVal) : Except JsVal JsVal :=
  match obj with
  | .str s => .ok (.str s)
  | other => P.jsonStringify other

/-- The `try` block of `safeSend`: `.ok true` when it returns `true`, `.ok false` when
it falls through, `.error e` when it throws. -/
def safeSendTry (P : Builtins) (obj : JsVal) (c : Client) : Except JsVal Bool × Client :=
  match c.ws with
  | none => (.ok false, c)
  | some id =>
    if c.readyState id = some 1 then
      match frameOf P obj with
      | .error e => (.error e, c)
      | .ok data =>
        match P.wsSendError id data with
        | some e => (.error e, c.log (.wsSendThrew id data))
        | none => (.ok true, c.log (.wsSend id data))
    else (.ok false, c)

/-- The function `safeSend`, the method `send` of the public interface. -/
def safeSend (P : Builtins) (obj : JsVal) (c : Client) : Except JsVal Bool × Client :=
  match safeSendTry P obj c with
  | (.ok b, c') => (.ok b, c')
  | (.error _, c') => (.ok false, c')

/-- The method `close` of the public interface. -/
def close (c : Client) : Except JsVal Unit × Client :=
  (.ok (), closeSocket (clearTimer c))

/-! ## The client: public interface and dispatch -/

/-- The definition of the property `k` of an object under construction: an existing
property keeps its place and takes the value, a new one goes to the end. -/
def setProp (fields : List (String × JsVal)) (k : String) (v : JsVal) : List (String × JsVal) :=
  match fields with
  | [] => [(k, v)]
  | (k', v') :: rest => if k' = k then (k, v) :: rest else (k', v') :: setProp rest k v

/-- The object literal `{ ...fields, ...src }`: every own property of the object `src` is
defined in order, with its value in `src`. -/
def spread (fields : List (String × JsVal)) (src : JsVal) : List (String × JsVal) :=
  match src with
  | .obj props => props.foldl (fun acc p => setProp acc p.1 (JsVal.lookup p.1 props)) fields
  | _ => fields

/-- The value has an own property `k`. -/
def hasOwn (v : JsVal) (k : String) : Bool :=
  match v with
  | .obj fields => fields.any (fun p => p.1 == k)
  | _ => false

/-- The object `{ command: 'nav:snapshot', ...snapshot }`. -/
def snapshotMessage (snapshot : JsVal) : JsVal :=
  .obj (spread [("command", .str "nav:snapshot")] snapshot)

/-- The method `publishNavigatorSnapshot` of the public interface. -/
def publishNavigatorSnapshot (P : Builtins) (snapshot : JsVal) (c : Client) :
    Except JsVal Bool × Client :=
  if !snapshot.truthy || !isArray (snapshot.get "screens") then (.ok false, c)
  else safeSend P (snapshotMessage snapshot) c

/-- The method `on` of the public interface, `listeners[ev]?.add(fn)`; the function it
returns is `offEvent`. -/
def onEvent (ev : String) (fn : Nat) (c : Client) : Except JsVal Unit × Client :=
  match slotOf ev with
  | .own e => (.ok (), { c with listeners := c.listeners.set e ((c.listeners.get e).add fn) })
  | .inherited => (.error (typeError "listeners[ev]?.add is not a function"), c)
  | .missing => (.ok (), c)

/-- The function `() => listeners[ev]?.delete(fn)` that `on(ev, fn)` returns. -/
def offEvent (ev : String) (fn : Nat) (c : Client) : Except JsVal Unit × Client :=
  match slotOf ev with
  | .own e => (.ok (), { c with listeners := c.listeners.set e ((c.listeners.get e).delete fn) })
  | .inherited => (.error (typeError "listeners[ev]?.delete is not a function"), c)
  | .missing => (.ok (), c)

/-- One call of the application on the public interface. -/
def perform (P : Builtins) (a : Action) (c : Client) : Except JsVal Unit × Client :=
  match a with
  | .send msg =>
    match safeSend P msg c with
    | (.ok _, c') => (.ok (), c')
    | (.error e, c') => (.error e, c')
  | .close => close c
  | .subscribe ev fn => onEvent ev fn c
  | .unsubscribe ev fn => offEvent ev fn c
  | .publishNavigatorSnapshot s =>
    match publishNavigatorSnapshot P s c with
    | (.ok _, c') => (.ok (), c')
    | (.error e, c') => (.error e, c')
  | .throw e => (.error e, c)

/-- The body of a handler: its calls in order, up to the first that throws. -/
def performAll (P : Builtins) : List Action → Client → Except JsVal Unit × Client
  | [], c => (.ok (), c)
  | a :: rest, c =>
    match perform P a c with
    | (.ok _, c') => performAll P rest c'
    | (.error e, c') => (.error e, c')

/-- The call `fn(...args)` that `emit` makes of the handler `fn`. -/
def callHandler (P : Builtins) (app : App) (ev : Ev) (fn : Nat) (args : List JsVal)
    (c : Client) : Except JsVal Unit × Client :=
  performAll P (app fn args) (c.log (.handlerCall ev fn args))

/-- The iteration `listeners[ev].forEach(fn => { try { fn(...args); } catch (e) {} })`
from the position `i` on. The set is read again at every step: an entry deleted before
its turn is skipped, an entry added during the iteration is visited. The result is
`none` when `fuel` steps do not end the iteration. -/
def forEachListener (P : Builtins) (app : App) (ev : Ev) (args : List JsVal) :
    Nat → Nat → Client → Option Client
  | 0, _, _ => none
  | fuel + 1, i, c =>
    match (c.listeners.get ev).get? i with
    | none => some c
    | some none => forEachListener P app ev args fuel (i + 1) c
    | some (some fn) =>
      forEachListener P app ev args fuel (i + 1) (callHandler P app ev fn args c).2

/-- The function `emit`, for one of the four event names, the only ones the client
emits. -/
def emit (P : Builtins) (app : App) (fuel : Nat) (ev : Ev) (args : List JsVal) (c : Client) :
    Option (Except JsVal Unit × Client) :=
  (forEachListener P app ev args fuel 0 c).map (fun c' => (.ok (), c'))

/-! ## The client: connecting -/

/-- The handshake frame built in `ws.onopen`. -/
def helloFrame (cfg : Config) : JsVal :=
  .obj [("command", .str "hello"),
        ("app", if cfg.app.truthy then cfg.app else .str "rn-app"),
        ("version", if cfg.appVersion.truthy then cfg.appVersion else .str "0"),
        ("protocol", .num 1)]

/-- The connection URL built in `connect`. -/
def connectionUrl (P : Builtins) (t : Target) : String :=
  "ws://" ++ P.toStr t.host ++ ":" ++ P.toStr t.port ++ "?token=" ++
    P.encodeURIComponent t.token ++ "&v=1"

/-- The two early exits of `connect`,
`emit('error', new Error(msg)); scheduleReconnect(); return;`. -/
def failAndRetry (P : Builtins) (app : App) (fuel : Nat) (msg : String) (c : Client) :
    Option (Except JsVal Unit × Client) :=
  match emit P app fuel .evError [jsError msg] c with
  | none => none
  | some (.error e, c1) => some (.error e, c1)
  | some (.ok _, c1) => some (scheduleReconnect c1)

/-- The function `connect`. -/
def connect (P : Builtins) (app : App) (fuel : Nat) (c : Client) :
    Option (Except JsVal Unit × Client) :=
  match pickHostPortToken P c.cfg c.resolverCalls with
  | (.error e, calls) => some (.error e, { c with resolverCalls := calls })
  | (.ok none, calls) =>
    failAndRetry P app fuel "VAC host not resolved" { c with resolverCalls := calls }
  | (.ok (some target), calls) =>
    if !target.token.truthy then
      failAndRetry P app fuel "VAC token required" { c with resolverCalls := calls }
    else
      let url := connectionUrl P target
      let c1 := closeSocket { c with resolverCalls := calls }
      match P.wsCtorError url with
      | some e => some (.error e, c1)
      | none =>
        some (.ok (), { c1 with
          ws := some c1.sockets.length
          sockets := c1.sockets ++ [{ url := url, readyState := 0 }]
          trace := c1.trace ++ [.newSocket c1.sockets.length url] })

/-- The callback `ws.onopen`. -/
def onopen (P : Builtins) (app : App) (fuel : Nat) (c : Client) :
    Option (Except JsVal Unit × Client) :=
  match emit P app fuel .evOpen [] { c with attempts := 0 } with
  | none => none
  | some (.error e, c1) => some (.error e, c1)
  | some (.ok _, c1) =>
    match safeSend P (helloFrame c1.cfg) c1 with
    | (.ok _, c2) => some (.ok (), c2)
    | (.error e, c2) => some (.error e, c2)

/-- The callback `ws.onmessage`, given `e.data`. -/
def onmessage (P : Builtins) (app : App) (fuel : Nat) (data : JsVal) (c : Client) :
    Option (Except JsVal Unit × Client) :=
  let msg := match P.jsonParse data with
    | .ok v => v
    | .error _ => data
  emit P app fuel .evMessage [msg] c

/-- The callback `ws.onerror`. -/
def onerror (P : Builtins) (app : App) (fuel : Nat) (e : JsVal) (c : Client) :
    Option (Except JsVal Unit × Client) :=
  emit P app fuel .evError [if (e.get "message").truthy then e.get "message" else e] c

/-- The callback `ws.onclose`. -/
def onclose (P : Builtins) (app : App) (fuel : Nat) (c : Client) :
    Option (Except JsVal Unit × Client) :=
  match emit P app fuel .evClose [] c with
  | none => none
  | some (.error e, c1) => some (.error e, c1)
  | some (.ok _, c1) => some (scheduleReconnect c1)

/-- The function `createVacClient`: the initial variables of the closure, then
`connect()`. -/
def createVacClient (P : Builtins) (app : App) (fuel : Nat) (options : Options) :
    Option (Except JsVal Unit × Client) :=
  connect P app fuel { cfg := mergeDefaults options }

/-- What happens to a client once it is created: a timer fires, the transport reports on
one of the sockets, or the application calls the public interface. -/
inductive Event where
  | timerFires (id : Nat)
  | wsOpen (id : Nat)
  | wsMessage (id : Nat) (data : JsVal)
  | wsError (id : Nat) (e : JsVal)
  | wsClosed (id : Nat)
  | app (a : Action)
  deriving Repr

/-- The client with the `readyState` of the socket `id` set by the transport. -/
def Client.setReadyState (c : Client) (id : Nat) (state : Nat) : Client :=
  { c with sockets := c.sockets.modify (fun s => { s with readyState := state }) id }

/-- One event, with the callback it runs. A timer fires only while it is pending; a
socket opens only from CONNECTING, delivers a message only while OPEN, and reports an
error or its closure only until it is CLOSED. An event that cannot happen leaves the
client as it is. -/
def step (P : Builtins) (app : App) (fuel : Nat) (e : Event) (c : Client) :
    Option (Except JsVal Unit × Client) :=
  match e with
  | .timerFires id =>
    if c.pending.any (fun t => t.1 == id) then
      connect P app fuel { c with pending := c.pending.filter (fun t => t.1 != id) }
    else some (.ok (), c)
  | .wsOpen id =>
    if c.readyState id = some 0 then onopen P app fuel (c.setReadyState id 1)
    else some (.ok (), c)
  | .wsMessage id data =>
    if c.readyState id = some 1 then onmessage P app fuel data c
    else some (.ok (), c)
  | .wsError id e =>
    if c.readyState id = some 0 ∨ c.readyState id = some 1 ∨ c.readyState id = some 2 then
      onerror P app fuel e c
    else some (.ok (), c)
  | .wsClosed id =>
    if c.readyState id = some 0 ∨ c.readyState id = some 1 ∨ c.readyState id = some 2 then
      onclose P app fuel (c.setReadyState id 3)
    else some (.ok (), c)
  | .app a => some (perform P a c)

/-- A sequence of events. A fault that escapes a callback is reported to the host, and
the next event is taken up. -/
def run (P : Builtins) (app : App) (fuel : Nat) : List Event → Client → Option Client
  | [], c => some c
  | e :: rest, c =>
    match step P app fuel e c with
    | none => none
    | some (_, c') => run P app fuel rest c'

/-! ## Sample inputs -/

/-- A host whose built-ins do the least: `Number` leaves a value as it is, no text is a
URL, a value prints as itself when it is a text and as `80` otherwise, the JSON text of
`v` is written `{JSON: v}`, and no call throws. -/
def sampleBuiltins : Builtins where
  numberOf := fun v => v
  parseUrl := fun _ => none
  toStr := fun v => match v with
    | .str s => s
    | _ => "80"
  encodeURIComponent := fun v => match v with
    | .str s => s
    | _ => ""
  jsonStringify := fun v => .ok (.obj [("JSON", v)])
  jsonParse := fun v => .error v
  wsCtorError := fun _ => none
  wsSendError := fun _ _ => none

/-- The options `{host: 'h', port: 80, token: 't'}`. -/
def sampleOptions : Options := { host := .str "h", port := .num 80, token := .str "t" }

/-- An application whose handlers do nothing. -/
def silentApp : App := fun _ _ => []

/-- An application whose handlers each send the frame `early` through `send`. -/
def eagerApp : App := fun _ _ => [.send (.str "early")]

/-- The client of `sampleOptions` once its first socket is open: the variables as
`createVacClient` and the transport leave them, without the trace so far. -/
def openClient : Client :=
  { cfg := mergeDefaults sampleOptions
    ws := some 0
    sockets := [{ url := "ws://h:80?token=t&v=1", readyState := 1 }] }

/-- The JSON text of the handshake frame of `sampleOptions`, as `sampleBuiltins` writes it. -/
def sampleHello : JsVal :=
  .obj [("JSON", .obj [("command", .str "hello"), ("app", .str "rn-app"),
    ("version", .str "0"), ("protocol", .num 1)])]

/-- The client of `sampleOptions` with the reconnect policy `{baseMs: 0, maxMs: 5000}`. -/
def zeroBaseClient : Client :=
  { openClient with
    cfg := { openClient.cfg with reconnect := some { baseMs := some 0, maxMs := some 5000 } } }

/-- The snapshot `{command: 'x', screens: []}`, which has a `command` of its own. -/
def commandSnapshot : JsVal := .obj [("command", .str "x"), ("screens", .arr [])]

/-- The client of `sampleOptions` as `createVacClient` leaves it, its first socket
connecting, without the trace so far. -/
def connectingClient : Client :=
  { cfg := mergeDefaults sampleOptions
    ws := some 0
    sockets := [{ url := "ws://h:80?token=t&v=1", readyState := 0 }] }

/-- The options `{resolver}` of a discovery callback that throws. -/
def throwingResolverOptions : Options :=
  { resolver := some (fun _ => .error (jsError "discovery failed")) }

/-- The options `{resolver, token: 't'}` of a discovery callback that returns the text
`file:///tmp`. -/
def fileUrlOptions : Options :=
  { token := .str "t", resolver := some (fun _ => .ok (.str "file:///tmp")) }

/-- The host `sampleBuiltins` with a URL parser that knows the text `file:///tmp`, whose
`hostname` and `port` are both empty. -/
def fileUrlBuiltins : Builtins :=
  { sampleBuiltins with
    parseUrl := fun s => if s = "file:///tmp" then some ("", "") else none }

/-- The options `{reconnect: undefined}`, with no host. -/
def undefinedReconnectOptions : Options := { reconnect := some none }

/-- The flat navigation state whose routes are one route `{name}` for each of the names,
in that order. -/
def flatState (names : List JsVal) : JsVal :=
  .obj [("routes", .arr (names.map (fun n => .obj [("name", n)])))]

/-- An application whose handler 0 throws and whose other handlers send the frame `ran`. -/
def faultyApp : App := fun fn _ => if fn = 0 then [.throw (jsError "boom")] else [.send (.str "ran")]

/-- The client `openClient` with the handlers 0 and 1 subscribed to `message`, in that
order. -/
def twoHandlersClient : Client :=
  { openClient with listeners := { onMessage := [some 0, some 1] } }

/-- An application whose handler 0 unsubscribes itself and handler 1 from `message`, and
whose other handlers send the frame `ran`. -/
def unsubscribingApp : App := fun fn _ =>
  if fn = 0 then [.unsubscribe "message" 0, .unsubscribe "message" 1] else [.send (.str "ran")]

/-- The client `openClient` with the handlers 0, 1 and 2 subscribed to `message`, in
that order. -/
def threeHandlersClient : Client :=
  { openClient with listeners := { onMessage := [some 0, some 1, some 2] } }

/-- The client of `sampleOptions` as `createVacClient` returns it: its first socket is
connecting. -/
def createdClient : Client :=
  { connectingClient with trace := [.newSocket 0 "ws://h:80?token=t&v=1"] }

/-- The client of `sampleOptions` after its first socket has opened and the transport has
reported it closed: the first reconnect timer is pending. -/
def waitingClient : Client :=
  { cfg := mergeDefaults sampleOptions
    ws := some 0
    attempts := 1
    timer := some 0
    sockets := [{ url := "ws://h:80?token=t&v=1", readyState := 3 }]
    pending := [(0, 1000)]
    timersSet := 1
    trace := [.newSocket 0 "ws://h:80?token=t&v=1", .wsSend 0 sampleHello,
      .clearTimeout none, .setTimeout 0 1000] }

/-- The options `{host: 'h', port: 80, token: 't', reconnect: {baseMs: 60000, maxMs: 30000}}`,
whose base delay is above the cap. -/
def cappedBaseOptions : Options :=
  { sampleOptions with reconnect := some (some { baseMs := some 60000, maxMs := some 30000 }) }

/-- The client of `sampleOptions` after its first socket has opened and the application
has sent the frame `hi`. -/
def talkingClient : Client :=
  { openClient with
    trace := [.newSocket 0 "ws://h:80?token=t&v=1", .wsSend 0 sampleHello,
      .wsSend 0 (.str "hi")] }

/-- An application whose handler 0 unsubscribes handler 1 from `message`, and whose other
handlers send the frame `ran`. -/
def cancellingApp : App := fun fn _ =>
  if fn = 0 then [.unsubscribe "message" 1] else [.send (.str "ran")]

/-- An application whose handler 1 unsubscribes handler 0 from `message` and subscribes
it again, and whose other handlers do nothing. -/
def resubscribingApp : App := fun fn _ =>
  if fn = 1 then [.unsubscribe "message" 0, .subscribe "message" 0] else []

/-! ## Observations on traces, handler sets and sockets -/

/-- The operation is the call of a handler. -/
def Op.isCall : Op → Bool
  | .handlerCall _ _ _ => true
  | _ => false

/-- The call subscribes a handler to the event `ev` or unsubscribes one from it. -/
def Action.touches (ev : Ev) : Action → Bool
  | .subscribe name _ => slotOf name == .own ev
  | .unsubscribe name _ => slotOf name == .own ev
  | _ => false

/-- The handlers that are entries of the set, in insertion order. -/
def HandlerSet.live (s : HandlerSet) : List Nat := s.filterMap id

/-- The set `s'` is the set `s` after deletions only: every entry is the entry of `s` at
its position, or is deleted. -/
def Tombed (s s' : HandlerSet) : Prop := List.Forall₂ (fun a b => b = a ∨ b = none) s s'

/-- The socket of number `id` exists and is not CLOSED: it is connecting, open or
closing. -/
def Client.notClosed (c : Client) (id : Nat) : Prop :=
  ∃ s, c.readyState id = some s ∧ s ≠ 3

/-- The sockets are used one after another: a socket that is not closed is the one the
variable `ws` holds, no reconnect timer is pending while there is one, and a pending
timer is the one the variable `timer` holds. -/
def Client.sequential (c : Client) : Prop :=
  (∀ id, c.notClosed id → c.ws = some id) ∧
  ((∃ id, c.notClosed id) → c.pending = []) ∧
  (∀ t ∈ c.pending, c.timer = some t.1)

/-- What the handlers of a dispatch and the calls of the application leave alone: the
state `b` has the sockets that are not closed, the variables `ws`, `timer`, `attempts`
and `cfg` of the state `a`, no pending timer that `a` has not, and as many sockets. -/
def Client.keeps (a b : Client) : Prop :=
  (∀ id, b.notClosed id ↔ a.notClosed id) ∧ b.ws = a.ws ∧ b.timer = a.timer ∧
  (∀ t ∈ b.pending, t ∈ a.pending) ∧ b.attempts = a.attempts ∧ b.cfg = a.cfg ∧
  b.sockets.length = a.sockets.length

/-- The event is the report by the transport that a socket is closed. -/
def Event.isClosed : Event → Bool
  | .wsClosed _ => true
  | _ => false

/-- The dispatch as the specification words it: the handlers registered when the event
is published take their turn in registration order; a handler that is still registered
when its turn comes is called, and one that has been removed by then is skipped. The
result is the handlers called, in order, and the client after the last of them. -/
def dispatchInTurn (P : Builtins) (app : App) (ev : Ev) (args : List JsVal) :
    List Nat → Client → List Nat × Client
  | [], c => ([], c)
  | fn :: rest, c =>
    if (c.listeners.get ev).contains (some fn) then
      let r := dispatchInTurn P app ev args rest (callHandler P app ev fn args c).2
      (fn :: r.1, r.2)
    else dispatchInTurn P app ev args rest c

/-! # Properties -/

/-! ## Reconnection delay -/

theorem scheduleReconnect_eq (c : Client) (r : Reconnect) (h : c.cfg.reconnect = some r) :
    scheduleReconnect c = (.ok (), { c with
      attempts := c.attempts + 1
      timer := some c.timersSet
      pending := c.pending.filter (fun t => some t.1 != c.timer) ++
        [(c.timersSet, reconnectDelay r c.attempts)]
      timersSet := c.timersSet + 1
      trace := c.trace ++
        [.clearTimeout c.timer, .setTimeout c.timersSet (reconnectDelay r c.attempts)] }) := by
  simp [scheduleReconnect, clearTimer, h]

theorem reconnectDelay_nonzero (b m : Int) (k : Nat) (hb : b ≠ 0) (hm : m ≠ 0) :
    reconnectDelay { baseMs := some b, maxMs := some m } k = min m (b * 2 ^ k) := by
  simp [reconnectDelay, orDefault, hb, hm]

theorem reconnectDelay_defaults (k : Nat) :
    reconnectDelay DEFAULTS.reconnect k = if k < 5 then 1000 * 2 ^ k else 30000 := by
  have hd : reconnectDelay DEFAULTS.reconnect k = min 30000 (1000 * 2 ^ k) := by
    simp [reconnectDelay, orDefault, DEFAULTS.reconnect]
  rw [hd]
  by_cases h : k < 5
  · have : (2:Int) ^ k ≤ 2 ^ 4 := pow_le_pow_right₀ (by norm_num) (by omega)
    rw [if_pos h, min_eq_right (by omega)]
  · have : (2:Int) ^ 5 ≤ 2 ^ k := pow_le_pow_right₀ (by norm_num) (by omega)
    rw [if_neg h, min_eq_left (by omega)]

/-- C1, counterexample. With the policy `{baseMs: 0, maxMs: 5000}` and the counter at 0,
`scheduleReconnect` passes 1000 to the timer, while `min(maxDelay, baseDelay * 2^0)`
is 0. -/
theorem scheduleReconnect_zero_base :
    (scheduleReconnect zeroBaseClient).2.trace =
        [.clearTimeout none, .setTimeout 0 1000] ∧
      zeroBaseClient.cfg.reconnect = some { baseMs := some 0, maxMs := some 5000 } ∧
      zeroBaseClient.attempts = 0 ∧
      min (5000 : Int) (0 * 2 ^ 0) = 0 :=
  ⟨rfl, rfl, rfl, by decide⟩

/-- C1, amended. For a client whose reconnect policy is `r` and whose attempt counter is
`k`, `scheduleReconnect` clears the timer, passes to `setTimeout` the delay
`min(maxMs || 30000, (baseMs || 1000) * 2^k)` and leaves the counter at `k + 1`. When
`baseMs` and `maxMs` are both non-zero numbers the delay is `min(maxMs, baseMs * 2^k)`;
a zero or absent field counts as its default. With the default policy the delay is
`1000 * 2^k` for `k < 5` and 30000 from then on: 1000, 2000, 4000, 8000, 16000, 30000,
30000, ... -/
theorem scheduleReconnect_backoff (c : Client) (r : Reconnect) (k : Nat)
    (hr : c.cfg.reconnect = some r) (hk : c.attempts = k) :
    (scheduleReconnect c).1 = .ok () ∧
    (scheduleReconnect c).2.trace = c.trace ++ [.clearTimeout c.timer,
      .setTimeout c.timersSet (min (orDefault r.maxMs 30000) (orDefault r.baseMs 1000 * 2 ^ k))] ∧
    (scheduleReconnect c).2.pending = c.pending.filter (fun t => some t.1 != c.timer) ++
      [(c.timersSet, min (orDefault r.maxMs 30000) (orDefault r.baseMs 1000 * 2 ^ k))] ∧
    (scheduleReconnect c).2.attempts = k + 1 ∧
    (∀ b m : Int, r = { baseMs := some b, maxMs := some m } → b ≠ 0 → m ≠ 0 →
      min (orDefault r.maxMs 30000) (orDefault r.baseMs 1000 * 2 ^ k) = min m (b * 2 ^ k)) ∧
    (r = DEFAULTS.reconnect →
      min (orDefault r.maxMs 30000) (orDefault r.baseMs 1000 * 2 ^ k) =
        if k < 5 then 1000 * 2 ^ k else 30000) := by
  subst hk
  rw [scheduleReconnect_eq c r hr]
  refine ⟨rfl, rfl, rfl, rfl, ?_, ?_⟩
  · intro b m hbm hb hm
    subst hbm
    exact reconnectDelay_nonzero b m c.attempts hb hm
  · intro hd
    subst hd
    exact reconnectDelay_defaults c.attempts

/-- C1, witness: the sixth reconnect of the default policy is scheduled after 30000 ms. -/
theorem scheduleReconnect_backoff_witness :
    ({ openClient with attempts := 5 } : Client).cfg.reconnect = some DEFAULTS.reconnect ∧
    (scheduleReconnect { openClient with attempts := 5 }).2.trace =
      [.clearTimeout none, .setTimeout 0 30000] ∧
    (scheduleReconnect { openClient with attempts := 5 }).2.attempts = 6 :=
  have h := scheduleReconnect_backoff { openClient with attempts := 5 } DEFAULTS.reconnect 5 rfl rfl
  ⟨rfl, h.2.1, h.2.2.2.1⟩

/-! ## Resolution of the connection target -/

theorem truthy_of_get_truthy {v : JsVal} {k : String} (h : (v.get k).truthy = true) :
    v.truthy = true := by
  cases v <;> simp_all [JsVal.get, JsVal.truthy]

theorem guard_get_truthy (v : JsVal) (k : String) (b : Bool) :
    (v.truthy && (v.get k).truthy && b) = ((v.get k).truthy && b) := by
  cases h : (v.get k).truthy
  · simp
  · simp [truthy_of_get_truthy h]

/-- C2. The host and port that `pickHostPortToken` returns are those of the first source
that supplies both, in the order explicit host and port, static config object, injected
environment values (the port as a number), result of the discovery callback; they come
from that one source. When one of the first three supplies them the resolver is not
called; otherwise it is called once when discovery is enabled and it is a function, and
not at all when not. -/
theorem pickHostPortToken_precedence (P : Builtins) (cfg : Config) (calls : Nat) :
    hostPort (pickHostPortToken P cfg calls).1 =
      (explicitSource cfg <|> configSource cfg <|> envSource P cfg <|>
        discoverySource P cfg calls) ∧
    ((explicitSource cfg).isSome = true ∨ (configSource cfg).isSome = true ∨
        (envSource P cfg).isSome = true →
      (pickHostPortToken P cfg calls).2 = calls) ∧
    ((explicitSource cfg).isSome = false → (configSource cfg).isSome = false →
        (envSource P cfg).isSome = false →
      (pickHostPortToken P cfg calls).2 =
        if cfg.discover.truthy = true ∧ cfg.resolver.isSome = true then calls + 1 else calls) := by
  have hcfg := guard_get_truthy cfg.config "host" (cfg.config.get "port").truthy
  have henv := guard_get_truthy cfg.env "VAC_HOST" (cfg.env.get "VAC_PORT").truthy
  unfold pickHostPortToken explicitSource configSource envSource discoverySource bothOf
  rw [hcfg, henv]
  cases h1 : cfg.host.truthy && cfg.port.truthy
  · cases h2 : (cfg.config.get "host").truthy && (cfg.config.get "port").truthy
    · cases h3 : (cfg.env.get "VAC_HOST").truthy && (cfg.env.get "VAC_PORT").truthy
      · simp only [Bool.and_eq_true, Bool.and_eq_false_iff] at h1 h2 h3
        have e1 : ¬ (cfg.host.truthy = true ∧ cfg.port.truthy = true) := by
          rcases h1 with h | h <;> simp [h]
        have e2 : ¬ ((cfg.config.get "host").truthy = true ∧
            (cfg.config.get "port").truthy = true) := by
          rcases h2 with h | h <;> simp [h]
        have e3 : ¬ ((cfg.env.get "VAC_HOST").truthy = true ∧
            (cfg.env.get "VAC_PORT").truthy = true) := by
          rcases h3 with h | h <;> simp [h]
        simp only [e1, e2, e3, if_false, Option.map_none', Option.none_orElse, Option.isSome_none,
          Bool.false_eq_true, false_or, false_implies, true_and, forall_const, HOrElse.hOrElse,
          OrElse.orElse, Option.orElse]
        cases hd : cfg.discover.truthy
        · simp [hostPort]
        · cases hres : cfg.resolver with
          | none => simp [hostPort]
          | some f =>
            cases hf : f calls with
            | error e => simp [hf, hostPort]
            | ok r =>
              simp only [hf, if_true, Option.isSome_some, and_self]
              cases pickFromResolved P cfg r <;> simp [hostPort]
      · simp only [Bool.and_eq_true, Bool.and_eq_false_iff] at h1 h2 h3
        have e1 : ¬ (cfg.host.truthy = true ∧ cfg.port.truthy = true) := by
          rcases h1 with h | h <;> simp [h]
        have e2 : ¬ ((cfg.config.get "host").truthy = true ∧
            (cfg.config.get "port").truthy = true) := by
          rcases h2 with h | h <;> simp [h]
        simp [e1, e2, h3, hostPort, HOrElse.hOrElse, OrElse.orElse, Option.orElse]
    · simp only [Bool.and_eq_true, Bool.and_eq_false_iff] at h1 h2
      have e1 : ¬ (cfg.host.truthy = true ∧ cfg.port.truthy = true) := by
        rcases h1 with h | h <;> simp [h]
      simp [e1, h2, hostPort, HOrElse.hOrElse, OrElse.orElse, Option.orElse]
  · simp only [Bool.and_eq_true] at h1
    simp [h1, hostPort, HOrElse.hOrElse, OrElse.orElse, Option.orElse]

/-! ## Sending -/

theorem safeSend_eq (P : Builtins) (msg : JsVal) (c : Client) :
    safeSend P msg c =
      match c.ws with
      | none => (.ok false, c)
      | some id =>
        if c.readyState id = some 1 then
          match frameOf P msg with
          | .error _ => (.ok false, c)
          | .ok data =>
            match P.wsSendError id data with
            | some _ => (.ok false, c.log (.wsSendThrew id data))
            | none => (.ok true, c.log (.wsSend id data))
        else (.ok false, c) := by
  unfold safeSend safeSendTry
  cases c.ws with
  | none => rfl
  | some id =>
    by_cases hr : c.readyState id = some 1
    · simp only [hr, if_true]
      cases frameOf P msg with
      | error e => rfl
      | ok data => simp only []; cases P.wsSendError id data <;> rfl
    · simp only [hr, if_false]

/-- C5. The function `send` never throws. It returns `true` exactly when the socket
exists and is open, the message is a text or its serialization succeeds, and the
transport takes the frame; then exactly one frame is handed to the transport, the text
itself or the serialized text. In every other case it returns `false` and no frame is
with the transport, and while the socket is absent or not open the client is left
untouched. -/
theorem safeSend_contract (P : Builtins) (msg : JsVal) (c : Client) :
    ∃ b c', safeSend P msg c = (.ok b, c') ∧
      (b = true ↔ ∃ id data, c.ws = some id ∧ c.readyState id = some 1 ∧
        frameOf P msg = .ok data ∧ P.wsSendError id data = none) ∧
      (b = true → ∃ id data, c.ws = some id ∧ frameOf P msg = .ok data ∧
        c' = c.log (.wsSend id data)) ∧
      (b = false → c' = c ∨ ∃ id data, c' = c.log (.wsSendThrew id data)) ∧
      ((∀ id, c.ws = some id → c.readyState id ≠ some 1) → b = false ∧ c' = c) := by
  rw [safeSend_eq]
  cases hws : c.ws with
  | none => exact ⟨false, c, rfl, by simp, by simp, by simp, by simp⟩
  | some id =>
    by_cases hr : c.readyState id = some 1
    · simp only [hr, if_true]
      cases hfr : frameOf P msg with
      | error e => exact ⟨false, c, rfl, by simp, by simp, by simp, by simp⟩
      | ok data =>
        cases hs : P.wsSendError id data with
        | some e =>
          refine ⟨false, c.log (.wsSendThrew id data), by simp [hs], ?_, by simp, ?_, ?_⟩
          · simp [hs]
          · intro _; exact Or.inr ⟨id, data, rfl⟩
          · intro h; exact absurd hr (h id rfl)
        | none =>
          refine ⟨true, c.log (.wsSend id data), by simp [hs], ?_, ?_, by simp, ?_⟩
          · simp [hs, hr]
          · intro _; exact ⟨id, data, rfl, rfl, rfl⟩
          · intro h; exact absurd hr (h id rfl)
    · simp only [hr, if_false]
      refine ⟨false, c, rfl, ?_, by simp, by simp, by simp⟩
      simp [hr]

/-! ## Publishing a snapshot -/

/-- C6. For a snapshot that is absent (or falsy), or whose `screens` is absent or not
an array, `publishNavigatorSnapshot` returns `false` and leaves the client as it is,
whatever the state of the socket: nothing is sent. -/
theorem publishNavigatorSnapshot_rejects (P : Builtins) (snapshot : JsVal) (c : Client)
    (h : snapshot.truthy = false ∨ isArray (snapshot.get "screens") = false) :
    publishNavigatorSnapshot P snapshot c = (.ok false, c) := by
  unfold publishNavigatorSnapshot
  rcases h with h | h <;> simp [h]

/-- C6, witness: the snapshot `{screens: "not-an-array"}` on an open socket. -/
theorem publishNavigatorSnapshot_rejects_witness :
    isArray ((JsVal.obj [("screens", .str "not-an-array")]).get "screens") = false ∧
    publishNavigatorSnapshot sampleBuiltins (.obj [("screens", .str "not-an-array")]) openClient =
      (.ok false, openClient) :=
  ⟨rfl, publishNavigatorSnapshot_rejects sampleBuiltins _ openClient (Or.inr rfl)⟩

theorem lookup_setProp_same (fields : List (String × JsVal)) (k : String) (v : JsVal) :
    JsVal.lookup k (setProp fields k v) = v := by
  induction fields with
  | nil => simp [setProp, JsVal.lookup]
  | cons p rest ih =>
    obtain ⟨k', v'⟩ := p
    by_cases h : k' = k <;> simp [setProp, JsVal.lookup, h, ih]

theorem lookup_setProp_other (fields : List (String × JsVal)) (k k' : String) (v : JsVal)
    (hne : k' ≠ k) : JsVal.lookup k (setProp fields k' v) = JsVal.lookup k fields := by
  induction fields with
  | nil => simp [setProp, JsVal.lookup, hne]
  | cons p rest ih =>
    obtain ⟨k'', v''⟩ := p
    by_cases h : k'' = k'
    · subst h; simp [setProp, JsVal.lookup, hne]
    · by_cases h2 : k'' = k
      · subst h2
        simp [setProp, JsVal.lookup, h]
      · simp [setProp, JsVal.lookup, h, h2, ih]

theorem lookup_spread_fold (props part fields : List (String × JsVal)) (k : String) :
    JsVal.lookup k (part.foldl (fun acc p => setProp acc p.1 (JsVal.lookup p.1 props)) fields) =
      bif part.any (fun p => p.1 == k) then JsVal.lookup k props else JsVal.lookup k fields := by
  induction part generalizing fields with
  | nil => simp
  | cons p rest ih =>
    simp only [List.foldl_cons, ih, List.any_cons]
    by_cases h : p.1 = k
    · subst h
      simp [lookup_setProp_same]
    · have hb : (p.1 == k) = false := by simpa using h
      rw [lookup_setProp_other _ _ _ _ h, hb, Bool.false_or]

theorem isArray_get_obj {v : JsVal} {k : String} (h : isArray (v.get k) = true) :
    ∃ fields, v = .obj fields := by
  cases v <;> simp_all [JsVal.get, isArray]

/-- C7, counterexample. For the snapshot `{command: 'x', screens: []}` on an open
socket, the message handed to `send` has the command `x`, not `nav:snapshot`. -/
theorem publishNavigatorSnapshot_command_overridden :
    isArray (commandSnapshot.get "screens") = true ∧
    (snapshotMessage commandSnapshot).get "command" = .str "x" ∧
    publishNavigatorSnapshot sampleBuiltins commandSnapshot openClient =
      (.ok true, openClient.log (.wsSend 0
        (.obj [("JSON", .obj [("command", .str "x"), ("screens", .arr [])])]))) :=
  ⟨rfl, rfl, rfl⟩

/-- C7, amended. For a snapshot whose `screens` is an array, `publishNavigatorSnapshot`
returns what `send` returns for the message `{command: 'nav:snapshot', ...snapshot}`.
Every own property of the snapshot is a property of the message with the same value, and
the message has no other property than these and `command`; its `command` is
`nav:snapshot` when the snapshot has no `command` of its own, which the type
`NavigatorSnapshot` does not declare, and the command of the snapshot otherwise. -/
theorem publishNavigatorSnapshot_delegates (P : Builtins) (snapshot : JsVal) (c : Client)
    (h : isArray (snapshot.get "screens") = true) :
    publishNavigatorSnapshot P snapshot c = safeSend P (snapshotMessage snapshot) c ∧
    (∀ k, hasOwn snapshot k = true → (snapshotMessage snapshot).get k = snapshot.get k) ∧
    (hasOwn snapshot "command" = false →
      (snapshotMessage snapshot).get "command" = .str "nav:snapshot") ∧
    (∀ k, k ≠ "command" → hasOwn snapshot k = false →
      (snapshotMessage snapshot).get k = .undefined) := by
  obtain ⟨fields, rfl⟩ := isArray_get_obj h
  have hget : ∀ k, (snapshotMessage (.obj fields)).get k =
      bif fields.any (fun p => p.1 == k) then JsVal.lookup k fields
      else JsVal.lookup k [("command", .str "nav:snapshot")] := by
    intro k
    simp only [snapshotMessage, spread, JsVal.get]
    exact lookup_spread_fold fields fields _ k
  refine ⟨?_, ?_, ?_, ?_⟩
  · unfold publishNavigatorSnapshot
    simp [h, JsVal.truthy]
  · intro k hk
    simp only [hasOwn] at hk
    rw [hget, hk]
    rfl
  · intro hk
    simp only [hasOwn] at hk
    rw [hget]
    simp [hk, JsVal.lookup]
  · intro k hne hk
    simp only [hasOwn] at hk
    rw [hget]
    have : ¬ ("command" = k) := fun e => hne e.symm
    simp [hk, JsVal.lookup, this]

/-- C7, witness: the snapshot `{screens: ['Home']}` on an open socket. -/
theorem publishNavigatorSnapshot_delegates_witness :
    isArray ((JsVal.obj [("screens", .arr [.str "Home"])]).get "screens") = true ∧
    publishNavigatorSnapshot sampleBuiltins (.obj [("screens", .arr [.str "Home"])]) openClient =
      safeSend sampleBuiltins
        (.obj [("command", .str "nav:snapshot"), ("screens", .arr [.str "Home"])]) openClient :=
  ⟨rfl, (publishNavigatorSnapshot_delegates sampleBuiltins
    (.obj [("screens", .arr [.str "Home"])]) openClient rfl).1⟩

/-! ## Closing -/

theorem modify_close_twice (sockets : List Socket) (id : Nat) :
    (sockets.modify (fun s => Socket.close s) id).modify (fun s => Socket.close s) id =
      sockets.modify (fun s => Socket.close s) id := by
  induction sockets generalizing id with
  | nil => cases id <;> rfl
  | cons s rest ih =>
    cases id with
    | zero =>
      simp only [List.modify_zero_cons, List.cons.injEq, and_true]
      unfold Socket.close
      split
      · rename_i h; simp [h]
      · simp
    | succ n => simp [List.modify_succ_cons, ih]

/-- C10, counterexample. On the client whose socket is open, the second of two calls of
`close()` calls `close()` on the socket again. -/
theorem close_twice_calls_socket_again :
    (close openClient).2.trace = [.clearTimeout none, .wsClose 0] ∧
    (close (close openClient).2).2.trace =
      [.clearTimeout none, .wsClose 0, .clearTimeout none, .wsClose 0] :=
  ⟨rfl, rfl⟩

/-- C10, amended. Calling `close()` twice in a row leaves the variables of the client,
its sockets and its pending timers as calling it once does, and causes no event: no
handler is called. The second call does repeat `clearTimeout(timer)` and, when the
client has a socket, the call `close()` on it, which a socket that is closing or closed
ignores. -/
theorem close_twice (c : Client) :
    (close c).1 = .ok () ∧
    close (close c).2 = (.ok (), { (close c).2 with
      trace := (close c).2.trace ++ (Op.clearTimeout c.timer ::
        match c.ws with
        | some id => [Op.wsClose id]
        | none => []) }) := by
  refine ⟨rfl, ?_⟩
  unfold close closeSocket clearTimer
  cases hws : c.ws with
  | none => simp [List.filter_filter]
  | some id => simp [List.filter_filter, modify_close_twice]

/-- C3, the code at the failing input. The client of `sampleOptions` is created, its
socket opens, and the application calls `close()`. When the transport then reports the
socket closed, `ws.onclose` sets a reconnect timer of 1000 ms, and when that timer
fires `connect` runs again and opens a second socket. -/
theorem close_then_transport_close_reconnects :
    ((createVacClient sampleBuiltins silentApp 1 sampleOptions).bind (fun r =>
        run sampleBuiltins silentApp 1 [.wsOpen 0, .app .close, .wsClosed 0] r.2)).map
      (fun c => (c.pending, c.trace)) =
      some ([(0, 1000)],
        [.newSocket 0 "ws://h:80?token=t&v=1", .wsSend 0 sampleHello,
         .clearTimeout none, .wsClose 0,
         .clearTimeout none, .setTimeout 0 1000]) ∧
    ((createVacClient sampleBuiltins silentApp 1 sampleOptions).bind (fun r =>
        run sampleBuiltins silentApp 1
          [.wsOpen 0, .app .close, .wsClosed 0, .timerFires 0] r.2)).map
      (fun c => (c.ws, c.sockets, c.trace)) =
      some (some 1,
        [{ url := "ws://h:80?token=t&v=1", readyState := 3 },
         { url := "ws://h:80?token=t&v=1", readyState := 0 }],
        [.newSocket 0 "ws://h:80?token=t&v=1", .wsSend 0 sampleHello,
         .clearTimeout none, .wsClose 0,
         .clearTimeout none, .setTimeout 0 1000,
         .wsClose 0, .newSocket 1 "ws://h:80?token=t&v=1"]) :=
  ⟨rfl, rfl⟩

/-! ## The handshake -/

theorem forEachListener_rel (P : Builtins) (app : App) (ev : Ev) (args : List JsVal)
    (R : Client → Client → Prop) (hrefl : ∀ c, R c c)
    (htrans : ∀ a b c, R a b → R b c → R a c)
    (hcall : ∀ c fn, R c (callHandler P app ev fn args c).2) :
    ∀ (fuel i : Nat) (c c' : Client),
      forEachListener P app ev args fuel i c = some c' → R c c' := by
  intro fuel
  induction fuel with
  | zero => intro i c c' h; simp [forEachListener] at h
  | succ n ih =>
    intro i c c' h
    simp only [forEachListener] at h
    split at h
    · cases h; exact hrefl c
    · exact ih _ _ _ h
    · exact htrans _ _ _ (hcall c _) (ih _ _ _ h)

theorem performAll_rel (P : Builtins) (R : Client → Client → Prop) (hrefl : ∀ c, R c c)
    (htrans : ∀ a b c, R a b → R b c → R a c) (actions : List Action)
    (hstep : ∀ a ∈ actions, ∀ c, R c (perform P a c).2) (c : Client) :
    R c (performAll P actions c).2 := by
  induction actions generalizing c with
  | nil => exact hrefl c
  | cons a rest ih =>
    simp only [performAll]
    have h1 := hstep a (List.mem_cons_self _ _) c
    have h2 := fun c' => ih (fun a' ha' => hstep a' (List.mem_cons_of_mem _ ha')) c'
    generalize perform P a c = res at h1
    obtain ⟨r, c1⟩ := res
    cases r with
    | ok u => exact htrans _ _ _ h1 (h2 c1)
    | error e => exact h1

theorem safeSend_trace (P : Builtins) (msg : JsVal) (c : Client) :
    (safeSend P msg c).2.ws = c.ws ∧ (safeSend P msg c).2.cfg = c.cfg ∧
      ∃ ops, (safeSend P msg c).2.trace = c.trace ++ ops := by
  rw [safeSend_eq]
  cases hws : c.ws with
  | none => exact ⟨hws, rfl, [], by simp⟩
  | some id =>
    simp only []
    split
    · cases frameOf P msg with
      | error e => exact ⟨hws, rfl, [], by simp⟩
      | ok data =>
        simp only []
        cases P.wsSendError id data with
        | some e => exact ⟨hws, rfl, _, rfl⟩
        | none => exact ⟨hws, rfl, _, rfl⟩
    · exact ⟨hws, rfl, [], by simp⟩

theorem perform_send_snd (P : Builtins) (msg : JsVal) (c : Client) :
    (perform P (.send msg) c).2 = (safeSend P msg c).2 := by
  simp only [perform]
  split <;> simp_all

theorem perform_publish_snd (P : Builtins) (s : JsVal) (c : Client) :
    (perform P (.publishNavigatorSnapshot s) c).2 = (publishNavigatorSnapshot P s c).2 := by
  simp only [perform]
  split <;> simp_all

theorem perform_trace (P : Builtins) (a : Action) (c : Client) :
    (perform P a c).2.ws = c.ws ∧ (perform P a c).2.cfg = c.cfg ∧
      ∃ ops, (perform P a c).2.trace = c.trace ++ ops := by
  cases a with
  | send msg =>
    rw [perform_send_snd]
    exact safeSend_trace P msg c
  | close =>
    simp only [perform, close, closeSocket, clearTimer]
    cases c.ws with
    | none => exact ⟨rfl, rfl, _, rfl⟩
    | some id => exact ⟨rfl, rfl, [.clearTimeout c.timer, .wsClose id], by simp⟩
  | subscribe ev fn =>
    simp only [perform, onEvent]
    cases slotOf ev <;> exact ⟨rfl, rfl, [], by simp⟩
  | unsubscribe ev fn =>
    simp only [perform, offEvent]
    cases slotOf ev <;> exact ⟨rfl, rfl, [], by simp⟩
  | publishNavigatorSnapshot s =>
    rw [perform_publish_snd]
    unfold publishNavigatorSnapshot
    split
    · exact ⟨rfl, rfl, [], by simp⟩
    · exact safeSend_trace P _ c
  | throw e => exact ⟨rfl, rfl, [], by simp [perform]⟩

theorem perform_quiet (P : Builtins) (a : Action) (c : Client) (h : a.quiet = true) :
    (perform P a c).2.ws = c.ws ∧ (perform P a c).2.cfg = c.cfg ∧
      (perform P a c).2.sockets = c.sockets ∧ (perform P a c).2.trace = c.trace := by
  cases a with
  | subscribe ev fn =>
    simp only [perform, onEvent]
    cases slotOf ev <;> exact ⟨rfl, rfl, rfl, rfl⟩
  | unsubscribe ev fn =>
    simp only [perform, offEvent]
    cases slotOf ev <;> exact ⟨rfl, rfl, rfl, rfl⟩
  | throw e => exact ⟨rfl, rfl, rfl, rfl⟩
  | send msg => simp [Action.quiet] at h
  | close => simp [Action.quiet] at h
  | publishNavigatorSnapshot s => simp [Action.quiet] at h

theorem emit_trace (P : Builtins) (app : App) (ev : Ev) (args : List JsVal)
    (fuel : Nat) (c : Client) (res : Except JsVal Unit × Client)
    (h : emit P app fuel ev args c = some res) :
    res.1 = .ok () ∧ res.2.ws = c.ws ∧ res.2.cfg = c.cfg ∧
      ∃ ops, res.2.trace = c.trace ++ ops := by
  simp only [emit, Option.map_eq_some'] at h
  obtain ⟨c', h, rfl⟩ := h
  refine ⟨rfl, ?_⟩
  refine forEachListener_rel P app ev args
    (fun a b => b.ws = a.ws ∧ b.cfg = a.cfg ∧ ∃ ops, b.trace = a.trace ++ ops)
    (fun c => ⟨rfl, rfl, [], by simp⟩) ?_ ?_ fuel 0 c c' h
  · rintro a b c ⟨h1, h2, o1, h3⟩ ⟨h4, h5, o2, h6⟩
    exact ⟨h4.trans h1, h5.trans h2, o1 ++ o2, by rw [h6, h3, List.append_assoc]⟩
  · intro c fn
    have := performAll_rel P
      (fun a b => b.ws = a.ws ∧ b.cfg = a.cfg ∧ ∃ ops, b.trace = a.trace ++ ops)
      (fun c => ⟨rfl, rfl, [], by simp⟩)
      (by
        rintro a b c ⟨h1, h2, o1, h3⟩ ⟨h4, h5, o2, h6⟩
        exact ⟨h4.trans h1, h5.trans h2, o1 ++ o2, by rw [h6, h3, List.append_assoc]⟩)
      (app fn args) (fun a _ c => perform_trace P a c) (c.log (.handlerCall ev fn args))
    obtain ⟨h1, h2, ops, h3⟩ := this
    exact ⟨h1, h2, .handlerCall ev fn args :: ops, by
      rw [callHandler, h3]; simp [Client.log]⟩

theorem emit_quiet (P : Builtins) (app : App) (ev : Ev) (args : List JsVal)
    (hq : ∀ fn a, a ∈ app fn args → a.quiet = true)
    (fuel : Nat) (c : Client) (res : Except JsVal Unit × Client)
    (h : emit P app fuel ev args c = some res) :
    res.2.sockets = c.sockets ∧
      ∃ calls, (∀ op ∈ calls, ∃ fn, op = Op.handlerCall ev fn args) ∧
        res.2.trace = c.trace ++ calls := by
  simp only [emit, Option.map_eq_some'] at h
  obtain ⟨c', h, rfl⟩ := h
  refine forEachListener_rel P app ev args
    (fun a b => b.sockets = a.sockets ∧
      ∃ calls, (∀ op ∈ calls, ∃ fn, op = Op.handlerCall ev fn args) ∧ b.trace = a.trace ++ calls)
    (fun c => ⟨rfl, [], by simp, by simp⟩) ?_ ?_ fuel 0 c c' h
  · rintro a b c ⟨h1, o1, ho1, h3⟩ ⟨h4, o2, ho2, h6⟩
    refine ⟨h4.trans h1, o1 ++ o2, ?_, by rw [h6, h3, List.append_assoc]⟩
    intro op hop
    rcases List.mem_append.mp hop with h | h
    · exact ho1 op h
    · exact ho2 op h
  · intro c fn
    have := performAll_rel P
      (fun a b => b.sockets = a.sockets ∧ b.trace = a.trace)
      (fun c => ⟨rfl, rfl⟩)
      (by
        rintro a b c ⟨h1, h3⟩ ⟨h4, h6⟩
        exact ⟨h4.trans h1, h6.trans h3⟩)
      (app fn args) (fun a ha c => (perform_quiet P a c (hq fn a ha)).2.2)
      (c.log (.handlerCall ev fn args))
    obtain ⟨h1, h3⟩ := this
    refine ⟨h1, [.handlerCall ev fn args], ?_, by rw [callHandler, h3]; simp [Client.log]⟩
    intro op hop
    exact ⟨fn, by simpa using hop⟩

theorem listeners_get_set (l : Listeners) (e ev : Ev) (s : HandlerSet) :
    (l.set e s).get ev = if e = ev then s else l.get ev := by
  cases e <;> cases ev <;> simp [Listeners.set, Listeners.get]

theorem perform_listeners_length (P : Builtins) (ev : Ev) (a : Action) (c : Client)
    (h : a.subscribesTo ev = false) :
    ((perform P a c).2.listeners.get ev).length = (c.listeners.get ev).length := by
  cases a with
  | send msg =>
    rw [perform_send_snd, safeSend_eq]
    cases c.ws with
    | none => rfl
    | some id =>
      simp only []
      split
      · cases frameOf P msg with
        | error e => rfl
        | ok data => simp only []; cases P.wsSendError id data <;> rfl
      · rfl
  | close =>
    simp only [perform, close, closeSocket, clearTimer]
    cases c.ws <;> rfl
  | subscribe name fn =>
    simp only [Action.subscribesTo, beq_eq_false_iff_ne, ne_eq] at h
    simp only [perform, onEvent]
    cases hs : slotOf name with
    | own e =>
      have hne : ¬ e = ev := fun he => h (by rw [hs, he])
      simp [listeners_get_set, hne]
    | inherited => rfl
    | missing => rfl
  | unsubscribe name fn =>
    simp only [perform, offEvent]
    cases hs : slotOf name with
    | own e =>
      simp only [listeners_get_set]
      split
      · rename_i he; subst he; simp [HandlerSet.delete]
      · rfl
    | inherited => rfl
    | missing => rfl
  | publishNavigatorSnapshot snap =>
    rw [perform_publish_snd]
    unfold publishNavigatorSnapshot
    split
    · rfl
    · rw [safeSend_eq]
      cases c.ws with
      | none => rfl
      | some id =>
        simp only []
        split
        · cases frameOf P (snapshotMessage snap) with
          | error e => rfl
          | ok data => simp only []; cases P.wsSendError id data <;> rfl
        · rfl
  | throw e => rfl

theorem callHandler_listeners_length (P : Builtins) (app : App) (ev : Ev) (args : List JsVal)
    (hns : ∀ fn a, a ∈ app fn args → a.subscribesTo ev = false) (fn : Nat) (c : Client) :
    ((callHandler P app ev fn args c).2.listeners.get ev).length =
      (c.listeners.get ev).length := by
  have := performAll_rel P
    (fun a b => (b.listeners.get ev).length = (a.listeners.get ev).length)
    (fun _ => rfl) (fun a b c h1 h2 => h2.trans h1) (app fn args)
    (fun a ha c => perform_listeners_length P ev a c (hns fn a ha))
    (c.log (.handlerCall ev fn args))
  exact this

/-- A dispatch during which no handler subscribes to the event dispatched ends within
one step more than the set has entries. -/
theorem forEachListener_ends (P : Builtins) (app : App) (ev : Ev) (args : List JsVal)
    (hns : ∀ fn a, a ∈ app fn args → a.subscribesTo ev = false) :
    ∀ (fuel i : Nat) (c : Client), (c.listeners.get ev).length - i + 1 ≤ fuel →
      ∃ c', forEachListener P app ev args fuel i c = some c' := by
  intro fuel
  induction fuel with
  | zero => intro i c h; omega
  | succ n ih =>
    intro i c h
    simp only [forEachListener]
    cases hg : (c.listeners.get ev).get? i with
    | none => exact ⟨c, rfl⟩
    | some entry =>
      have hi : i < (c.listeners.get ev).length := by
        by_contra hcon
        rw [List.get?_eq_none.mpr (by omega)] at hg
        cases hg
      cases entry with
      | none => exact ih (i + 1) c (by omega)
      | some fn =>
        apply ih (i + 1)
        rw [callHandler_listeners_length P app ev args hns]
        omega

theorem emit_ends (P : Builtins) (app : App) (ev : Ev) (args : List JsVal)
    (hns : ∀ fn a, a ∈ app fn args → a.subscribesTo ev = false)
    (fuel : Nat) (c : Client) (hfuel : (c.listeners.get ev).length < fuel) :
    ∃ c', emit P app fuel ev args c = some (.ok (), c') := by
  obtain ⟨c', h⟩ := forEachListener_ends P app ev args hns fuel 0 c (by omega)
  exact ⟨c', by simp [emit, h]⟩

theorem readyState_setReadyState (c : Client) (id s0 s : Nat) (h : c.readyState id = some s0) :
    (c.setReadyState id s).readyState id = some s := by
  simp only [Client.readyState, Client.setReadyState, List.get?_eq_getElem?,
    List.getElem?_modify_eq, Option.map_map] at h ⊢
  cases hg : c.sockets[id]? with
  | none => simp [hg] at h
  | some sock => simp

/-- C4, counterexample. A handler subscribed to `open` that sends the frame `early`
through `send`: when the socket opens, `early` is the first frame sent on it and the
hello frame the second. -/
theorem hello_not_first_frame :
    ((createVacClient sampleBuiltins eagerApp 2 sampleOptions).bind (fun r =>
        run sampleBuiltins eagerApp 2 [.app (.subscribe "open" 0), .wsOpen 0] r.2)).map
      (fun c => c.trace) =
      some [.newSocket 0 "ws://h:80?token=t&v=1", .handlerCall .evOpen 0 [],
        .wsSend 0 (.str "early"), .wsSend 0 sampleHello] :=
  rfl

/-- C4, amended. When the transport opens the socket of the client, `ws.onopen` emits
`open` first: every operation of the dispatch, the calls of the open handlers and what
they do, frames they send through `send` included, comes before the hello frame. The
hello frame `{command: "hello", app, version, protocol: 1}` is then sent if the socket
is still open, as the last operation of the callback. When no handler of the
application sends, publishes or closes, the dispatch consists of handler calls only and
the hello frame is the first frame sent on the socket. The callback completes, within
one step more than there are entries in the set of open handlers, when no handler
subscribes to `open` during the dispatch. -/
theorem hello_after_open_dispatch (P : Builtins) (app : App) (fuel : Nat) (c : Client)
    (id : Nat) (data : JsVal)
    (hws : c.ws = some id) (hconn : c.readyState id = some 0)
    (hjson : P.jsonStringify (helloFrame c.cfg) = .ok data)
    (hsend : P.wsSendError id data = none) :
    ((∀ fn a, a ∈ app fn [] → a.subscribesTo .evOpen = false) →
      (c.listeners.get .evOpen).length < fuel →
      ∃ c', step P app fuel (.wsOpen id) c = some (.ok (), c')) ∧
    ∀ r c', step P app fuel (.wsOpen id) c = some (r, c') →
      r = .ok () ∧
      ∃ c1 ops,
        emit P app fuel .evOpen [] { c.setReadyState id 1 with attempts := 0 } =
          some (.ok (), c1) ∧
        c1.trace = c.trace ++ ops ∧
        c'.trace = c1.trace ++ (if c1.readyState id = some 1 then [Op.wsSend id data] else []) ∧
        ((∀ fn a, a ∈ app fn [] → a.quiet = true) →
          (∀ op ∈ ops, ∃ fn, op = Op.handlerCall .evOpen fn []) ∧
          c'.trace = c.trace ++ ops ++ [Op.wsSend id data]) := by
  have hsafe : ∀ c1 : Client, c1.ws = some id → c1.cfg = c.cfg →
      safeSend P (helloFrame c1.cfg) c1 =
        if c1.readyState id = some 1 then (.ok true, c1.log (.wsSend id data))
        else (.ok false, c1) := by
    intro c1 hws1 hcfg1
    have hframe : frameOf P (helloFrame c1.cfg) = .ok data := by
      rw [hcfg1]; exact hjson
    rw [safeSend_eq, hws1]
    simp only [hframe, hsend]
  constructor
  · intro hns hfuel
    obtain ⟨c1, hemit⟩ := emit_ends P app .evOpen [] hns fuel
      { c.setReadyState id 1 with attempts := 0 } hfuel
    obtain ⟨-, hws1, hcfg1, -⟩ := emit_trace P app .evOpen [] fuel _ _ hemit
    simp only [step, hconn, if_true, onopen, hemit]
    rw [hsafe c1 (hws1.trans hws) hcfg1]
    by_cases hopen : c1.readyState id = some 1
    · rw [if_pos hopen]; exact ⟨_, rfl⟩
    · rw [if_neg hopen]; exact ⟨_, rfl⟩
  · intro r c' hrun
    simp only [step, hconn, if_true, onopen] at hrun
    cases hemit : emit P app fuel .evOpen [] { c.setReadyState id 1 with attempts := 0 } with
    | none => simp [hemit] at hrun
    | some res =>
      obtain ⟨hok, hws1, hcfg1, ops, htr⟩ := emit_trace P app .evOpen [] fuel _ res hemit
      obtain ⟨r1, c1⟩ := res
      simp only at hok hws1 hcfg1 htr
      subst hok
      simp only [hemit] at hrun
      have htr' : c1.trace = c.trace ++ ops := htr
      by_cases hopen : c1.readyState id = some 1
      · rw [hsafe c1 (hws1.trans hws) hcfg1, if_pos hopen] at hrun
        simp only [Option.some.injEq, Prod.mk.injEq] at hrun
        obtain ⟨rfl, rfl⟩ := hrun
        refine ⟨rfl, c1, ops, rfl, htr', by simp [hopen, Client.log], ?_⟩
        intro hq
        obtain ⟨-, calls, hcalls, hc⟩ := emit_quiet P app .evOpen [] hq fuel _ _ hemit
        have hc' : c1.trace = c.trace ++ calls := hc
        have : ops = calls := List.append_cancel_left (htr'.symm.trans hc')
        subst this
        exact ⟨hcalls, by simp [Client.log, htr']⟩
      · rw [hsafe c1 (hws1.trans hws) hcfg1, if_neg hopen] at hrun
        simp only [Option.some.injEq, Prod.mk.injEq] at hrun
        obtain ⟨rfl, rfl⟩ := hrun
        refine ⟨rfl, c1, ops, rfl, htr', by simp [hopen], ?_⟩
        intro hq
        obtain ⟨hsock, -⟩ := emit_quiet P app .evOpen [] hq fuel _ _ hemit
        exfalso
        apply hopen
        have h1 := readyState_setReadyState c id 0 1 hconn
        simp only [Client.readyState] at h1 ⊢
        rw [hsock]
        exact h1

/-- C4, witness: the first socket of the client of `sampleOptions` opens, with no
handler subscribed; the hello frame is the one frame sent. -/
theorem hello_after_open_dispatch_witness :
    connectingClient.ws = some 0 ∧ connectingClient.readyState 0 = some 0 ∧
    step sampleBuiltins silentApp 1 (.wsOpen 0) connectingClient =
      some (.ok (), { openClient with trace := [.wsSend 0 sampleHello] }) ∧
    ∃ c1 ops,
      emit sampleBuiltins silentApp 1 .evOpen []
        { connectingClient.setReadyState 0 1 with attempts := 0 } = some (.ok (), c1) ∧
      c1.trace = connectingClient.trace ++ ops ∧
      ({ openClient with trace := [.wsSend 0 sampleHello] } : Client).trace = c1.trace ++
        (if c1.readyState 0 = some 1 then [Op.wsSend 0 sampleHello] else []) ∧
      ((∀ fn a, a ∈ silentApp fn [] → a.quiet = true) →
        (∀ op ∈ ops, ∃ fn, op = Op.handlerCall .evOpen fn []) ∧
        ({ openClient with trace := [.wsSend 0 sampleHello] } : Client).trace =
          connectingClient.trace ++ ops ++ [Op.wsSend 0 sampleHello]) :=
  ⟨rfl, rfl, rfl,
    ((hello_after_open_dispatch sampleBuiltins silentApp 1 connectingClient 0 sampleHello
      rfl rfl rfl rfl).2 (.ok ()) { openClient with trace := [.wsSend 0 sampleHello] } rfl).2⟩

/-! ## Navigation snapshots -/

theorem walkRoutesOf_eq (fields : List (String × JsVal)) (screens : JsSet) :
    walkRoutesOf fields screens = walkRoutes (JsVal.lookup "routes" fields) screens := by
  induction fields with
  | nil => simp [walkRoutesOf, JsVal.lookup, walkRoutes, JsVal.truthy]
  | cons p rest ih =>
    obtain ⟨k, v⟩ := p
    by_cases hk : k = "routes"
    · subst hk
      simp [walkRoutesOf, JsVal.lookup]
    · simp [walkRoutesOf, JsVal.lookup, hk, ih]

theorem walkStateOf_eq (fields : List (String × JsVal)) (screens : JsSet) :
    walkStateOf fields screens =
      if (JsVal.lookup "state" fields).truthy then walk (JsVal.lookup "state" fields) screens
      else (.ok (), screens) := by
  induction fields with
  | nil => simp [walkStateOf, JsVal.lookup, JsVal.truthy]
  | cons p rest ih =>
    obtain ⟨k, v⟩ := p
    by_cases hk : k = "state"
    · subst hk
      simp [walkStateOf, JsVal.lookup]
    · simp [walkStateOf, JsVal.lookup, hk, ih]

theorem walk_obj (fields : List (String × JsVal)) (sc : JsSet) :
    walk (.obj fields) sc = (.ok (), (walkRoutes (JsVal.lookup "routes" fields) sc).2) := by
  simp only [walk, walkRoutesOf_eq]
  split <;> simp_all

theorem walk_ok (s : JsVal) (sc : JsSet) : (walk s sc).1 = .ok () := by
  cases s <;> simp [walk]
  split <;> rfl

theorem sameValueZero_eq {a b : JsVal} (h : JsVal.sameValueZero a b = true) : a = b := by
  cases a <;> cases b <;> simp_all [JsVal.sameValueZero]

theorem jsSet_mem_add (sc : JsSet) (v n : JsVal) : n ∈ JsSet.add sc v ↔ n ∈ sc ∨ n = v := by
  unfold JsSet.add
  split
  · rename_i h
    simp only [JsSet.has, List.any_eq_true] at h
    obtain ⟨x, hx, hxv⟩ := h
    have := sameValueZero_eq hxv
    subst this
    constructor
    · intro h; exact Or.inl h
    · rintro (h | h)
      · exact h
      · subst h; exact hx
  · simp

theorem nameIn_truthy {n s : JsVal} (h : NameIn n s) : s.truthy = true := by
  cases h <;> (rename_i hr _ _; cases s <;> simp_all [JsVal.get, JsVal.truthy])

theorem nameIn_iff (n s : JsVal) :
    NameIn n s ↔ ∃ routes r, s.get "routes" = .arr routes ∧ r ∈ routes ∧
      (((r.get "name").truthy = true ∧ n = r.get "name") ∨ NameIn n (r.get "state")) := by
  constructor
  · intro h
    cases h with
    | here h1 h2 h3 h4 => exact ⟨_, _, h1, h2, Or.inl ⟨h3, h4⟩⟩
    | deeper h1 h2 h3 => exact ⟨_, _, h1, h2, Or.inr h3⟩
  · rintro ⟨routes, r, h1, h2, (⟨h3, h4⟩ | h3)⟩
    · exact NameIn.here h1 h2 h3 h4
    · exact NameIn.deeper h1 h2 h3

theorem lookup_sizeOf (k : String) (fields : List (String × JsVal)) :
    sizeOf (JsVal.lookup k fields) < 1 + sizeOf fields := by
  induction fields with
  | nil => simp [JsVal.lookup]
  | cons p rest ih =>
    obtain ⟨k', v⟩ := p
    simp only [JsVal.lookup]
    split
    · simp; omega
    · simp; omega

theorem get_sizeOf (v : JsVal) (k : String) (h : (v.get k).truthy = true) :
    sizeOf (v.get k) < sizeOf v := by
  cases v <;> simp [JsVal.get, JsVal.truthy] at h ⊢
  rename_i fields
  have := lookup_sizeOf k fields
  omega

/-- What the forEach callback adds for one route, given what `walk` adds for its state. -/
theorem walkRoute_spec (r : JsVal)
    (ih : ∀ sc n, n ∈ (walk (r.get "state") sc).2 ↔ n ∈ sc ∨ NameIn n (r.get "state"))
    (sc : JsSet) (n : JsVal) :
    (walkRoute r sc).1 = .ok () ∧
    (n ∈ (walkRoute r sc).2 ↔ n ∈ sc ∨
      (((r.get "name").truthy = true ∧ n = r.get "name") ∨ NameIn n (r.get "state"))) := by
  cases r with
  | obj fields =>
    simp only [walkRoute, walkStateOf_eq, JsVal.get] at ih ⊢
    by_cases hs : (JsVal.lookup "state" fields).truthy = true
    · simp only [hs, if_true, walk_ok, ih, true_and]
      by_cases hn : (JsVal.lookup "name" fields).truthy = true
      · simp [hn, jsSet_mem_add, or_assoc]
      · simp [hn]
    · have hno : ¬ NameIn n (JsVal.lookup "state" fields) := fun h => hs (nameIn_truthy h)
      simp only [hs, hno, or_false]
      by_cases hn : (JsVal.lookup "name" fields).truthy = true
      · simp [hn, jsSet_mem_add]
      · simp [hn]
  | _ =>
    simp only [walkRoute, JsVal.get, JsVal.truthy, true_and]
    have hno : ¬ NameIn n JsVal.undefined := fun h => by simpa [JsVal.truthy] using nameIn_truthy h
    simp [hno]

theorem walkForEach_spec (routes : List JsVal)
    (ih : ∀ r ∈ routes, ∀ sc n, n ∈ (walk (r.get "state") sc).2 ↔ n ∈ sc ∨ NameIn n (r.get "state"))
    (sc : JsSet) (n : JsVal) :
    (walkForEach routes sc).1 = .ok () ∧
    (n ∈ (walkForEach routes sc).2 ↔ n ∈ sc ∨ ∃ r ∈ routes,
      (((r.get "name").truthy = true ∧ n = r.get "name") ∨ NameIn n (r.get "state"))) := by
  induction routes generalizing sc with
  | nil => simp [walkForEach]
  | cons r rest ihl =>
    have hr := fun sc => walkRoute_spec r (ih r (List.mem_cons_self _ _)) sc n
    have hrest := fun sc => ihl (fun r' h' => ih r' (List.mem_cons_of_mem _ h')) sc
    simp only [walkForEach]
    have h1 := (hr sc).1
    have h2 := (hr sc).2
    generalize walkRoute r sc = res at h1 h2
    obtain ⟨e, sc'⟩ := res
    simp only at h1 h2
    subst h1
    simp only [hrest, h2, List.exists_mem_cons_iff, true_and, or_assoc]

theorem walk_mem_aux (N : Nat) : ∀ (s : JsVal), sizeOf s < N → ∀ (sc : JsSet) (n : JsVal),
    n ∈ (walk s sc).2 ↔ n ∈ sc ∨ NameIn n s := by
  induction N with
  | zero => intro s h; omega
  | succ N ihN =>
    intro s hs sc n
    rw [nameIn_iff]
    cases s with
    | obj fields =>
      rw [walk_obj, show (JsVal.obj fields).get "routes" = JsVal.lookup "routes" fields from rfl]
      have hsz := lookup_sizeOf "routes" fields
      generalize JsVal.lookup "routes" fields = rv at hsz ⊢
      cases rv with
      | arr routes =>
        simp only [walkRoutes]
        have ih : ∀ r ∈ routes, ∀ sc n,
            n ∈ (walk (r.get "state") sc).2 ↔ n ∈ sc ∨ NameIn n (r.get "state") := by
          intro r hr sc' n'
          by_cases ht : (r.get "state").truthy = true
          · apply ihN
            have h1 := get_sizeOf r "state" ht
            have h2 := List.sizeOf_lt_of_mem hr
            simp at hs hsz
            omega
          · have hno : ¬ NameIn n' (r.get "state") := fun h => ht (nameIn_truthy h)
            have : (walk (r.get "state") sc').2 = sc' := by
              generalize r.get "state" = st at ht
              cases st <;> simp_all [walk, JsVal.truthy]
            simp [this, hno]
        rw [(walkForEach_spec routes ih sc n).2]
        simp
      | _ =>
        simp only [walkRoutes]
        split <;> simp
    | _ => simp [walk, JsVal.get]

theorem walk_mem (s : JsVal) (sc : JsSet) (n : JsVal) :
    n ∈ (walk s sc).2 ↔ n ∈ sc ∨ NameIn n s :=
  walk_mem_aux (sizeOf s + 1) s (Nat.lt_succ_self _) sc n

theorem jsSet_add_str (acc : List String) (n : String) :
    JsSet.add (acc.map JsVal.str) (.str n) = (if n ∈ acc then acc else acc ++ [n]).map JsVal.str := by
  have : JsSet.has (acc.map JsVal.str) (.str n) = decide (n ∈ acc) := by
    induction acc with
    | nil => simp [JsSet.has]
    | cons a rest ih =>
      simp only [JsSet.has, List.map_cons, List.any_cons, JsVal.sameValueZero] at ih ⊢
      rw [ih]
      by_cases h : a = n
      · simp [h]
      · have h2 : ¬ n = a := fun e => h e.symm
        simp [h, h2]
  unfold JsSet.add
  rw [this]
  by_cases h : n ∈ acc <;> simp [h]

mutual
theorem walkRoute_nav : ∀ (r : NavRoute) (acc : List String),
    walkRoute r.toJs (acc.map JsVal.str) = (.ok (), (r.names.foldl insertName acc).map JsVal.str)
  | .leaf name, acc => by
    simp only [NavRoute.toJs, walkRoute, walkStateOf_eq, JsVal.lookup, NavRoute.names]
    by_cases h : name = "" <;> simp [h, JsVal.truthy, insertName, jsSet_add_str]
  | .nested name routes, acc => by
    have ih := walkForEach_nav routes
    simp only [NavRoute.toJs, walkRoute, walkStateOf_eq, JsVal.lookup, NavRoute.names]
    by_cases h : name = ""
    · simp [h, JsVal.truthy, insertName, walk, walkRoutesOf_eq, JsVal.lookup, walkRoutes, ih]
    · simp [h, JsVal.truthy, insertName, walk, walkRoutesOf_eq, JsVal.lookup, walkRoutes, ih, jsSet_add_str]
termination_by structural r => r
theorem walkForEach_nav : ∀ (routes : List NavRoute) (acc : List String),
    walkForEach (NavRoute.listToJs routes) (acc.map JsVal.str) =
      (.ok (), ((NavRoute.listNames routes).foldl insertName acc).map JsVal.str)
  | [], acc => by simp [NavRoute.listToJs, walkForEach, NavRoute.listNames]
  | r :: rest, acc => by
    simp only [NavRoute.listToJs, walkForEach, NavRoute.listNames, walkRoute_nav r acc,
      walkForEach_nav rest, List.foldl_append]
termination_by structural routes => routes
end

theorem mem_firstOccurrences (xs : List String) (n : String) : n ∈ firstOccurrences xs ↔ n ∈ xs := by
  induction xs with
  | nil => simp [firstOccurrences]
  | cons x xs ih =>
    simp only [firstOccurrences, List.mem_cons, List.mem_filter, ih]
    by_cases h : n = x <;> simp [h]

theorem nodup_firstOccurrences (xs : List String) : (firstOccurrences xs).Nodup := by
  induction xs with
  | nil => simp [firstOccurrences]
  | cons x xs ih =>
    simp only [firstOccurrences, List.nodup_cons]
    exact ⟨by simp [List.mem_filter], ih.filter _⟩

theorem foldl_insertName (xs acc : List String) :
    xs.foldl insertName acc =
      acc ++ (firstOccurrences (xs.filter (fun y => y != ""))).filter (fun y => decide (y ∉ acc)) := by
  induction xs generalizing acc with
  | nil => simp [firstOccurrences]
  | cons x xs ih =>
    simp only [List.foldl_cons, ih, insertName]
    by_cases hx : x = ""
    · simp [hx]
    · by_cases hm : x ∈ acc
      · simp only [hx, hm, if_true, if_false, List.filter_cons, bne_iff_ne, ne_eq, not_false_eq_true,
          firstOccurrences, decide_not, decide_True, Bool.not_true, List.filter_filter]
        simp only [Bool.false_eq_true, if_false, List.append_cancel_left_eq]
        apply List.filter_congr
        intro y _
        by_cases hy : y ∈ acc
        · simp [hy]
        · have : y ≠ x := fun e => hy (e ▸ hm)
          simp [hy, this]
      · simp only [hx, hm, if_false, List.filter_cons, bne_iff_ne, ne_eq, not_false_eq_true,
          firstOccurrences, decide_not, decide_False, Bool.not_false, List.filter_filter, if_true,
          List.append_assoc, List.singleton_append, List.append_cancel_left_eq, List.cons.injEq, true_and]
        apply List.filter_congr
        intro y _
        by_cases hy : y = x
        · simp [hy]
        · simp [hy, List.mem_append]

theorem walk_navState (routes : List NavRoute) :
    walk (navState routes) [] = (.ok (), (firstOccurrences
      ((NavRoute.listNames routes).filter (fun n => n != ""))).map JsVal.str) := by
  have h := walkForEach_nav routes []
  simp only [List.map_nil] at h
  simp only [navState, walk, walkRoutesOf_eq, JsVal.lookup, if_true, walkRoutes, h,
    foldl_insertName]
  simp

/-- C8, counterexample. For the state `{routes: [{name: ""}]}` the snapshot has no
screen, while the empty name is the name of its one route. -/
theorem buildSnapshot_skips_empty_name :
    buildSnapshotFromReactNavigation (navState [.leaf ""]) = .ok (.obj [("screens", .arr [])]) ∧
    NavRoute.listNames [.leaf ""] = [""] :=
  ⟨rfl, rfl⟩

/-- C8, amended. For every navigation state, a tree of routes that each have a name and
possibly a nested state, `buildSnapshotFromReactNavigation` returns a snapshot that
carries only `screens`, and `screens` is the list of the non-empty names of the routes
in depth-first pre-order (the name of a route before the routes of its nested state,
siblings in list order), each kept at its first occurrence only: the list has no
duplicates and contains exactly the non-empty names that occur in the tree. A route
whose name is the empty text adds nothing. On the state of `Home` and `Detail`, the
latter with the nested route `Settings`, the screens are `Home`, `Detail`, `Settings`,
also when `Home` occurs again below `Detail`. -/
theorem buildSnapshot_screens (routes : List NavRoute) :
    buildSnapshotFromReactNavigation (navState routes) =
      .ok (.obj [("screens", .arr ((firstOccurrences
        ((NavRoute.listNames routes).filter (fun n => n != ""))).map JsVal.str))]) ∧
    (firstOccurrences ((NavRoute.listNames routes).filter (fun n => n != ""))).Nodup ∧
    (∀ n, n ∈ firstOccurrences ((NavRoute.listNames routes).filter (fun n => n != "")) ↔
      n ∈ NavRoute.listNames routes ∧ n ≠ "") ∧
    buildSnapshotFromReactNavigation
        (navState [.leaf "Home", .nested "Detail" [.leaf "Settings"]]) =
      .ok (.obj [("screens", .arr [.str "Home", .str "Detail", .str "Settings"])]) ∧
    buildSnapshotFromReactNavigation
        (navState [.leaf "Home", .nested "Detail" [.leaf "Settings", .leaf "Home"]]) =
      .ok (.obj [("screens", .arr [.str "Home", .str "Detail", .str "Settings"])]) := by
  refine ⟨?_, nodup_firstOccurrences _, ?_, rfl, rfl⟩
  · unfold buildSnapshotFromReactNavigation
    rw [walk_navState]
  · intro n
    simp [mem_firstOccurrences, List.mem_filter]

/-- C9. For every value, `buildSnapshotFromReactNavigation` throws nothing and returns a
snapshot `{screens}`, and a value is among the screens exactly when it is the truthy
name of a route reached from the state through `routes` arrays and `state` properties:
whatever else the tree holds, beside or below such a route, takes no name away. A state
whose `routes` is not an array adds nothing and raises nothing. -/
theorem buildSnapshot_total (state : JsVal) :
    (∃ screens, buildSnapshotFromReactNavigation state = .ok (.obj [("screens", .arr screens)]) ∧
      ∀ n, n ∈ screens ↔ NameIn n state) ∧
    ((∀ routes, state.get "routes" ≠ .arr routes) →
      ∀ screens, walk state screens = (.ok (), screens)) := by
  constructor
  · refine ⟨(walk state []).2, ?_, ?_⟩
    · have h := walk_ok state []
      unfold buildSnapshotFromReactNavigation
      generalize walk state [] = res at h
      obtain ⟨e, sc⟩ := res
      simp only at h
      subst h
      rfl
    · intro n
      simp [walk_mem]
  · intro h screens
    cases state with
    | obj fields =>
      have h' : ∀ routes, JsVal.lookup "routes" fields ≠ .arr routes := h
      rw [walk_obj]
      generalize JsVal.lookup "routes" fields = rv at h'
      cases rv with
      | arr routes => exact absurd rfl (h' routes)
      | _ => simp only [walkRoutes]; split <;> rfl
    | _ => rfl


/-! ## Resolution of the connection target: token and failure -/

theorem bothOf_isSome (host port : JsVal) :
    (bothOf host port).isSome = (host.truthy && port.truthy) := by
  unfold bothOf
  cases host.truthy <;> cases port.truthy <;> simp

theorem pickHostPortToken_eq (P : Builtins) (cfg : Config) (calls : Nat) :
    pickHostPortToken P cfg calls =
      bif (explicitSource cfg).isSome then
        (.ok (some { host := cfg.host, port := cfg.port, token := cfg.token }), calls)
      else bif (configSource cfg).isSome then
        (.ok (some { host := cfg.config.get "host", port := cfg.config.get "port",
                     token := nullish (cfg.config.get "token") cfg.token }), calls)
      else bif (envSource P cfg).isSome then
        (.ok (some { host := cfg.env.get "VAC_HOST", port := toNumber P (cfg.env.get "VAC_PORT"),
                     token := nullish (cfg.env.get "VAC_TOKEN") cfg.token }), calls)
      else bif cfg.discover.truthy then
        match cfg.resolver with
        | some resolver =>
          match resolver calls with
          | .ok r => (.ok (pickFromResolved P cfg r), calls + 1)
          | .error e => (.error e, calls + 1)
        | none => (.ok none, calls)
      else (.ok none, calls) := by
  have hcfg := guard_get_truthy cfg.config "host" (cfg.config.get "port").truthy
  have henv := guard_get_truthy cfg.env "VAC_HOST" (cfg.env.get "VAC_PORT").truthy
  unfold pickHostPortToken explicitSource configSource envSource
  rw [hcfg, henv, Option.isSome_map', bothOf_isSome, bothOf_isSome, bothOf_isSome]
  cases cfg.host.truthy && cfg.port.truthy <;>
    cases (cfg.config.get "host").truthy && (cfg.config.get "port").truthy <;>
    cases (cfg.env.get "VAC_HOST").truthy && (cfg.env.get "VAC_PORT").truthy <;>
    cases cfg.discover.truthy <;> simp

/-- C13. The token of the target that `pickHostPortToken` returns is the top-level
token when the explicit host and port resolve; the token of the config object when the
config object resolves, of the environment (`VAC_TOKEN`) when the environment resolves,
of the discovery object when a discovery object resolves, each replaced by the
top-level token when it is `undefined` or `null`; and the top-level token when a
discovery URL resolves. -/
theorem pickHostPortToken_token (P : Builtins) (cfg : Config) (calls : Nat) :
    ((explicitSource cfg).isSome = true →
      ∃ t, (pickHostPortToken P cfg calls).1 = .ok (some t) ∧ t.token = cfg.token) ∧
    ((explicitSource cfg).isSome = false → (configSource cfg).isSome = true →
      ∃ t, (pickHostPortToken P cfg calls).1 = .ok (some t) ∧
        t.token = nullish (cfg.config.get "token") cfg.token) ∧
    ((explicitSource cfg).isSome = false → (configSource cfg).isSome = false →
        (envSource P cfg).isSome = true →
      ∃ t, (pickHostPortToken P cfg calls).1 = .ok (some t) ∧
        t.token = nullish (cfg.env.get "VAC_TOKEN") cfg.token) ∧
    ((explicitSource cfg).isSome = false → (configSource cfg).isSome = false →
        (envSource P cfg).isSome = false → cfg.discover.truthy = true →
      ∀ resolver r, cfg.resolver = some resolver → resolver calls = .ok r →
        ((typeofObject r && r.truthy && (r.get "host").truthy && (r.get "port").truthy) = true →
          ∃ t, (pickHostPortToken P cfg calls).1 = .ok (some t) ∧
            t.token = nullish (r.get "token") cfg.token) ∧
        (∀ s hostname port, r = .str s → P.parseUrl s = some (hostname, port) →
          ∃ t, (pickHostPortToken P cfg calls).1 = .ok (some t) ∧ t.token = cfg.token)) ∧
    (∀ a b : JsVal, a ≠ .undefined → a ≠ .null → nullish a b = a) ∧
    (∀ b : JsVal, nullish .undefined b = b ∧ nullish .null b = b) := by
  rw [pickHostPortToken_eq]
  refine ⟨?_, ?_, ?_, ?_, ?_, ?_⟩
  · intro h1
    simp only [h1, cond_true]
    exact ⟨_, rfl, rfl⟩
  · intro h1 h2
    simp only [h1, h2, cond_true, cond_false]
    exact ⟨_, rfl, rfl⟩
  · intro h1 h2 h3
    simp only [h1, h2, h3, cond_true, cond_false]
    exact ⟨_, rfl, rfl⟩
  · intro h1 h2 h3 h4 resolver r hres hr
    simp only [h1, h2, h3, h4, hres, hr, cond_true, cond_false]
    constructor
    · intro hobj
      refine ⟨{ host := r.get "host", port := r.get "port",
                token := nullish (r.get "token") cfg.token }, ?_, rfl⟩
      simp [pickFromResolved, hobj]
    · intro s hostname port hs hp
      subst hs
      refine ⟨{ host := .str hostname
                port := toNumber P (if (JsVal.str port).truthy then .str port else .num 80)
                token := cfg.token }, ?_, rfl⟩
      simp [pickFromResolved, typeofObject, hp]
  · intro a b h1 h2
    cases a <;> simp_all [nullish]
  · intro b
    exact ⟨rfl, rfl⟩

theorem pickFromResolved_none_iff (P : Builtins) (cfg : Config) (r : JsVal) :
    pickFromResolved P cfg r = none ↔
      (typeofObject r && r.truthy && (r.get "host").truthy && (r.get "port").truthy) = false ∧
      ∀ s, r = .str s → P.parseUrl s = none := by
  unfold pickFromResolved
  cases hobj : typeofObject r && r.truthy && (r.get "host").truthy && (r.get "port").truthy
  · simp only [Bool.false_eq_true, if_false, true_and]
    cases r with
    | str s =>
      cases hp : P.parseUrl s with
      | none => simp [hp]
      | some hp' => simp [hp]
    | _ => simp
  · simp

theorem pickFromResolved_some (P : Builtins) (cfg : Config) (r : JsVal) (t : Target)
    (h : pickFromResolved P cfg r = some t) :
    (t.host.truthy = true ∧ t.port.truthy = true ∧ t.host = r.get "host" ∧
      t.port = r.get "port") ∨
    ∃ s hostname port, r = .str s ∧ P.parseUrl s = some (hostname, port) ∧
      t.host = .str hostname ∧
      t.port = toNumber P (if port = "" then .num 80 else .str port) := by
  unfold pickFromResolved at h
  cases hobj : typeofObject r && r.truthy && (r.get "host").truthy && (r.get "port").truthy
  · simp only [hobj, Bool.false_eq_true, if_false] at h
    right
    cases r with
    | str s =>
      cases hp : P.parseUrl s with
      | none => simp [hp] at h
      | some hp' =>
        obtain ⟨hostname, port⟩ := hp'
        simp only [hp, Option.some.injEq] at h
        subst h
        refine ⟨s, hostname, port, rfl, hp, rfl, ?_⟩
        by_cases hpe : port = "" <;> simp [JsVal.truthy, hpe]
    | _ => simp at h
  · simp only [hobj, if_true, Option.some.injEq] at h
    subst h
    simp only [Bool.and_eq_true] at hobj
    exact Or.inl ⟨hobj.1.2, hobj.2, rfl, rfl⟩

/-- C14, counterexample. With no static source and a discovery callback that throws,
`pickHostPortToken` throws what the callback threw; and for a callback that returns the
text `file:///tmp`, a URL with an empty hostname, it returns a target whose host is the
empty text. -/
theorem pickHostPortToken_raises :
    pickHostPortToken sampleBuiltins (mergeDefaults throwingResolverOptions) 0 =
      (.error (jsError "discovery failed"), 1) ∧
    (pickHostPortToken fileUrlBuiltins (mergeDefaults fileUrlOptions) 0).1 =
      .ok (some { host := .str "", port := .num 80, token := .str "t" }) ∧
    (JsVal.str "").truthy = false :=
  ⟨rfl, rfl, rfl⟩

/-- C14, amended. The function `pickHostPortToken` raises only what a discovery callback
that it calls raises: it calls the callback when no explicit, config or environment
source resolves, discovery is enabled and the callback is a function. Otherwise it
returns `null` exactly when no source resolves: none of the three static sources
supplies a host and a port, and discovery is disabled, or the callback is not a
function, or its result is neither an object with host and port nor a text that parses
as a URL. A target taken from the explicit values, the config object or a discovery
object has a truthy host and port; one taken from the environment has a truthy host and
the number made of a truthy `VAC_PORT`; one taken from a discovery URL has the hostname
of the URL and its port as a number, 80 when the URL specifies none. -/
theorem pickHostPortToken_unresolved (P : Builtins) (cfg : Config) (calls : Nat) :
    (∀ e, (pickHostPortToken P cfg calls).1 = .error e ↔
      (explicitSource cfg).isSome = false ∧ (configSource cfg).isSome = false ∧
      (envSource P cfg).isSome = false ∧ cfg.discover.truthy = true ∧
      ∃ resolver, cfg.resolver = some resolver ∧ resolver calls = .error e) ∧
    ((pickHostPortToken P cfg calls).1 = .ok none ↔
      (explicitSource cfg).isSome = false ∧ (configSource cfg).isSome = false ∧
      (envSource P cfg).isSome = false ∧
      (cfg.discover.truthy = false ∨ cfg.resolver.isSome = false ∨
        ∃ resolver r, cfg.resolver = some resolver ∧ resolver calls = .ok r ∧
          (typeofObject r && r.truthy && (r.get "host").truthy && (r.get "port").truthy) = false ∧
          ∀ s, r = .str s → P.parseUrl s = none)) ∧
    (∀ t, (pickHostPortToken P cfg calls).1 = .ok (some t) →
      (t.host.truthy = true ∧ t.port.truthy = true) ∨
      (t.host.truthy = true ∧ (cfg.env.get "VAC_PORT").truthy = true ∧
        t.port = toNumber P (cfg.env.get "VAC_PORT")) ∨
      ∃ resolver s hostname port, cfg.resolver = some resolver ∧
        resolver calls = .ok (.str s) ∧ P.parseUrl s = some (hostname, port) ∧
        t.host = .str hostname ∧
        t.port = toNumber P (if port = "" then .num 80 else .str port)) ∧
    toNumber P (.num 80) = .num 80 := by
  rw [pickHostPortToken_eq]
  have hb := bothOf_isSome
  refine ⟨?_, ?_, ?_, rfl⟩
  · intro e
    cases h1 : (explicitSource cfg).isSome <;> cases h2 : (configSource cfg).isSome <;>
      cases h3 : (envSource P cfg).isSome <;> cases h4 : cfg.discover.truthy <;>
      simp only [cond_true, cond_false, reduceCtorEq, false_iff, Bool.true_eq_false,
        Bool.false_eq_true, false_and, and_false, not_false_eq_true, true_and]
    cases hres : cfg.resolver with
    | none => simp
    | some resolver =>
      cases hr : resolver calls with
      | error e' => simp [hr]
      | ok r => simp [hr]
  · cases h1 : (explicitSource cfg).isSome <;> cases h2 : (configSource cfg).isSome <;>
      cases h3 : (envSource P cfg).isSome <;> cases h4 : cfg.discover.truthy <;>
      simp only [cond_true, cond_false, reduceCtorEq, false_iff, Bool.true_eq_false,
        Bool.false_eq_true, false_and, and_false, not_false_eq_true, true_and, true_or,
        Except.ok.injEq, false_or]
    cases hres : cfg.resolver with
    | none => simp
    | some resolver =>
      cases hr : resolver calls with
      | error e' => simp [hr]
      | ok r =>
        simp only [hr, Except.ok.injEq, pickFromResolved_none_iff, Option.isSome_some,
          Bool.true_eq_false, false_or, Option.some.injEq]
        constructor
        · intro h; exact ⟨resolver, r, rfl, hr, h⟩
        · rintro ⟨f, r', hf, hr', h⟩
          subst hf
          rw [hr] at hr'
          cases hr'
          exact h
  · intro t ht
    cases h1 : (explicitSource cfg).isSome
    · cases h2 : (configSource cfg).isSome
      · cases h3 : (envSource P cfg).isSome
        · simp only [h1, h2, h3, cond_false] at ht
          cases h4 : cfg.discover.truthy
          · simp [h4] at ht
          · simp only [h4, cond_true] at ht
            cases hres : cfg.resolver with
            | none => simp [hres] at ht
            | some resolver =>
              simp only [hres] at ht
              cases hr : resolver calls with
              | error e' => simp [hr] at ht
              | ok r =>
                simp only [hr, Except.ok.injEq] at ht
                rcases pickFromResolved_some P cfg r t ht with
                  ⟨h5, h6, -, -⟩ | ⟨s, hn, p, h5, h6, h7, h8⟩
                · exact Or.inl ⟨h5, h6⟩
                · subst h5
                  exact Or.inr (Or.inr ⟨resolver, s, hn, p, rfl, hr, h6, h7, h8⟩)
        · simp only [h1, h2, h3, cond_false, cond_true, Except.ok.injEq,
            Option.some.injEq] at ht
          subst ht
          simp only [envSource, Option.isSome_map', hb, Bool.and_eq_true] at h3
          exact Or.inr (Or.inl ⟨h3.1, h3.2, rfl⟩)
      · simp only [h1, h2, cond_false, cond_true, Except.ok.injEq, Option.some.injEq] at ht
        subst ht
        simp only [configSource, hb, Bool.and_eq_true] at h2
        exact Or.inl h2
    · simp only [h1, cond_true, Except.ok.injEq, Option.some.injEq] at ht
      subst ht
      simp only [explicitSource, hb, Bool.and_eq_true] at h1
      exact Or.inl h1

/-! ## Subscribing under a name that is not an event -/

/-- C12, the code at the failing input. For a name that `listeners` neither holds nor
inherits, `on` and the function it returns complete normally and leave the client as it
is. For the names `toString`, `constructor` and `__proto__`, which every object literal
inherits from `Object.prototype`, `listeners[ev]` is a value without `add`, and
`on(ev, handler)` throws a TypeError. -/
theorem on_inherited_name_throws :
    (∀ ev fn c, slotOf ev = .missing →
      onEvent ev fn c = (.ok (), c) ∧ offEvent ev fn c = (.ok (), c)) ∧
    slotOf "toString" = .inherited ∧
    onEvent "toString" 0 openClient =
      (.error (typeError "listeners[ev]?.add is not a function"), openClient) ∧
    onEvent "constructor" 0 openClient =
      (.error (typeError "listeners[ev]?.add is not a function"), openClient) ∧
    onEvent "__proto__" 0 openClient =
      (.error (typeError "listeners[ev]?.add is not a function"), openClient) := by
  refine ⟨?_, rfl, rfl, rfl, rfl⟩
  intro ev fn c h
  simp [onEvent, offEvent, h]

/-! ## The first connection attempt -/

theorem emit_no_listener (P : Builtins) (app : App) (fuel : Nat) (ev : Ev) (args : List JsVal)
    (c : Client) (h : c.listeners.get ev = []) :
    emit P app (fuel + 1) ev args c = some (.ok (), c) := by
  simp [emit, forEachListener, h]

/-- C15, the code at the failing input. For the options `{reconnect: undefined}`, which
name no host, the first connection attempt emits the error and then
`scheduleReconnect` throws a TypeError on reading `cfg.reconnect.maxMs`: the fault
leaves `connect` and `createVacClient`, and no reconnect timer is set. -/
theorem connect_throws_without_policy :
    (createVacClient sampleBuiltins silentApp 1 undefinedReconnectOptions).map
      (fun r => (r.1, r.2.pending, r.2.trace)) =
      some (.error (typeError "cfg.reconnect is undefined"), [], [.clearTimeout none]) ∧
    (mergeDefaults undefinedReconnectOptions).reconnect = none ∧
    (pickHostPortToken sampleBuiltins (mergeDefaults undefinedReconnectOptions) 0).1 = .ok none :=
  ⟨rfl, rfl, rfl⟩

/-- C19. Whatever the options, `createVacClient` completes without calling a handler:
the registry is empty while the first `connect()` runs, so the trace it leaves holds no
handler call, the error event of a first attempt that fails included. When that attempt
fails for want of a host or of a token and the reconnect policy is an object, the
client is returned with the reconnect timer set, its delay that of attempt 0. -/
theorem createVacClient_calls_no_handler (P : Builtins) (app : App) (fuel : Nat)
    (options : Options) :
    ∃ r c, createVacClient P app (fuel + 1) options = some (r, c) ∧
      (∀ op ∈ c.trace, ∀ ev fn args, op ≠ Op.handlerCall ev fn args) ∧
      c.listeners = {} ∧
      (∀ policy, (mergeDefaults options).reconnect = some policy →
        ((pickHostPortToken P (mergeDefaults options) 0).1 = .ok none ∨
          ∃ t, (pickHostPortToken P (mergeDefaults options) 0).1 = .ok (some t) ∧
            t.token.truthy = false) →
        r = .ok () ∧ c.ws = none ∧ c.sockets = [] ∧ c.timer = some 0 ∧
        c.pending = [(0, reconnectDelay policy 0)] ∧
        c.trace = [.clearTimeout none, .setTimeout 0 (reconnectDelay policy 0)]) := by
  have hfail : ∀ (msg : String) (calls : Nat),
      failAndRetry P app (fuel + 1) msg
          { cfg := mergeDefaults options, resolverCalls := calls } =
        some (scheduleReconnect { cfg := mergeDefaults options, resolverCalls := calls }) := by
    intro msg calls
    have h := emit_no_listener P app fuel .evError [jsError msg]
      { cfg := mergeDefaults options, resolverCalls := calls } rfl
    simp only [failAndRetry, h]
  have hsched : ∀ calls : Nat, ∃ r c,
      scheduleReconnect { cfg := mergeDefaults options, resolverCalls := calls } = (r, c) ∧
      (∀ op ∈ c.trace, ∀ ev fn args, op ≠ Op.handlerCall ev fn args) ∧ c.listeners = {} ∧
      ∀ policy, (mergeDefaults options).reconnect = some policy →
        r = .ok () ∧ c.ws = none ∧ c.sockets = [] ∧ c.timer = some 0 ∧
        c.pending = [(0, reconnectDelay policy 0)] ∧
        c.trace = [.clearTimeout none, .setTimeout 0 (reconnectDelay policy 0)] := by
    intro calls
    cases hp : (mergeDefaults options).reconnect with
    | none =>
      refine ⟨_, _, rfl, ?_, ?_, ?_⟩
      · simp [scheduleReconnect, clearTimer, hp]
      · simp [scheduleReconnect, clearTimer, hp]
      · intro policy h; cases h
    | some policy =>
      rw [scheduleReconnect_eq _ policy hp]
      refine ⟨_, _, rfl, ?_, rfl, ?_⟩
      · simp
      · intro policy' h
        cases h
        exact ⟨rfl, rfl, rfl, rfl, rfl, rfl⟩
  unfold createVacClient connect
  generalize hpick : pickHostPortToken P (mergeDefaults options) 0 = res
  obtain ⟨pr, calls⟩ := res
  simp only []
  cases pr with
  | error e =>
    refine ⟨_, _, rfl, by simp, rfl, ?_⟩
    intro policy _ h
    rcases h with h | ⟨t, h, -⟩ <;> cases h
  | ok target =>
    cases target with
    | none =>
      simp only [hfail]
      obtain ⟨r, c, h, h1, h2, h3⟩ := hsched calls
      exact ⟨r, c, by rw [h], h1, h2, fun policy hp _ => h3 policy hp⟩
    | some t =>
      simp only []
      by_cases ht : t.token.truthy = true
      · simp only [ht, Bool.not_true, Bool.false_eq_true, if_false]
        cases hctor : P.wsCtorError (connectionUrl P t) with
        | some e =>
          refine ⟨_, _, rfl, by simp [closeSocket], rfl, ?_⟩
          intro policy _ h
          rcases h with h | ⟨t', h, h'⟩
          · cases h
          · cases h; simp [ht] at h'
        | none =>
          refine ⟨_, _, rfl, by simp [closeSocket], rfl, ?_⟩
          intro policy _ h
          rcases h with h | ⟨t', h, h'⟩
          · cases h
          · cases h; simp [ht] at h'
      · simp only [ht, Bool.not_false, if_true, hfail]
        obtain ⟨r, c, h, h1, h2, h3⟩ := hsched calls
        exact ⟨r, c, by rw [h], h1, h2, fun policy hp _ => h3 policy hp⟩

/-! ## A snapshot rebuilt from its own screens -/

/-- The entries of a set built by `walk`: truthy values, no two of them the same value
for the set. -/
theorem jsSet_add_distinct (sc : JsSet) (v : JsVal) (hv : v.truthy = true)
    (h : sc.Pairwise (fun a b => JsVal.sameValueZero a b = false) ∧ ∀ x ∈ sc, x.truthy = true) :
    (JsSet.add sc v).Pairwise (fun a b => JsVal.sameValueZero a b = false) ∧
      ∀ x ∈ JsSet.add sc v, x.truthy = true := by
  unfold JsSet.add
  cases hh : JsSet.has sc v
  · simp only [Bool.false_eq_true, if_false]
    refine ⟨?_, ?_⟩
    · rw [List.pairwise_append]
      refine ⟨h.1, List.pairwise_singleton _ _, ?_⟩
      intro a ha b hb
      simp only [List.mem_singleton] at hb
      subst hb
      simp only [JsSet.has, List.any_eq_false] at hh
      simpa using hh a ha
    · intro x hx
      rcases List.mem_append.mp hx with hx | hx
      · exact h.2 x hx
      · simp only [List.mem_singleton] at hx
        subst hx
        exact hv
  · simpa using h

theorem walkRoute_inv (Q : JsSet → Prop)
    (hadd : ∀ sc v, v.truthy = true → Q sc → Q (JsSet.add sc v)) (r : JsVal)
    (ih : ∀ sc, Q sc → Q (walk (r.get "state") sc).2) (sc : JsSet) (h : Q sc) :
    Q (walkRoute r sc).2 := by
  cases r with
  | obj fields =>
    simp only [walkRoute, walkStateOf_eq, JsVal.get] at ih ⊢
    have h1 : Q (if (JsVal.lookup "name" fields).truthy = true then
        JsSet.add sc (JsVal.lookup "name" fields) else sc) := by
      split
      · rename_i hn; exact hadd _ _ hn h
      · exact h
    split
    · exact ih _ h1
    · exact h1
  | _ => exact h

theorem walkForEach_inv (Q : JsSet → Prop)
    (hadd : ∀ sc v, v.truthy = true → Q sc → Q (JsSet.add sc v)) (routes : List JsVal)
    (ih : ∀ r ∈ routes, ∀ sc, Q sc → Q (walk (r.get "state") sc).2) (sc : JsSet) (h : Q sc) :
    Q (walkForEach routes sc).2 := by
  induction routes generalizing sc with
  | nil => exact h
  | cons r rest ihl =>
    have hr := walkRoute_inv Q hadd r (ih r (List.mem_cons_self _ _)) sc h
    have hrest := fun sc => ihl (fun r' h' => ih r' (List.mem_cons_of_mem _ h')) sc
    simp only [walkForEach]
    generalize walkRoute r sc = res at hr
    obtain ⟨e, sc'⟩ := res
    cases e with
    | ok u => exact hrest sc' hr
    | error e => exact hr

theorem walk_inv_aux (Q : JsSet → Prop)
    (hadd : ∀ sc v, v.truthy = true → Q sc → Q (JsSet.add sc v)) (N : Nat) :
    ∀ (s : JsVal), sizeOf s < N → ∀ (sc : JsSet), Q sc → Q (walk s sc).2 := by
  induction N with
  | zero => intro s h; omega
  | succ N ihN =>
    intro s hs sc hq
    cases s with
    | obj fields =>
      rw [walk_obj]
      have hsz := lookup_sizeOf "routes" fields
      generalize JsVal.lookup "routes" fields = rv at hsz ⊢
      cases rv with
      | arr routes =>
        simp only [walkRoutes]
        apply walkForEach_inv Q hadd routes _ sc hq
        intro r hr sc' hq'
        by_cases ht : (r.get "state").truthy = true
        · apply ihN _ _ _ hq'
          have h1 := get_sizeOf r "state" ht
          have h2 := List.sizeOf_lt_of_mem hr
          simp at hs hsz
          omega
        · have : (walk (r.get "state") sc').2 = sc' := by
            generalize r.get "state" = st at ht
            cases st <;> simp_all [walk, JsVal.truthy]
          rw [this]; exact hq'
      | _ =>
        simp only [walkRoutes]
        split <;> exact hq
    | _ => exact hq

theorem walk_inv (Q : JsSet → Prop)
    (hadd : ∀ sc v, v.truthy = true → Q sc → Q (JsSet.add sc v)) (s : JsVal) (sc : JsSet)
    (h : Q sc) : Q (walk s sc).2 :=
  walk_inv_aux Q hadd (sizeOf s + 1) s (Nat.lt_succ_self _) sc h

theorem walkForEach_flat (names : List JsVal) (sc : JsSet)
    (h : ∀ n ∈ names, n.truthy = true) :
    walkForEach (names.map (fun n => JsVal.obj [("name", n)])) sc =
      (.ok (), names.foldl JsSet.add sc) := by
  induction names generalizing sc with
  | nil => rfl
  | cons n rest ih =>
    have hn : n.truthy = true := h n (List.mem_cons_self _ _)
    simp only [List.map_cons, walkForEach, walkRoute, walkStateOf_eq, JsVal.lookup, if_true,
      hn, List.foldl_cons]
    simp only [if_neg (show ¬ ("name" = "state") by decide), JsVal.truthy, Bool.false_eq_true,
      if_false]
    exact ih _ (fun m hm => h m (List.mem_cons_of_mem _ hm))

theorem foldl_add_distinct (names sc : JsSet)
    (h : (sc ++ names).Pairwise (fun a b => JsVal.sameValueZero a b = false)) :
    names.foldl JsSet.add sc = sc ++ names := by
  induction names generalizing sc with
  | nil => simp
  | cons n rest ih =>
    have hhas : JsSet.has sc n = false := by
      simp only [JsSet.has, List.any_eq_false]
      intro a ha
      rw [List.pairwise_append] at h
      simpa using h.2.2 a ha n (List.mem_cons_self _ _)
    simp only [List.foldl_cons, JsSet.add, hhas, Bool.false_eq_true, if_false]
    rw [ih (sc ++ [n]) (by simpa using h)]
    simp

/-- C20. For every value `s`, the snapshot built from the flat state whose routes are
one route `{name}` for each screen of the snapshot of `s`, in that order, has exactly
the screens of the snapshot of `s`. -/
theorem buildSnapshot_idempotent (s : JsVal) :
    ∃ screens, buildSnapshotFromReactNavigation s = .ok (.obj [("screens", .arr screens)]) ∧
      buildSnapshotFromReactNavigation (flatState screens) =
        .ok (.obj [("screens", .arr screens)]) := by
  have hq := walk_inv
    (fun sc => sc.Pairwise (fun a b => JsVal.sameValueZero a b = false) ∧
      ∀ x ∈ sc, x.truthy = true)
    jsSet_add_distinct s [] ⟨List.Pairwise.nil, by simp⟩
  have hok := walk_ok s []
  refine ⟨(walk s []).2, ?_, ?_⟩
  · unfold buildSnapshotFromReactNavigation
    generalize walk s [] = res at hok
    obtain ⟨e, sc⟩ := res
    simp only at hok
    subst hok
    rfl
  · generalize (walk s []).2 = screens at hq
    unfold buildSnapshotFromReactNavigation flatState
    rw [walk_obj]
    simp only [JsVal.lookup, if_true, walkRoutes, walkForEach_flat screens [] hq.2]
    rw [foldl_add_distinct screens [] (by simpa using hq.1)]
    simp

/-! ## Dispatch -/

theorem drop_of_get? {α : Type} (l : List α) (i : Nat) (x : α) (h : l.get? i = some x) :
    l.drop i = x :: l.drop (i + 1) := by
  rw [List.get?_eq_getElem?] at h
  obtain ⟨hi, hx⟩ := List.getElem?_eq_some_iff.mp h
  rw [List.drop_eq_getElem_cons hi, hx]

theorem drop_of_get?_none {α : Type} (l : List α) (i : Nat) (h : l.get? i = none) :
    l.drop i = [] := by
  rw [List.get?_eq_getElem?] at h
  exact List.drop_eq_nil_of_le (List.getElem?_eq_none_iff.mp h)

theorem safeSend_calls (P : Builtins) (msg : JsVal) (c : Client) :
    (safeSend P msg c).2.trace.filter Op.isCall = c.trace.filter Op.isCall ∧
      (safeSend P msg c).2.listeners = c.listeners := by
  rw [safeSend_eq]
  cases c.ws with
  | none => exact ⟨rfl, rfl⟩
  | some id =>
    simp only []
    split
    · cases frameOf P msg with
      | error e => exact ⟨rfl, rfl⟩
      | ok data =>
        simp only []
        cases P.wsSendError id data <;> simp [Client.log, Op.isCall]
    · exact ⟨rfl, rfl⟩

theorem perform_calls (P : Builtins) (a : Action) (c : Client) :
    (perform P a c).2.trace.filter Op.isCall = c.trace.filter Op.isCall := by
  cases a with
  | send msg => rw [perform_send_snd]; exact (safeSend_calls P msg c).1
  | close =>
    simp only [perform, close, closeSocket, clearTimer]
    cases c.ws <;> simp [Op.isCall]
  | subscribe ev fn => simp only [perform, onEvent]; cases slotOf ev <;> rfl
  | unsubscribe ev fn => simp only [perform, offEvent]; cases slotOf ev <;> rfl
  | publishNavigatorSnapshot s =>
    rw [perform_publish_snd]
    unfold publishNavigatorSnapshot
    split
    · rfl
    · exact (safeSend_calls P _ c).1
  | throw e => rfl

theorem perform_listeners (P : Builtins) (ev : Ev) (a : Action) (c : Client) :
    (perform P a c).2.listeners.get ev =
      match a with
      | .subscribe name fn =>
        if slotOf name = .own ev then (c.listeners.get ev).add fn else c.listeners.get ev
      | .unsubscribe name fn =>
        if slotOf name = .own ev then (c.listeners.get ev).delete fn else c.listeners.get ev
      | _ => c.listeners.get ev := by
  cases a with
  | send msg => rw [perform_send_snd, (safeSend_calls P msg c).2]
  | close =>
    simp only [perform, close, closeSocket, clearTimer]
    cases c.ws <;> rfl
  | subscribe name fn =>
    simp only [perform, onEvent]
    cases hs : slotOf name with
    | own e =>
      simp only [listeners_get_set, Slot.own.injEq]
      split
      · rename_i he; subst he; rfl
      · rfl
    | inherited => simp
    | missing => simp
  | unsubscribe name fn =>
    simp only [perform, offEvent]
    cases hs : slotOf name with
    | own e =>
      simp only [listeners_get_set, Slot.own.injEq]
      split
      · rename_i he; subst he; rfl
      · rfl
    | inherited => simp
    | missing => simp
  | publishNavigatorSnapshot s =>
    rw [perform_publish_snd]
    unfold publishNavigatorSnapshot
    split
    · rfl
    · rw [(safeSend_calls P _ c).2]
  | throw e => rfl

theorem perform_untouched (P : Builtins) (ev : Ev) (a : Action) (c : Client)
    (h : a.touches ev = false) :
    (perform P a c).2.listeners.get ev = c.listeners.get ev := by
  rw [perform_listeners]
  cases a <;> simp_all [Action.touches]

theorem tombed_refl (s : HandlerSet) : Tombed s s :=
  List.forall₂_same.mpr (fun _ _ => Or.inl rfl)

theorem tombed_trans {a b c : HandlerSet} (h1 : Tombed a b) (h2 : Tombed b c) : Tombed a c := by
  unfold Tombed at *
  induction h1 generalizing c with
  | nil => cases h2; exact List.Forall₂.nil
  | cons hab _ ih =>
    cases h2 with
    | cons hbc h2' =>
      refine List.Forall₂.cons ?_ (ih h2')
      rcases hbc with h | h
      · rcases hab with h' | h'
        · exact Or.inl (h.trans h')
        · exact Or.inr (h.trans h')
      · exact Or.inr h

theorem tombed_delete (s : HandlerSet) (fn : Nat) : Tombed s (s.delete fn) := by
  unfold Tombed HandlerSet.delete
  induction s with
  | nil => exact List.Forall₂.nil
  | cons e rest ih =>
    refine List.Forall₂.cons ?_ ih
    by_cases h : e = some fn <;> simp [h]

theorem perform_tombed (P : Builtins) (ev : Ev) (a : Action) (c : Client)
    (h : a.subscribesTo ev = false) :
    Tombed (c.listeners.get ev) ((perform P a c).2.listeners.get ev) := by
  rw [perform_listeners]
  cases a with
  | subscribe name fn =>
    simp only [Action.subscribesTo, beq_eq_false_iff_ne, ne_eq] at h
    simp only [h, if_false]
    exact tombed_refl _
  | unsubscribe name fn =>
    simp only []
    split
    · exact tombed_delete _ _
    · exact tombed_refl _
  | _ => exact tombed_refl _

theorem callHandler_calls (P : Builtins) (app : App) (ev : Ev) (fn : Nat) (args : List JsVal)
    (c : Client) :
    (callHandler P app ev fn args c).2.trace.filter Op.isCall =
      c.trace.filter Op.isCall ++ [Op.handlerCall ev fn args] := by
  have := performAll_rel P
    (fun a b => b.trace.filter Op.isCall = a.trace.filter Op.isCall)
    (fun _ => rfl) (fun _ _ _ h1 h2 => h2.trans h1) (app fn args)
    (fun a _ c => perform_calls P a c) (c.log (.handlerCall ev fn args))
  rw [callHandler, this]
  simp [Client.log, Op.isCall]

theorem callHandler_untouched (P : Builtins) (app : App) (ev : Ev) (fn : Nat)
    (args : List JsVal) (c : Client) (h : ∀ a ∈ app fn args, a.touches ev = false) :
    (callHandler P app ev fn args c).2.listeners.get ev = c.listeners.get ev :=
  performAll_rel P
    (fun a b => b.listeners.get ev = a.listeners.get ev)
    (fun _ => rfl) (fun _ _ _ h1 h2 => h2.trans h1) (app fn args)
    (fun a ha c => perform_untouched P ev a c (h a ha)) (c.log (.handlerCall ev fn args))

theorem callHandler_tombed (P : Builtins) (app : App) (ev : Ev) (fn : Nat)
    (args : List JsVal) (c : Client) (h : ∀ a ∈ app fn args, a.subscribesTo ev = false) :
    Tombed (c.listeners.get ev) ((callHandler P app ev fn args c).2.listeners.get ev) :=
  performAll_rel P
    (fun a b => Tombed (a.listeners.get ev) (b.listeners.get ev))
    (fun _ => tombed_refl _) (fun _ _ _ h1 h2 => tombed_trans h1 h2) (app fn args)
    (fun a ha c => perform_tombed P ev a c (h a ha)) (c.log (.handlerCall ev fn args))

/-- A dispatch whose handlers leave the set of the event as it is calls every entry from
the position `i` on, in order, and ends. -/
theorem forEachListener_stable (P : Builtins) (app : App) (ev : Ev) (args : List JsVal)
    (s : HandlerSet) (hs : ∀ fn, some fn ∈ s → ∀ a ∈ app fn args, a.touches ev = false) :
    ∀ (fuel i : Nat) (c : Client), c.listeners.get ev = s → s.length - i + 1 ≤ fuel →
      ∃ c', forEachListener P app ev args fuel i c = some c' ∧
        c'.listeners.get ev = s ∧
        c'.trace.filter Op.isCall = c.trace.filter Op.isCall ++
          (HandlerSet.live (s.drop i)).map (fun fn => Op.handlerCall ev fn args) := by
  intro fuel
  induction fuel with
  | zero => intro i c _ h; omega
  | succ n ih =>
    intro i c hc hfuel
    simp only [forEachListener, hc]
    cases hg : s.get? i with
    | none =>
      refine ⟨c, rfl, hc, ?_⟩
      simp [drop_of_get?_none s i hg, HandlerSet.live]
    | some entry =>
      have hi : i < s.length := by
        by_contra hcon
        rw [List.get?_eq_none.mpr (by omega)] at hg
        cases hg
      rw [drop_of_get? s i entry hg]
      cases entry with
      | none =>
        obtain ⟨c', h1, h2, h3⟩ := ih (i + 1) c hc (by omega)
        exact ⟨c', h1, h2, by simpa [HandlerSet.live] using h3⟩
      | some fn =>
        have hmem : some fn ∈ s := List.get?_mem hg
        have hset := callHandler_untouched P app ev fn args c (hs fn hmem)
        obtain ⟨c', h1, h2, h3⟩ := ih (i + 1) (callHandler P app ev fn args c).2
          (hset.trans hc) (by omega)
        refine ⟨c', h1, h2, ?_⟩
        rw [h3, callHandler_calls]
        simp [HandlerSet.live]

theorem foldl_add_nodup (hs : List Nat) (s : HandlerSet)
    (h : (s ++ hs.map some).Nodup) :
    hs.foldl HandlerSet.add s = s ++ hs.map some := by
  induction hs generalizing s with
  | nil => simp
  | cons x rest ih =>
    have hx : s.contains (some x) = false := by
      rw [List.nodup_append] at h
      have := h.2.2
      simp only [List.contains_eq_any_beq, List.any_eq_false, beq_iff_eq]
      intro e he hex
      subst hex
      exact List.disjoint_left.mp this he (by simp)
    simp only [List.foldl_cons, HandlerSet.add, hx, Bool.false_eq_true, if_false]
    rw [ih (s ++ [some x]) (by simpa using h)]
    simp

/-- C11, counterexample: the handlers 0 and 1 are subscribed to `message`, and handler 0
unsubscribes handler 1. Publishing `message` calls handler 0 only: handler 1, which was
registered when the event was published, is not invoked. -/
theorem emit_skips_cancelled_handler :
    twoHandlersClient.listeners.get .evMessage = [some 0, some 1] ∧
    emit sampleBuiltins cancellingApp 3 .evMessage [.str "m"] twoHandlersClient =
      some (.ok (), { twoHandlersClient with
        listeners := { onMessage := [some 0, none] }
        trace := [.handlerCall .evMessage 0 [.str "m"]] }) :=
  ⟨rfl, rfl⟩

/-- C11, amended. Publishing an event never passes a fault on to the publisher: `emit` completes
normally whenever the dispatch ends. For a set of registered handlers whose bodies do
not subscribe to or unsubscribe from the event while it is dispatched (they may throw
at any point), the dispatch ends within one step more than the set has entries and
calls every registered handler, with the published arguments, once and in registration
order, whether or not an earlier handler threw. Handlers registered one after another
through `on` are entries of the set in that order. -/
theorem emit_calls_every_handler (P : Builtins) (app : App) (fuel : Nat) (ev : Ev)
    (args : List JsVal) (c : Client)
    (hstable : ∀ fn, some fn ∈ c.listeners.get ev → ∀ a ∈ app fn args, a.touches ev = false)
    (hfuel : (c.listeners.get ev).length < fuel) :
    (∃ c', emit P app fuel ev args c = some (.ok (), c') ∧
      c'.listeners.get ev = c.listeners.get ev ∧
      c'.trace.filter Op.isCall = c.trace.filter Op.isCall ++
        (HandlerSet.live (c.listeners.get ev)).map (fun fn => Op.handlerCall ev fn args)) ∧
    (∀ (app' : App) (fuel' : Nat) res, emit P app' fuel' ev args c = some res → res.1 = .ok ()) ∧
    (∀ hs : List Nat, hs.Nodup →
      hs.foldl HandlerSet.add [] = hs.map some ∧ HandlerSet.live (hs.map some) = hs) := by
  refine ⟨?_, ?_, ?_⟩
  · obtain ⟨c', h1, h2, h3⟩ := forEachListener_stable P app ev args (c.listeners.get ev)
      hstable fuel 0 c rfl (by omega)
    exact ⟨c', by simp [emit, h1], h2, by simpa using h3⟩
  · intro app' fuel' res h
    exact (emit_trace P app' ev args fuel' c res h).1
  · intro hs hnd
    refine ⟨?_, ?_⟩
    · have := foldl_add_nodup hs [] (by simpa using hnd.map (Option.some_injective _))
      simpa using this
    · simp [HandlerSet.live, List.filterMap_map]

/-- C11, witness: the handlers 0 and 1 are subscribed to `message` and handler 0 throws;
both are called, in that order, with the message, and handler 1 sends its frame. -/
theorem emit_calls_every_handler_witness :
    (twoHandlersClient.listeners.get .evMessage).length < 3 ∧
    emit sampleBuiltins faultyApp 3 .evMessage [.str "m"] twoHandlersClient =
      some (.ok (), { twoHandlersClient with
        trace := [.handlerCall .evMessage 0 [.str "m"], .handlerCall .evMessage 1 [.str "m"],
          .wsSend 0 (.str "ran")] }) ∧
    ∃ c', emit sampleBuiltins faultyApp 3 .evMessage [.str "m"] twoHandlersClient =
        some (.ok (), c') ∧
      c'.listeners.get .evMessage = twoHandlersClient.listeners.get .evMessage ∧
      c'.trace.filter Op.isCall = twoHandlersClient.trace.filter Op.isCall ++
        (HandlerSet.live (twoHandlersClient.listeners.get .evMessage)).map
          (fun fn => Op.handlerCall .evMessage fn [.str "m"]) :=
  ⟨by decide, rfl,
    (emit_calls_every_handler sampleBuiltins faultyApp 3 .evMessage [.str "m"] twoHandlersClient
      (by
        intro fn _ a ha
        simp only [faultyApp] at ha
        split at ha <;> simp at ha <;> subst ha <;> rfl)
      (by decide)).1⟩

theorem tombed_mem {a b : HandlerSet} (h : Tombed a b) (fn : Nat) (hb : some fn ∈ b) :
    some fn ∈ a := by
  unfold Tombed at h
  induction h with
  | nil => cases hb
  | cons hab _ ih =>
    rcases List.mem_cons.mp hb with hb | hb
    · rcases hab with h' | h'
      · exact List.mem_cons.mpr (Or.inl (hb.trans h'))
      · rw [h'] at hb; cases hb
    · exact List.mem_cons_of_mem _ (ih hb)

theorem tombed_live_sublist {a b : HandlerSet} (h : Tombed a b) :
    List.Sublist (HandlerSet.live b) (HandlerSet.live a) := by
  unfold Tombed at h
  unfold HandlerSet.live
  induction h with
  | nil => exact List.Sublist.slnil
  | @cons x y l l' hab _ ih =>
    rcases hab with h' | h'
    · subst h'
      cases y with
      | none => simpa using ih
      | some v => simpa using ih
    · subst h'
      cases x with
      | none => simpa using ih
      | some v =>
        simp only [List.filterMap_cons, id_eq]
        exact List.Sublist.cons _ ih

theorem tombed_length {a b : HandlerSet} (h : Tombed a b) : b.length = a.length :=
  (List.Forall₂.length_eq h).symm

theorem tombed_drop_cons {a b : HandlerSet} (h : Tombed a b) (i : Nat) (x : Option Nat)
    (hx : a.get? i = some x) :
    ∃ y, b.drop i = y :: b.drop (i + 1) ∧ (y = x ∨ y = none) ∧
      Tombed (a.drop (i + 1)) (b.drop (i + 1)) := by
  have hd : Tombed (a.drop i) (b.drop i) := List.forall₂_drop i h
  rw [drop_of_get? a i x hx] at hd
  unfold Tombed at hd
  cases hb : b.drop i with
  | nil => rw [hb] at hd; cases hd
  | cons y rest =>
    rw [hb] at hd
    cases hd with
    | cons hxy hrest =>
      have htail : rest = b.drop (i + 1) := by
        have := congrArg List.tail hb
        simpa [List.tail_drop] using this.symm
      subst htail
      exact ⟨y, rfl, hxy, hrest⟩

/-- A dispatch whose handlers do not subscribe to the event: from the position `i` on it
calls, in order, entries that the set had at the start, each at most once, among them
every entry still in the set at the end. -/
theorem forEachListener_tombed (P : Builtins) (app : App) (ev : Ev) (args : List JsVal)
    (s0 : HandlerSet)
    (hns : ∀ fn, some fn ∈ s0 → ∀ a ∈ app fn args, a.subscribesTo ev = false) :
    ∀ (fuel i : Nat) (c : Client), Tombed s0 (c.listeners.get ev) →
      (c.listeners.get ev).length - i + 1 ≤ fuel →
      ∃ c' called, forEachListener P app ev args fuel i c = some c' ∧
        List.Sublist called (HandlerSet.live ((c.listeners.get ev).drop i)) ∧
        c'.trace.filter Op.isCall = c.trace.filter Op.isCall ++
          called.map (fun fn => Op.handlerCall ev fn args) ∧
        Tombed (c.listeners.get ev) (c'.listeners.get ev) ∧
        ∀ fn, some fn ∈ (c'.listeners.get ev).drop i → fn ∈ called := by
  intro fuel
  induction fuel with
  | zero => intro i c _ h; omega
  | succ n ih =>
    intro i c hc hfuel
    simp only [forEachListener]
    cases hg : (c.listeners.get ev).get? i with
    | none =>
      refine ⟨c, [], rfl, List.nil_sublist _, by simp, tombed_refl _, ?_⟩
      intro fn hfn
      rw [drop_of_get?_none _ i hg] at hfn
      cases hfn
    | some entry =>
      have hi : i < (c.listeners.get ev).length := by
        by_contra hcon
        rw [List.get?_eq_none.mpr (by omega)] at hg
        cases hg
      cases entry with
      | none =>
        obtain ⟨c', called, h1, h2, h3, h4, h5⟩ := ih (i + 1) c hc (by omega)
        refine ⟨c', called, h1, ?_, h3, h4, ?_⟩
        · rw [drop_of_get? _ i none hg]
          simpa [HandlerSet.live] using h2
        · intro fn hfn
          obtain ⟨y, hy, hyx, -⟩ := tombed_drop_cons h4 i none hg
          rw [hy] at hfn
          rcases List.mem_cons.mp hfn with h | h
          · rcases hyx with h' | h' <;> (rw [h'] at h; cases h)
          · exact h5 fn h
      | some fn =>
        have hmem : some fn ∈ s0 := tombed_mem hc fn (List.get?_mem hg)
        have ht := callHandler_tombed P app ev fn args c (hns fn hmem)
        obtain ⟨c', called, h1, h2, h3, h4, h5⟩ := ih (i + 1) (callHandler P app ev fn args c).2
          (tombed_trans hc ht) (by rw [tombed_length ht]; omega)
        have ht' := tombed_trans ht h4
        refine ⟨c', fn :: called, h1, ?_, ?_, ht', ?_⟩
        · rw [drop_of_get? _ i (some fn) hg]
          simp only [HandlerSet.live, List.filterMap_cons, id_eq]
          refine List.Sublist.cons₂ _ (h2.trans ?_)
          exact tombed_live_sublist (List.forall₂_drop (i + 1) ht)
        · rw [h3, callHandler_calls]
          simp
        · intro fn' hfn
          obtain ⟨y, hy, hyx, -⟩ := tombed_drop_cons ht' i (some fn) hg
          rw [hy] at hfn
          rcases List.mem_cons.mp hfn with h | h
          · rcases hyx with h' | h'
            · rw [h'] at h
              cases h
              exact List.mem_cons_self _ _
            · rw [h'] at h; cases h
          · exact List.mem_cons_of_mem _ (h5 fn' h)

theorem live_add_nodup (s : HandlerSet) (fn : Nat) (h : (HandlerSet.live s).Nodup) :
    (HandlerSet.live (s.add fn)).Nodup := by
  unfold HandlerSet.add
  cases hc : s.contains (some fn)
  · simp only [Bool.false_eq_true, if_false, HandlerSet.live, List.filterMap_append,
      List.filterMap_cons, id_eq, List.filterMap_nil]
    rw [List.nodup_append]
    refine ⟨h, List.nodup_singleton _, ?_⟩
    intro x hx hx'
    simp only [List.mem_singleton] at hx'
    subst hx'
    simp only [HandlerSet.live, List.mem_filterMap, id_eq, exists_eq_right] at hx
    simp only [List.contains_eq_any_beq, List.any_eq_false, beq_iff_eq] at hc
    exact hc _ hx rfl
  · simpa using h

theorem offEvent_removes (ev : Ev) (name : String) (fn : Nat) (c : Client)
    (h : slotOf name = .own ev) : some fn ∉ (offEvent name fn c).2.listeners.get ev := by
  simp only [offEvent, h, listeners_get_set, if_true, HandlerSet.delete, List.mem_map, not_exists,
    not_and]
  intro e _ he
  by_cases hh : e = some fn
  · simp [hh] at he
  · simp only [hh, if_false] at he

theorem handlerSet_contains {s : HandlerSet} {x : Option Nat} :
    s.contains x = true ↔ x ∈ s := by
  simp

theorem live_unique (s : HandlerSet) (h : (HandlerSet.live s).Nodup) :
    ∀ (i j : Nat) (fn : Nat), s.get? i = some (some fn) → s.get? j = some (some fn) → i = j := by
  induction s with
  | nil => intro i j fn hi; cases hi
  | cons x rest ih =>
    intro i j fn hi hj
    have hmem : ∀ k, rest.get? k = some (some fn) → fn ∈ HandlerSet.live rest := by
      intro k hk
      simp only [HandlerSet.live, List.mem_filterMap, id_eq, exists_eq_right]
      exact List.get?_mem hk
    have hrest : (HandlerSet.live rest).Nodup := by
      cases x with
      | none => simpa [HandlerSet.live] using h
      | some v =>
        have : (v :: HandlerSet.live rest).Nodup := by simpa [HandlerSet.live] using h
        exact (List.nodup_cons.mp this).2
    have hhead : x = some fn → fn ∉ HandlerSet.live rest := by
      intro hx
      subst hx
      have : (fn :: HandlerSet.live rest).Nodup := by simpa [HandlerSet.live] using h
      exact (List.nodup_cons.mp this).1
    cases i with
    | zero =>
      cases j with
      | zero => rfl
      | succ j' =>
        simp only [List.get?_cons_zero, Option.some.injEq] at hi
        exact absurd (hmem j' hj) (hhead hi)
    | succ i' =>
      cases j with
      | zero =>
        simp only [List.get?_cons_zero, Option.some.injEq] at hj
        exact absurd (hmem i' hi) (hhead hj)
      | succ j' => rw [ih hrest i' j' fn hi hj]

theorem tombed_get? {a b : HandlerSet} (h : Tombed a b) (i : Nat) (y : Option Nat)
    (hy : b.get? i = some y) : ∃ x, a.get? i = some x ∧ (y = x ∨ y = none) := by
  unfold Tombed at h
  induction h generalizing i with
  | nil => cases hy
  | cons hab _ ih =>
    cases i with
    | zero =>
      simp only [List.get?_cons_zero, Option.some.injEq] at hy
      subst hy
      exact ⟨_, rfl, hab⟩
    | succ i' => exact ih i' hy

/-- The iteration of the source from the position `i`, when no handler subscribes to the
event meanwhile, is the dispatch in turn of the handlers that the set had from that
position at the start. -/
theorem forEachListener_inTurn (P : Builtins) (app : App) (ev : Ev) (args : List JsVal)
    (s0 : HandlerSet) (hnodup : (HandlerSet.live s0).Nodup)
    (hns : ∀ fn, some fn ∈ s0 → ∀ a ∈ app fn args, a.subscribesTo ev = false) :
    ∀ (fuel i : Nat) (c : Client), Tombed s0 (c.listeners.get ev) →
      (c.listeners.get ev).length - i + 1 ≤ fuel →
      forEachListener P app ev args fuel i c =
        some (dispatchInTurn P app ev args (HandlerSet.live (s0.drop i)) c).2 := by
  intro fuel
  induction fuel with
  | zero => intro i c _ h; omega
  | succ n ih =>
    intro i c hc hfuel
    have hlen := tombed_length hc
    simp only [forEachListener]
    cases hg : (c.listeners.get ev).get? i with
    | none =>
      have hi : s0.length ≤ i := by
        rw [← hlen]
        exact List.get?_eq_none.mp hg
      rw [List.drop_eq_nil_of_le hi]
      rfl
    | some entry =>
      have hi : i < (c.listeners.get ev).length := by
        by_contra hcon
        rw [List.get?_eq_none.mpr (by omega)] at hg
        cases hg
      obtain ⟨x, hx, hyx⟩ := tombed_get? hc i entry hg
      rw [drop_of_get? s0 i x hx]
      cases entry with
      | none =>
        simp only
        rw [ih (i + 1) c hc (by omega)]
        cases x with
        | none => simp [HandlerSet.live]
        | some fn =>
          have hnot : (c.listeners.get ev).contains (some fn) = false := by
            rw [Bool.eq_false_iff]
            intro hcon
            rw [handlerSet_contains] at hcon
            obtain ⟨j, hj⟩ := List.get?_of_mem hcon
            obtain ⟨x', hx', hyx'⟩ := tombed_get? hc j (some fn) hj
            rcases hyx' with h' | h'
            · rw [← h'] at hx'
              have := live_unique s0 hnodup i j fn hx hx'
              subst this
              rw [hg] at hj
              cases hj
            · cases h'
          simp only [HandlerSet.live, List.filterMap_cons, id_eq, dispatchInTurn, hnot,
            Bool.false_eq_true, if_false]
      | some fn =>
        have hxe : x = some fn := by
          rcases hyx with h' | h'
          · exact h'.symm
          · cases h'
        subst hxe
        have hmem : some fn ∈ s0 := List.get?_mem hx
        have ht := callHandler_tombed P app ev fn args c (hns fn hmem)
        have hin : (c.listeners.get ev).contains (some fn) = true := by
          rw [handlerSet_contains]
          exact List.get?_mem hg
        simp only
        rw [ih (i + 1) (callHandler P app ev fn args c).2 (tombed_trans hc ht)
          (by rw [tombed_length ht]; omega)]
        simp only [HandlerSet.live, List.filterMap_cons, id_eq, dispatchInTurn, hin, if_true]

theorem dispatchInTurn_append (P : Builtins) (app : App) (ev : Ev) (args : List JsVal)
    (pre rest : List Nat) (c : Client) :
    dispatchInTurn P app ev args (pre ++ rest) c =
      ((dispatchInTurn P app ev args pre c).1 ++
        (dispatchInTurn P app ev args rest (dispatchInTurn P app ev args pre c).2).1,
       (dispatchInTurn P app ev args rest (dispatchInTurn P app ev args pre c).2).2) := by
  induction pre generalizing c with
  | nil => rfl
  | cons fn pre ih =>
    simp only [List.cons_append, dispatchInTurn]
    split
    · have := ih (callHandler P app ev fn args c).2
      simp only [List.append_eq] at this ⊢
      rw [this]
      rfl
    · exact ih c

theorem dispatchInTurn_sublist (P : Builtins) (app : App) (ev : Ev) (args : List JsVal)
    (hs : List Nat) (c : Client) :
    List.Sublist (dispatchInTurn P app ev args hs c).1 hs := by
  induction hs generalizing c with
  | nil => exact List.Sublist.slnil
  | cons fn rest ih =>
    simp only [dispatchInTurn]
    split
    · exact List.Sublist.cons₂ _ (ih _)
    · exact List.Sublist.cons _ (ih _)

theorem dispatchInTurn_calls (P : Builtins) (app : App) (ev : Ev) (args : List JsVal)
    (hs : List Nat) (c : Client) :
    (dispatchInTurn P app ev args hs c).2.trace.filter Op.isCall =
      c.trace.filter Op.isCall ++
        (dispatchInTurn P app ev args hs c).1.map (fun fn => Op.handlerCall ev fn args) := by
  induction hs generalizing c with
  | nil => simp [dispatchInTurn]
  | cons fn rest ih =>
    simp only [dispatchInTurn]
    split
    · simp only [ih, callHandler_calls, List.map_cons, List.append_assoc, List.singleton_append]
    · exact ih c

theorem dispatchInTurn_mem (P : Builtins) (app : App) (ev : Ev) (args : List JsVal)
    (pre post : List Nat) (fn : Nat) (c : Client) (hnodup : (pre ++ fn :: post).Nodup) :
    fn ∈ (dispatchInTurn P app ev args (pre ++ fn :: post) c).1 ↔
      some fn ∈ (dispatchInTurn P app ev args pre c).2.listeners.get ev := by
  have hpre : fn ∉ pre := by
    intro h
    have := List.nodup_append.mp hnodup
    exact this.2.2 h (List.mem_cons_self _ _)
  have hpost : fn ∉ post := by
    have := (List.nodup_append.mp hnodup).2.1
    exact (List.nodup_cons.mp this).1
  rw [dispatchInTurn_append]
  simp only [List.mem_append]
  constructor
  · rintro (h | h)
    · exact absurd ((dispatchInTurn_sublist P app ev args pre c).subset h) hpre
    · simp only [dispatchInTurn] at h
      split at h
      · rename_i hin
        exact handlerSet_contains.mp hin
      · exact absurd ((dispatchInTurn_sublist P app ev args post _).subset h) hpost
  · intro h
    right
    simp only [dispatchInTurn, handlerSet_contains.mpr h, if_true]
    exact List.mem_cons_self _ _

theorem dispatchInTurn_tombed (P : Builtins) (app : App) (ev : Ev) (args : List JsVal)
    (hs : List Nat) (hns : ∀ fn ∈ hs, ∀ a ∈ app fn args, a.subscribesTo ev = false)
    (c : Client) :
    Tombed (c.listeners.get ev) ((dispatchInTurn P app ev args hs c).2.listeners.get ev) := by
  induction hs generalizing c with
  | nil => exact tombed_refl _
  | cons fn rest ih =>
    have hrest : ∀ fn' ∈ rest, ∀ a ∈ app fn' args, a.subscribesTo ev = false :=
      fun fn' h => hns fn' (List.mem_cons_of_mem _ h)
    simp only [dispatchInTurn]
    split
    · exact tombed_trans
        (callHandler_tombed P app ev fn args c (hns fn (List.mem_cons_self _ _))) (ih hrest _)
    · exact ih hrest c

theorem mem_live {s : HandlerSet} {fn : Nat} : fn ∈ HandlerSet.live s ↔ some fn ∈ s := by
  simp [HandlerSet.live]

/-- C17, counterexample: the handlers 0 and 1 are subscribed to `message`, and handler 1
unsubscribes handler 0 and subscribes it again. Handler 0 is then at the end of the set
and the dispatch visits it a second time: one publish calls handler 0 twice. -/
theorem emit_revisits_resubscribed_handler :
    twoHandlersClient.listeners.get .evMessage = [some 0, some 1] ∧
    emit sampleBuiltins resubscribingApp 4 .evMessage [.str "m"] twoHandlersClient =
      some (.ok (), { twoHandlersClient with
        listeners := { onMessage := [none, some 1, some 0] }
        trace := [.handlerCall .evMessage 0 [.str "m"], .handlerCall .evMessage 1 [.str "m"],
          .handlerCall .evMessage 0 [.str "m"]] }) :=
  ⟨rfl, rfl⟩

/-- C17, amended. While an event is dispatched, handlers may unsubscribe themselves or
other handlers (no handler subscribing to the event meanwhile). The dispatch of the
source then ends and is the dispatch in turn: the handlers registered at the start take
their turn in registration order, and a handler is called exactly when it is still
registered at its turn, that is, after the turns of the handlers before it; one removed
before its turn is skipped, and resuming the iteration of the source at any position
from the state after the earlier turns gives the same result. The handlers called are
entries that the set had at the start, each called once, among them every handler still
registered at the end; a handler that is not registered is not called. An unsubscribed
handler is no entry of the set any more, so that no later dispatch calls it; and the
entries of a set stay distinct under `add` and `delete`. -/
theorem emit_with_unsubscribe (P : Builtins) (app : App) (fuel : Nat) (ev : Ev)
    (args : List JsVal) (c : Client)
    (hns : ∀ fn, some fn ∈ c.listeners.get ev → ∀ a ∈ app fn args, a.subscribesTo ev = false)
    (hnodup : (HandlerSet.live (c.listeners.get ev)).Nodup)
    (hfuel : (c.listeners.get ev).length < fuel) :
    (∃ c' called, emit P app fuel ev args c = some (.ok (), c') ∧
      dispatchInTurn P app ev args (HandlerSet.live (c.listeners.get ev)) c = (called, c') ∧
      (∀ pre fn post, HandlerSet.live (c.listeners.get ev) = pre ++ fn :: post →
        (fn ∈ called ↔
          some fn ∈ (dispatchInTurn P app ev args pre c).2.listeners.get ev)) ∧
      (∀ i, forEachListener P app ev args fuel i
        (dispatchInTurn P app ev args (HandlerSet.live ((c.listeners.get ev).take i)) c).2 =
          some c') ∧
      List.Sublist called (HandlerSet.live (c.listeners.get ev)) ∧ called.Nodup ∧
      c'.trace.filter Op.isCall = c.trace.filter Op.isCall ++
        called.map (fun fn => Op.handlerCall ev fn args) ∧
      Tombed (c.listeners.get ev) (c'.listeners.get ev) ∧
      (∀ fn, some fn ∈ c'.listeners.get ev → fn ∈ called) ∧
      (∀ fn, some fn ∉ c.listeners.get ev → fn ∉ called)) ∧
    (∀ name fn (c0 : Client), slotOf name = .own ev →
      some fn ∉ (offEvent name fn c0).2.listeners.get ev) ∧
    (∀ (s : HandlerSet) (fn : Nat), (HandlerSet.live s).Nodup →
      (HandlerSet.live (s.add fn)).Nodup ∧ (HandlerSet.live (s.delete fn)).Nodup) := by
  refine ⟨?_, ?_, ?_⟩
  · have hrun := forEachListener_inTurn P app ev args (c.listeners.get ev) hnodup hns fuel 0 c
      (tombed_refl _) (by omega)
    rw [List.drop_zero] at hrun
    obtain ⟨c', called, h1, h2, h3, h4, h5⟩ := forEachListener_tombed P app ev args
      (c.listeners.get ev) hns fuel 0 c (tombed_refl _) (by omega)
    simp only [List.drop_zero] at h2 h5
    have hc' : (dispatchInTurn P app ev args (HandlerSet.live (c.listeners.get ev)) c).2 = c' := by
      rw [hrun] at h1
      exact Option.some.inj h1
    have hcalled :
        (dispatchInTurn P app ev args (HandlerSet.live (c.listeners.get ev)) c).1 = called := by
      have hd := dispatchInTurn_calls P app ev args (HandlerSet.live (c.listeners.get ev)) c
      rw [hc', h3] at hd
      have := List.append_cancel_left hd
      refine (List.map_injective_iff.mpr ?_ this).symm
      intro a b hab
      cases hab
      rfl
    have hpair : dispatchInTurn P app ev args (HandlerSet.live (c.listeners.get ev)) c =
        (called, c') := by
      rw [← hc', ← hcalled]
    refine ⟨c', called, by simp [emit, h1], hpair, ?_, ?_, h2, h2.nodup hnodup, h3, h4, h5, ?_⟩
    · intro pre fn post hsplit
      rw [← hcalled, hsplit]
      exact dispatchInTurn_mem P app ev args pre post fn c (by rw [← hsplit]; exact hnodup)
    · intro i
      have hsub : ∀ fn ∈ HandlerSet.live ((c.listeners.get ev).take i),
          ∀ a ∈ app fn args, a.subscribesTo ev = false := by
        intro fn hfn
        exact hns fn (List.mem_of_mem_take (mem_live.mp hfn))
      have ht := dispatchInTurn_tombed P app ev args
        (HandlerSet.live ((c.listeners.get ev).take i)) hsub c
      rw [forEachListener_inTurn P app ev args (c.listeners.get ev) hnodup hns fuel i _ ht
        (by rw [tombed_length ht]; omega)]
      have happ := dispatchInTurn_append P app ev args
        (HandlerSet.live ((c.listeners.get ev).take i))
        (HandlerSet.live ((c.listeners.get ev).drop i)) c
      have hlive : HandlerSet.live ((c.listeners.get ev).take i) ++
          HandlerSet.live ((c.listeners.get ev).drop i) =
          HandlerSet.live (c.listeners.get ev) := by
        simp only [HandlerSet.live, ← List.filterMap_append, List.take_append_drop]
      rw [hlive, hpair] at happ
      rw [← (Prod.mk.inj happ).2]
    · intro fn hfn hcalled'
      exact hfn (mem_live.mp (h2.subset hcalled'))
  · intro name fn c0 h
    exact offEvent_removes ev name fn c0 h
  · intro s fn h
    exact ⟨live_add_nodup s fn h, (tombed_live_sublist (tombed_delete s fn)).nodup h⟩

/-- C17, witness: the handlers 0, 1 and 2 are subscribed to `message`, and handler 0
unsubscribes itself and handler 1. The dispatch calls handler 0, skips handler 1 and
calls handler 2, which sends its frame; the handlers 0 and 1 are deleted from the set. -/
theorem emit_with_unsubscribe_witness :
    (∀ fn, some fn ∈ threeHandlersClient.listeners.get .evMessage →
      ∀ a ∈ unsubscribingApp fn [.str "m"], a.subscribesTo .evMessage = false) ∧
    (HandlerSet.live (threeHandlersClient.listeners.get .evMessage)).Nodup ∧
    (threeHandlersClient.listeners.get .evMessage).length < 4 ∧
    emit sampleBuiltins unsubscribingApp 4 .evMessage [.str "m"] threeHandlersClient =
      some (.ok (), { threeHandlersClient with
        listeners := { onMessage := [none, none, some 2] }
        trace := [.handlerCall .evMessage 0 [.str "m"], .handlerCall .evMessage 2 [.str "m"],
          .wsSend 0 (.str "ran")] }) ∧
    ∃ c' called,
      emit sampleBuiltins unsubscribingApp 4 .evMessage [.str "m"] threeHandlersClient =
        some (.ok (), c') ∧
      dispatchInTurn sampleBuiltins unsubscribingApp .evMessage [.str "m"]
        (HandlerSet.live (threeHandlersClient.listeners.get .evMessage)) threeHandlersClient =
        (called, c') ∧
      (∀ pre fn post,
        HandlerSet.live (threeHandlersClient.listeners.get .evMessage) = pre ++ fn :: post →
        (fn ∈ called ↔
          some fn ∈ (dispatchInTurn sampleBuiltins unsubscribingApp .evMessage [.str "m"] pre
            threeHandlersClient).2.listeners.get .evMessage)) ∧
      (∀ i, forEachListener sampleBuiltins unsubscribingApp .evMessage [.str "m"] 4 i
        (dispatchInTurn sampleBuiltins unsubscribingApp .evMessage [.str "m"]
          (HandlerSet.live ((threeHandlersClient.listeners.get .evMessage).take i))
          threeHandlersClient).2 = some c') ∧
      List.Sublist called (HandlerSet.live (threeHandlersClient.listeners.get .evMessage)) ∧
      called.Nodup ∧
      c'.trace.filter Op.isCall = threeHandlersClient.trace.filter Op.isCall ++
        called.map (fun fn => Op.handlerCall .evMessage fn [.str "m"]) ∧
      Tombed (threeHandlersClient.listeners.get .evMessage) (c'.listeners.get .evMessage) ∧
      (∀ fn, some fn ∈ c'.listeners.get .evMessage → fn ∈ called) ∧
      (∀ fn, some fn ∉ threeHandlersClient.listeners.get .evMessage → fn ∉ called) :=
  ⟨by
      intro fn _ a ha
      simp only [unsubscribingApp] at ha
      split at ha <;> simp at ha
      · rcases ha with ha | ha <;> subst ha <;> rfl
      · subst ha; rfl,
    by decide, by decide, rfl,
    (emit_with_unsubscribe sampleBuiltins unsubscribingApp 4 .evMessage [.str "m"]
      threeHandlersClient
      (by
        intro fn _ a ha
        simp only [unsubscribingApp] at ha
        split at ha <;> simp at ha
        · rcases ha with ha | ha <;> subst ha <;> rfl
        · subst ha; rfl)
      (by decide) (by decide)).1⟩

/-! ## One socket at a time -/

theorem keeps_refl (c : Client) : Client.keeps c c :=
  ⟨fun _ => Iff.rfl, rfl, rfl, fun _ h => h, rfl, rfl, rfl⟩

theorem keeps_trans (a b c : Client) (h1 : Client.keeps a b) (h2 : Client.keeps b c) :
    Client.keeps a c :=
  ⟨fun id => (h2.1 id).trans (h1.1 id), h2.2.1.trans h1.2.1, h2.2.2.1.trans h1.2.2.1,
    fun t ht => h1.2.2.2.1 t (h2.2.2.2.1 t ht), h2.2.2.2.2.1.trans h1.2.2.2.2.1,
    h2.2.2.2.2.2.1.trans h1.2.2.2.2.2.1, h2.2.2.2.2.2.2.trans h1.2.2.2.2.2.2⟩

theorem keeps_sequential (a b : Client) (h : Client.keeps a b) (ha : a.sequential) :
    b.sequential := by
  obtain ⟨h1, h2, h3, h4, -, -, -⟩ := h
  obtain ⟨a1, a2, a3⟩ := ha
  refine ⟨?_, ?_, ?_⟩
  · intro id hid
    rw [h2]
    exact a1 id ((h1 id).mp hid)
  · rintro ⟨id, hid⟩
    have := a2 ⟨id, (h1 id).mp hid⟩
    cases hp : b.pending with
    | nil => rfl
    | cons t rest =>
      have := h4 t (by rw [hp]; exact List.mem_cons_self _ _)
      simp_all
  · intro t ht
    rw [h3]
    exact a3 t (h4 t ht)

theorem log_keeps (c : Client) (op : Op) : Client.keeps c (c.log op) :=
  ⟨fun _ => Iff.rfl, rfl, rfl, fun _ h => h, rfl, rfl, rfl⟩

theorem clearTimer_keeps (c : Client) : Client.keeps c (clearTimer c) :=
  ⟨fun _ => Iff.rfl, rfl, rfl, fun _ h => (List.mem_filter.mp h).1, rfl, rfl, rfl⟩

theorem closeSocket_readyState (c : Client) (id : Nat) :
    (closeSocket c).readyState id =
      if c.ws = some id then (c.readyState id).map (fun s => if s = 2 ∨ s = 3 then s else 2)
      else c.readyState id := by
  unfold closeSocket
  cases hws : c.ws with
  | none => simp
  | some w =>
    simp only [Client.readyState, List.get?_eq_getElem?, Option.some.injEq]
    by_cases h : w = id
    · subst h
      simp only [List.getElem?_modify_eq, Option.map_map, if_true]
      cases c.sockets[w]? with
      | none => rfl
      | some s =>
        by_cases h : s.readyState = 2 ∨ s.readyState = 3 <;> simp [Socket.close, h]
    · simp [List.getElem?_modify_ne _ _ h, h]

theorem closeSocket_keeps (c : Client) : Client.keeps c (closeSocket c) := by
  refine ⟨?_, ?_, ?_, ?_, ?_, ?_, ?_⟩
  · intro id
    simp only [Client.notClosed, closeSocket_readyState]
    split
    · cases c.readyState id with
      | none => simp
      | some s =>
        simp only [Option.map_some', Option.some.injEq, exists_eq_left']
        split <;> omega
    · rfl
  all_goals (unfold closeSocket; split <;> first | rfl | exact fun _ h => h | simp)

theorem safeSend_keeps (P : Builtins) (msg : JsVal) (c : Client) :
    Client.keeps c (safeSend P msg c).2 := by
  rw [safeSend_eq]
  cases c.ws with
  | none => exact keeps_refl c
  | some id =>
    simp only []
    split
    · cases frameOf P msg with
      | error e => exact keeps_refl c
      | ok data =>
        simp only []
        cases P.wsSendError id data <;> exact log_keeps c _
    · exact keeps_refl c

theorem perform_keeps (P : Builtins) (a : Action) (c : Client) :
    Client.keeps c (perform P a c).2 := by
  cases a with
  | send msg => rw [perform_send_snd]; exact safeSend_keeps P msg c
  | close => exact keeps_trans _ _ _ (clearTimer_keeps c) (closeSocket_keeps _)
  | subscribe ev fn =>
    simp only [perform, onEvent]
    cases slotOf ev <;> exact ⟨fun _ => Iff.rfl, rfl, rfl, fun _ h => h, rfl, rfl, rfl⟩
  | unsubscribe ev fn =>
    simp only [perform, offEvent]
    cases slotOf ev <;> exact ⟨fun _ => Iff.rfl, rfl, rfl, fun _ h => h, rfl, rfl, rfl⟩
  | publishNavigatorSnapshot s =>
    rw [perform_publish_snd]
    unfold publishNavigatorSnapshot
    split
    · exact keeps_refl c
    · exact safeSend_keeps P _ c
  | throw e => exact keeps_refl c

theorem emit_keeps (P : Builtins) (app : App) (ev : Ev) (args : List JsVal) (fuel : Nat)
    (c : Client) (res : Except JsVal Unit × Client) (h : emit P app fuel ev args c = some res) :
    res.1 = .ok () ∧ Client.keeps c res.2 := by
  simp only [emit, Option.map_eq_some'] at h
  obtain ⟨c', h, rfl⟩ := h
  refine ⟨rfl, ?_⟩
  refine forEachListener_rel P app ev args Client.keeps keeps_refl keeps_trans ?_ fuel 0 c c' h
  intro c fn
  exact keeps_trans _ _ _ (log_keeps c _)
    (performAll_rel P Client.keeps keeps_refl keeps_trans (app fn args)
      (fun a _ c => perform_keeps P a c) (c.log (.handlerCall ev fn args)))

theorem setReadyState_readyState (c : Client) (id s id' : Nat) :
    (c.setReadyState id s).readyState id' =
      if id = id' then (c.readyState id').map (fun _ => s) else c.readyState id' := by
  simp only [Client.readyState, Client.setReadyState, List.get?_eq_getElem?]
  by_cases h : id = id'
  · subst h
    simp only [List.getElem?_modify_eq, Option.map_map, if_true]
    cases c.sockets[id]? <;> rfl
  · simp [List.getElem?_modify_ne _ _ h, h]

theorem scheduleReconnect_none (c : Client) (h : c.cfg.reconnect = none) :
    scheduleReconnect c = (.error (typeError "cfg.reconnect is undefined"), clearTimer c) := by
  simp [scheduleReconnect, clearTimer, h]

theorem scheduleReconnect_sequential (c : Client) (hnone : ∀ id, ¬ c.notClosed id)
    (hseq : c.sequential) :
    (scheduleReconnect c).2.sequential ∧ (∀ id, ¬ (scheduleReconnect c).2.notClosed id) ∧
      (scheduleReconnect c).2.cfg = c.cfg ∧ c.attempts ≤ (scheduleReconnect c).2.attempts ∧
      (scheduleReconnect c).2.sockets = c.sockets := by
  have hfilter : c.pending.filter (fun t => some t.1 != c.timer) = [] := by
    rw [List.filter_eq_nil_iff]
    intro t ht
    simp [hseq.2.2 t ht]
  cases hr : c.cfg.reconnect with
  | none =>
    rw [scheduleReconnect_none c hr]
    refine ⟨⟨fun id h => absurd h (hnone id), fun _ => hfilter, ?_⟩, hnone, rfl,
      Nat.le_refl _, rfl⟩
    intro t ht
    have : t ∈ c.pending.filter (fun t => some t.1 != c.timer) := ht
    rw [hfilter] at this
    cases this
  | some r =>
    rw [scheduleReconnect_eq c r hr]
    refine ⟨⟨fun id h => absurd h (hnone id), fun ⟨id, h⟩ => absurd h (hnone id), ?_⟩, hnone, rfl,
      Nat.le_succ _, rfl⟩
    intro t ht
    have : t ∈ c.pending.filter (fun t => some t.1 != c.timer) ++
        [(c.timersSet, reconnectDelay r c.attempts)] := ht
    rw [hfilter] at this
    simp only [List.nil_append, List.mem_singleton] at this
    subst this
    rfl

theorem sequential_of_idle (c : Client) (hnone : ∀ id, ¬ c.notClosed id) (hp : c.pending = []) :
    c.sequential :=
  ⟨fun id h => absurd h (hnone id), fun _ => hp, fun t ht => by rw [hp] at ht; cases ht⟩

theorem keeps_idle (a b : Client) (h : Client.keeps a b) (hnone : ∀ id, ¬ a.notClosed id)
    (hp : a.pending = []) : (∀ id, ¬ b.notClosed id) ∧ b.pending = [] := by
  refine ⟨fun id hid => hnone id ((h.1 id).mp hid), ?_⟩
  cases hb : b.pending with
  | nil => rfl
  | cons t rest =>
    have := h.2.2.2.1 t (by rw [hb]; exact List.mem_cons_self _ _)
    rw [hp] at this
    cases this

theorem failAndRetry_sequential (P : Builtins) (app : App) (fuel : Nat) (msg : String)
    (c : Client) (res : Except JsVal Unit × Client) (hnone : ∀ id, ¬ c.notClosed id)
    (hp : c.pending = []) (h : failAndRetry P app fuel msg c = some res) :
    res.2.sequential ∧ (∀ id, ¬ res.2.notClosed id) ∧ res.2.cfg = c.cfg ∧
      c.attempts ≤ res.2.attempts ∧ res.2.sockets.length = c.sockets.length := by
  unfold failAndRetry at h
  cases he : emit P app fuel .evError [jsError msg] c with
  | none => simp [he] at h
  | some res1 =>
    obtain ⟨hok, hk⟩ := emit_keeps _ _ _ _ _ _ _ he
    obtain ⟨r1, c1⟩ := res1
    simp only at hok hk
    subst hok
    simp only [he, Option.some.injEq] at h
    subst h
    obtain ⟨hn1, hp1⟩ := keeps_idle _ _ hk hnone hp
    obtain ⟨s1, s2, s3, s4, s5⟩ :=
      scheduleReconnect_sequential c1 hn1 (sequential_of_idle c1 hn1 hp1)
    refine ⟨s1, s2, s3.trans hk.2.2.2.2.2.1, ?_, ?_⟩
    · rw [← hk.2.2.2.2.1]; exact s4
    · rw [s5]; exact hk.2.2.2.2.2.2

theorem closeSocket_trace (c : Client) :
    (closeSocket c).trace = c.trace ++
      (match c.ws with
        | some old => [Op.wsClose old]
        | none => []) := by
  unfold closeSocket
  cases c.ws <;> simp

theorem not_notClosed_iff (c : Client) (id : Nat) (hid : id < c.sockets.length) :
    ¬ c.notClosed id ↔ c.readyState id = some 3 := by
  simp only [Client.notClosed, Client.readyState, List.get?_eq_getElem?,
    List.getElem?_eq_getElem hid, Option.map_some', Option.some.injEq, exists_eq_left', ne_eq,
    not_not]

theorem notClosed_lt (c : Client) (id : Nat) (h : c.notClosed id) : id < c.sockets.length := by
  obtain ⟨s, hs, -⟩ := h
  by_contra hcon
  simp [Client.readyState, List.get?_eq_getElem?, List.getElem?_eq_none (Nat.le_of_not_lt hcon)]
    at hs

theorem connect_sequential (P : Builtins) (app : App) (fuel : Nat) (c : Client)
    (res : Except JsVal Unit × Client) (hnone : ∀ id, ¬ c.notClosed id) (hp : c.pending = [])
    (h : connect P app fuel c = some res) :
    res.2.sequential ∧ res.2.cfg = c.cfg ∧ c.attempts ≤ res.2.attempts ∧
      ((res.2.sockets.length = c.sockets.length ∧ ∀ id, ¬ res.2.notClosed id) ∨
        (res.2.sockets.length = c.sockets.length + 1 ∧ res.2.ws = some c.sockets.length ∧
          res.2.readyState c.sockets.length = some 0 ∧
          (∀ id, id < c.sockets.length → res.2.readyState id = some 3) ∧
          res.2.attempts = c.attempts ∧
          ∃ url, res.2.trace = c.trace ++
            (match c.ws with
              | some old => [Op.wsClose old]
              | none => []) ++ [Op.newSocket c.sockets.length url])) := by
  unfold connect at h
  generalize pickHostPortToken P c.cfg c.resolverCalls = picked at h
  obtain ⟨r, calls⟩ := picked
  have hnone' : ∀ id, ¬ ({ c with resolverCalls := calls } : Client).notClosed id := hnone
  cases r with
  | error e =>
    simp only [Option.some.injEq] at h
    subst h
    exact ⟨sequential_of_idle _ hnone' hp, rfl, Nat.le_refl _, Or.inl ⟨rfl, hnone'⟩⟩
  | ok t =>
    cases t with
    | none =>
      obtain ⟨s1, s2, s3, s4, s5⟩ := failAndRetry_sequential P app fuel _ _ res hnone' hp h
      exact ⟨s1, s3, s4, Or.inl ⟨s5, s2⟩⟩
    | some target =>
      simp only at h
      split at h
      · obtain ⟨s1, s2, s3, s4, s5⟩ := failAndRetry_sequential P app fuel _ _ res hnone' hp h
        exact ⟨s1, s3, s4, Or.inl ⟨s5, s2⟩⟩
      · have hk := closeSocket_keeps { c with resolverCalls := calls }
        have htr := closeSocket_trace { c with resolverCalls := calls }
        generalize closeSocket { c with resolverCalls := calls } = c1 at h hk htr
        obtain ⟨hn1, hp1⟩ := keeps_idle _ _ hk hnone' hp
        have hlen : c1.sockets.length = c.sockets.length := hk.2.2.2.2.2.2
        have hcfg : c1.cfg = c.cfg := hk.2.2.2.2.2.1
        have hatt : c1.attempts = c.attempts := hk.2.2.2.2.1
        split at h
        · simp only [Option.some.injEq] at h
          subst h
          exact ⟨sequential_of_idle _ hn1 hp1, hcfg, Nat.le_of_eq hatt.symm, Or.inl ⟨hlen, hn1⟩⟩
        · simp only [Option.some.injEq] at h
          subst h
          have hold : ∀ id, id < c.sockets.length → c1.readyState id = some 3 :=
            fun id hid => (not_notClosed_iff _ id (by rw [hlen]; exact hid)).mp (hn1 id)
          have hnew : ∀ id, ({ c1 with
              ws := some c1.sockets.length
              sockets := c1.sockets ++ [{ url := connectionUrl P target, readyState := 0 }]
              trace := c1.trace ++ [.newSocket c1.sockets.length (connectionUrl P target)] }
                : Client).readyState id =
              if id < c.sockets.length then some 3
              else if id = c.sockets.length then some 0 else none := by
            intro id
            simp only [Client.readyState, List.get?_eq_getElem?]
            by_cases hid : id < c.sockets.length
            · rw [List.getElem?_append_left (by rw [hlen]; exact hid), if_pos hid]
              have := hold id hid
              simpa only [Client.readyState, List.get?_eq_getElem?] using this
            · rw [List.getElem?_append_right (by rw [hlen]; omega), if_neg hid, hlen]
              by_cases hid' : id = c.sockets.length
              · subst hid'
                simp
              · rw [if_neg hid']
                have : id - c.sockets.length = (id - c.sockets.length - 1) + 1 := by omega
                rw [this]
                rfl
          refine ⟨⟨?_, fun _ => hp1, fun t ht => ?_⟩, hcfg,
            Nat.le_of_eq hatt.symm, Or.inr ⟨?_, ?_, ?_, ?_, hatt, ?_⟩⟩
          · rintro id ⟨s, hs, hne⟩
            rw [hnew] at hs
            split at hs
            · simp only [Option.some.injEq] at hs
              exact absurd hs.symm hne
            · split at hs
              · rename_i hid'
                subst hid'
                simp only [hlen]
              · cases hs
          · have : t ∈ c1.pending := ht
            rw [hp1] at this
            cases this
          · simp only [List.length_append, hlen, List.length_singleton]
          · simp only [hlen]
          · rw [hnew]
            simp
          · intro id hid
            rw [hnew, if_pos hid]
          · refine ⟨connectionUrl P target, ?_⟩
            simp only [htr, hlen]

theorem onopen_keeps (P : Builtins) (app : App) (fuel : Nat) (c : Client)
    (res : Except JsVal Unit × Client) (h : onopen P app fuel c = some res) :
    Client.keeps { c with attempts := 0 } res.2 := by
  unfold onopen at h
  cases he : emit P app fuel .evOpen [] { c with attempts := 0 } with
  | none => simp [he] at h
  | some res1 =>
    obtain ⟨hok, hk⟩ := emit_keeps _ _ _ _ _ _ _ he
    obtain ⟨r1, c1⟩ := res1
    simp only at hok hk
    subst hok
    simp only [he] at h
    have hs := safeSend_keeps P (helloFrame c1.cfg) c1
    generalize safeSend P (helloFrame c1.cfg) c1 = sent at h hs
    obtain ⟨r2, c2⟩ := sent
    cases r2 <;>
    · simp only [Option.some.injEq] at h
      subst h
      exact keeps_trans _ _ _ hk hs

theorem onclose_eq (P : Builtins) (app : App) (fuel : Nat) (c : Client)
    (res : Except JsVal Unit × Client) (h : onclose P app fuel c = some res) :
    ∃ c1, emit P app fuel .evClose [] c = some (.ok (), c1) ∧ Client.keeps c c1 ∧
      res = scheduleReconnect c1 := by
  unfold onclose at h
  cases he : emit P app fuel .evClose [] c with
  | none => simp [he] at h
  | some res1 =>
    obtain ⟨hok, hk⟩ := emit_keeps _ _ _ _ _ _ _ he
    obtain ⟨r1, c1⟩ := res1
    simp only at hok hk
    subst hok
    simp only [he, Option.some.injEq] at h
    exact ⟨c1, rfl, hk, h.symm⟩

theorem setReadyState_notClosed (c : Client) (id s id' : Nat) :
    (c.setReadyState id s).notClosed id' ↔
      if id = id' then (∃ s0, c.readyState id' = some s0) ∧ s ≠ 3 else c.notClosed id' := by
  simp only [Client.notClosed, setReadyState_readyState]
  split
  · cases c.readyState id' with
    | none => simp
    | some s0 => simp
  · rfl

theorem step_cases (P : Builtins) (app : App) (fuel : Nat) (e : Event) (c : Client)
    (res : Except JsVal Unit × Client) (h : step P app fuel e c = some res) :
    Client.keeps c res.2 ∨
    (∃ id, e = .wsOpen id ∧ c.readyState id = some 0 ∧
      onopen P app fuel (c.setReadyState id 1) = some res) ∨
    (∃ id, e = .wsClosed id ∧ c.notClosed id ∧
      onclose P app fuel (c.setReadyState id 3) = some res) ∨
    (∃ id, e = .timerFires id ∧ (∃ t ∈ c.pending, t.1 = id) ∧
      connect P app fuel { c with pending := c.pending.filter (fun t => t.1 != id) } =
        some res) := by
  have hquiet : ∀ r, some (r, c) = some res → Client.keeps c res.2 := by
    intro r hr
    simp only [Option.some.injEq] at hr
    subst hr
    exact keeps_refl c
  cases e with
  | timerFires id =>
    simp only [step] at h
    split at h
    · rename_i hany
      simp only [List.any_eq_true, beq_iff_eq] at hany
      exact Or.inr (Or.inr (Or.inr ⟨id, rfl, hany, h⟩))
    · exact Or.inl (hquiet _ h)
  | wsOpen id =>
    simp only [step] at h
    split at h
    · rename_i h0
      exact Or.inr (Or.inl ⟨id, rfl, h0, h⟩)
    · exact Or.inl (hquiet _ h)
  | wsMessage id data =>
    simp only [step] at h
    split at h
    · exact Or.inl (emit_keeps _ _ _ _ _ _ _ h).2
    · exact Or.inl (hquiet _ h)
  | wsError id err =>
    simp only [step] at h
    split at h
    · exact Or.inl (emit_keeps _ _ _ _ _ _ _ h).2
    · exact Or.inl (hquiet _ h)
  | wsClosed id =>
    simp only [step] at h
    split at h
    · rename_i h0
      refine Or.inr (Or.inr (Or.inl ⟨id, rfl, ?_, h⟩))
      rcases h0 with h0 | h0 | h0
      · exact ⟨0, h0, by decide⟩
      · exact ⟨1, h0, by decide⟩
      · exact ⟨2, h0, by decide⟩
    · exact Or.inl (hquiet _ h)
  | app a =>
    simp only [step, Option.some.injEq] at h
    subst h
    exact Or.inl (perform_keeps P a c)

theorem sequential_unique (c : Client) (h : c.sequential) (id id' : Nat)
    (h1 : c.notClosed id) (h2 : c.notClosed id') : id = id' := by
  have a := h.1 id h1
  have b := h.1 id' h2
  rw [a] at b
  exact Option.some.inj b

theorem step_sequential (P : Builtins) (app : App) (fuel : Nat) (e : Event) (c : Client)
    (res : Except JsVal Unit × Client) (hseq : c.sequential)
    (h : step P app fuel e c = some res) : res.2.sequential ∧ res.2.cfg = c.cfg := by
  rcases step_cases P app fuel e c res h with hk | ⟨id, -, h0, ho⟩ | ⟨id, -, hn, hc⟩ |
    ⟨id, -, ⟨t, ht, hid⟩, hc⟩
  · exact ⟨keeps_sequential _ _ hk hseq, hk.2.2.2.2.2.1⟩
  · have hk := onopen_keeps _ _ _ _ _ ho
    refine ⟨keeps_sequential _ _ hk ?_, hk.2.2.2.2.2.1⟩
    have hiff : ∀ id', (c.setReadyState id 1).notClosed id' ↔ c.notClosed id' := by
      intro id'
      rw [setReadyState_notClosed]
      split
      · rename_i hid
        subst hid
        exact ⟨fun _ => ⟨0, h0, by decide⟩, fun _ => ⟨⟨0, h0⟩, by decide⟩⟩
      · rfl
    exact ⟨fun id' h' => hseq.1 id' ((hiff id').mp h'),
      fun ⟨id', h'⟩ => hseq.2.1 ⟨id', (hiff id').mp h'⟩, hseq.2.2⟩
  · obtain ⟨c1, -, hk, rfl⟩ := onclose_eq _ _ _ _ _ hc
    have hnone : ∀ id', ¬ (c.setReadyState id 3).notClosed id' := by
      intro id' h'
      rw [setReadyState_notClosed] at h'
      split at h'
      · exact h'.2 rfl
      · rename_i hne
        exact hne (sequential_unique c hseq _ _ hn h')
    have hp : (c.setReadyState id 3).pending = [] := hseq.2.1 ⟨id, hn⟩
    obtain ⟨hn1, hp1⟩ := keeps_idle _ _ hk hnone hp
    obtain ⟨s1, -, s3, -, -⟩ := scheduleReconnect_sequential c1 hn1 (sequential_of_idle c1 hn1 hp1)
    exact ⟨s1, s3.trans hk.2.2.2.2.2.1⟩
  · have hnone : ∀ id', ¬ c.notClosed id' := by
      intro id' h'
      have := hseq.2.1 ⟨id', h'⟩
      rw [this] at ht
      cases ht
    have hp : c.pending.filter (fun t => t.1 != id) = [] := by
      rw [List.filter_eq_nil_iff]
      intro t' ht'
      have a := hseq.2.2 t ht
      have b := hseq.2.2 t' ht'
      rw [a] at b
      have : t'.1 = id := by rw [← hid]; exact (Option.some.inj b).symm
      simp [this]
    obtain ⟨s1, s2, -, -⟩ := connect_sequential P app fuel
      { c with pending := c.pending.filter (fun t => t.1 != id) } res hnone hp hc
    exact ⟨s1, s2⟩

theorem run_sequential (P : Builtins) (app : App) (fuel : Nat) (events : List Event) :
    ∀ (c c' : Client), c.sequential → run P app fuel events c = some c' →
      c'.sequential ∧ c'.cfg = c.cfg := by
  induction events with
  | nil =>
    intro c c' hseq h
    simp only [run, Option.some.injEq] at h
    subst h
    exact ⟨hseq, rfl⟩
  | cons e rest ih =>
    intro c c' hseq h
    simp only [run] at h
    cases hs : step P app fuel e c with
    | none => simp [hs] at h
    | some res =>
      obtain ⟨r, c1⟩ := res
      simp only [hs] at h
      obtain ⟨s1, s2⟩ := step_sequential P app fuel e c _ hseq hs
      obtain ⟨t1, t2⟩ := ih c1 c' s1 h
      exact ⟨t1, t2.trans s2⟩

theorem createVacClient_sequential (P : Builtins) (app : App) (fuel : Nat) (options : Options)
    (res : Except JsVal Unit × Client) (h : createVacClient P app fuel options = some res) :
    res.2.sequential ∧ res.2.cfg = mergeDefaults options := by
  have hnone : ∀ id, ¬ ({ cfg := mergeDefaults options } : Client).notClosed id := by
    rintro id ⟨s, hs, -⟩
    cases hs
  obtain ⟨s1, s2, -, -⟩ := connect_sequential P app fuel _ res hnone rfl h
  exact ⟨s1, s2⟩

/-- C18. In every state that the client reaches from `createVacClient` by calls of its
public interface, timer firings and transport callbacks, at most one socket is not
closed, and it is the socket that the variable `ws` holds. The first connection attempt
has no previous socket, and an event that opens a new socket afterwards finds every
earlier socket closed, calls `close()` on the previous socket and only then constructs
the new one, which becomes the socket of `ws`. -/
theorem sockets_never_overlap (P : Builtins) (app : App) (fuel : Nat) (options : Options)
    (events : List Event) (r : Except JsVal Unit) (c0 c : Client)
    (hcreate : createVacClient P app fuel options = some (r, c0))
    (hrun : run P app fuel events c0 = some c) :
    (∀ id id', c.notClosed id → c.notClosed id' → id = id') ∧
    (∀ id, c.notClosed id → c.ws = some id) ∧
    (c0.sockets.length = 0 ∨ (c0.sockets.length = 1 ∧ c0.ws = some 0 ∧
      c0.readyState 0 = some 0 ∧ ∃ url, c0.trace = [.newSocket 0 url])) ∧
    ∀ e r' c', step P app fuel e c = some (r', c') →
      c'.sockets.length ≠ c.sockets.length →
      (∀ id, id < c.sockets.length → c.readyState id = some 3 ∧ c'.readyState id = some 3) ∧
      c'.sockets.length = c.sockets.length + 1 ∧
      c'.ws = some c.sockets.length ∧
      c'.readyState c.sockets.length = some 0 ∧
      ∃ url, c'.trace = c.trace ++
        (match c.ws with
          | some old => [Op.wsClose old]
          | none => []) ++ [Op.newSocket c.sockets.length url] := by
  have h0 := createVacClient_sequential P app fuel options _ hcreate
  have hseq := (run_sequential P app fuel events c0 c h0.1 hrun).1
  refine ⟨sequential_unique c hseq, hseq.1, ?_, ?_⟩
  · have hnone : ∀ id, ¬ ({ cfg := mergeDefaults options } : Client).notClosed id := by
      rintro id ⟨s, hs, -⟩
      cases hs
    obtain ⟨-, -, -, hc⟩ := connect_sequential P app fuel _ _ hnone rfl hcreate
    rcases hc with ⟨hlen, -⟩ | ⟨hlen, hws, hrs, -, -, url, htr⟩
    · exact Or.inl hlen
    · exact Or.inr ⟨hlen, hws, hrs, url, htr⟩
  · intro e r' c' hstep hne
    have hmod : ∀ (f : Socket → Socket) id, (c.sockets.modify f id).length = c.sockets.length :=
      fun f id => List.length_modify f id c.sockets
    rcases step_cases P app fuel e c _ hstep with hk | ⟨id, -, -, ho⟩ | ⟨id, -, -, hc⟩ |
      ⟨id, -, ⟨t, ht, hid⟩, hc⟩
    · exact absurd hk.2.2.2.2.2.2 hne
    · exact absurd ((onopen_keeps _ _ _ _ _ ho).2.2.2.2.2.2.trans (hmod _ id)) hne
    · obtain ⟨c1, -, hk, hres⟩ := onclose_eq _ _ _ _ _ hc
      have hs : (scheduleReconnect c1).2.sockets = c1.sockets := by
        cases hr : c1.cfg.reconnect with
        | none => rw [scheduleReconnect_none c1 hr]; rfl
        | some p => rw [scheduleReconnect_eq c1 p hr]
      have : c'.sockets = c1.sockets := by
        rw [← hs, ← hres]
      exact absurd ((congrArg List.length this).trans (hk.2.2.2.2.2.2.trans (hmod _ id))) hne
    · have hnone : ∀ id', ¬ c.notClosed id' := by
        intro id' h'
        have := hseq.2.1 ⟨id', h'⟩
        rw [this] at ht
        cases ht
      have hp : c.pending.filter (fun t => t.1 != id) = [] := by
        rw [List.filter_eq_nil_iff]
        intro t' ht'
        have a := hseq.2.2 t ht
        have b := hseq.2.2 t' ht'
        rw [a] at b
        have : t'.1 = id := by rw [← hid]; exact (Option.some.inj b).symm
        simp [this]
      obtain ⟨-, -, -, hcases⟩ := connect_sequential P app fuel
        { c with pending := c.pending.filter (fun t => t.1 != id) } _ hnone hp hc
      rcases hcases with ⟨hlen, -⟩ | ⟨hlen, hws, hrs, hold, -, url, htr⟩
      · exact absurd hlen hne
      · exact ⟨fun id' hid' => ⟨(not_notClosed_iff c id' hid').mp (hnone id'), hold id' hid'⟩,
          hlen, hws, hrs, url, htr⟩

/-- C18, witness: the client of `sampleOptions` is created, its socket opens and is
reported closed. The one socket is closed, and the step that opens the next socket
calls `close()` on it before `new WebSocket`. -/
theorem sockets_never_overlap_witness :
    createVacClient sampleBuiltins silentApp 1 sampleOptions = some (.ok (), createdClient) ∧
    run sampleBuiltins silentApp 1 [.wsOpen 0, .wsClosed 0] createdClient =
      some waitingClient ∧
    step sampleBuiltins silentApp 1 (.timerFires 0) waitingClient =
      some (.ok (), { waitingClient with
        ws := some 1
        sockets := waitingClient.sockets ++ [{ url := "ws://h:80?token=t&v=1", readyState := 0 }]
        pending := []
        trace := waitingClient.trace ++ [.wsClose 0, .newSocket 1 "ws://h:80?token=t&v=1"] }) ∧
    (∀ id id', waitingClient.notClosed id → waitingClient.notClosed id' → id = id') ∧
    (∀ id, waitingClient.notClosed id → waitingClient.ws = some id) :=
  ⟨rfl, rfl, rfl,
    (sockets_never_overlap sampleBuiltins silentApp 1 sampleOptions [.wsOpen 0, .wsClosed 0]
      (.ok ()) createdClient waitingClient rfl rfl).1,
    (sockets_never_overlap sampleBuiltins silentApp 1 sampleOptions [.wsOpen 0, .wsClosed 0]
      (.ok ()) createdClient waitingClient rfl rfl).2.1⟩

/-! ## The attempt counter -/

theorem emit_calls (P : Builtins) (app : App) (ev : Ev) (args : List JsVal) (fuel : Nat)
    (c : Client) (res : Except JsVal Unit × Client) (h : emit P app fuel ev args c = some res) :
    ∃ calls, res.2.trace.filter Op.isCall = c.trace.filter Op.isCall ++ calls ∧
      ∀ op ∈ calls, ∃ fn, op = Op.handlerCall ev fn args := by
  simp only [emit, Option.map_eq_some'] at h
  obtain ⟨c', h, rfl⟩ := h
  refine forEachListener_rel P app ev args
    (fun a b => ∃ calls, b.trace.filter Op.isCall = a.trace.filter Op.isCall ++ calls ∧
      ∀ op ∈ calls, ∃ fn, op = Op.handlerCall ev fn args)
    (fun c => ⟨[], by simp, by simp⟩) ?_ ?_ fuel 0 c c' h
  · rintro a b c ⟨o1, h1, ho1⟩ ⟨o2, h2, ho2⟩
    refine ⟨o1 ++ o2, by rw [h2, h1, List.append_assoc], ?_⟩
    intro op hop
    rcases List.mem_append.mp hop with hop | hop
    · exact ho1 op hop
    · exact ho2 op hop
  · intro c fn
    exact ⟨[Op.handlerCall ev fn args], callHandler_calls P app ev fn args c,
      fun op hop => ⟨fn, List.mem_singleton.mp hop⟩⟩

theorem scheduleReconnect_calls (c : Client) :
    (scheduleReconnect c).2.trace.filter Op.isCall = c.trace.filter Op.isCall := by
  cases hr : c.cfg.reconnect with
  | none => rw [scheduleReconnect_none c hr]; simp [clearTimer, Op.isCall]
  | some p => rw [scheduleReconnect_eq c p hr]; simp [Op.isCall]

theorem failAndRetry_calls (P : Builtins) (app : App) (fuel : Nat) (msg : String) (c : Client)
    (res : Except JsVal Unit × Client) (h : failAndRetry P app fuel msg c = some res) :
    ∃ calls, res.2.trace.filter Op.isCall = c.trace.filter Op.isCall ++ calls ∧
      ∀ op ∈ calls, ∃ fn args, op = Op.handlerCall .evError fn args := by
  unfold failAndRetry at h
  cases he : emit P app fuel .evError [jsError msg] c with
  | none => simp [he] at h
  | some res1 =>
    obtain ⟨hok, -⟩ := emit_keeps _ _ _ _ _ _ _ he
    obtain ⟨calls, h1, h2⟩ := emit_calls _ _ _ _ _ _ _ he
    obtain ⟨r1, c1⟩ := res1
    simp only at hok h1
    subst hok
    simp only [he, Option.some.injEq] at h
    subst h
    exact ⟨calls, by rw [scheduleReconnect_calls, h1],
      fun op hop => (h2 op hop).imp (fun fn hfn => ⟨_, hfn⟩)⟩

theorem connect_calls (P : Builtins) (app : App) (fuel : Nat) (c : Client)
    (res : Except JsVal Unit × Client) (h : connect P app fuel c = some res) :
    ∃ calls, res.2.trace.filter Op.isCall = c.trace.filter Op.isCall ++ calls ∧
      ∀ op ∈ calls, ∃ fn args, op = Op.handlerCall .evError fn args := by
  unfold connect at h
  generalize pickHostPortToken P c.cfg c.resolverCalls = picked at h
  obtain ⟨r, calls⟩ := picked
  cases r with
  | error e =>
    simp only [Option.some.injEq] at h
    subst h
    exact ⟨[], by simp, by simp⟩
  | ok t =>
    cases t with
    | none => exact failAndRetry_calls P app fuel _ { c with resolverCalls := calls } res h
    | some target =>
      simp only at h
      split at h
      · exact failAndRetry_calls P app fuel _ { c with resolverCalls := calls } res h
      · have htr := closeSocket_trace { c with resolverCalls := calls }
        generalize closeSocket { c with resolverCalls := calls } = c1 at h htr
        have hc1 : c1.trace.filter Op.isCall = c.trace.filter Op.isCall := by
          rw [htr]
          cases c.ws <;> simp [Op.isCall]
        split at h <;>
        · simp only [Option.some.injEq] at h
          subst h
          exact ⟨[], by simp [hc1, Op.isCall], by simp⟩

theorem step_calls (P : Builtins) (app : App) (fuel : Nat) (e : Event) (c : Client)
    (res : Except JsVal Unit × Client) (h : step P app fuel e c = some res)
    (he : ∀ id, e ≠ .wsOpen id) :
    ∃ calls, res.2.trace.filter Op.isCall = c.trace.filter Op.isCall ++ calls ∧
      ∀ op ∈ calls, ∃ ev fn args, op = Op.handlerCall ev fn args ∧ ev ≠ .evOpen := by
  have hquiet : ∀ r, some (r, c) = some res →
      ∃ calls, res.2.trace.filter Op.isCall = c.trace.filter Op.isCall ++ calls ∧
        ∀ op ∈ calls, ∃ ev fn args, op = Op.handlerCall ev fn args ∧ ev ≠ .evOpen := by
    intro r hr
    simp only [Option.some.injEq] at hr
    subst hr
    exact ⟨[], by simp, by simp⟩
  cases e with
  | timerFires id =>
    simp only [step] at h
    split at h
    · obtain ⟨calls, h1, h2⟩ := connect_calls _ _ _ _ _ h
      refine ⟨calls, h1, fun op hop => ?_⟩
      obtain ⟨fn, args, hfn⟩ := h2 op hop
      exact ⟨.evError, fn, args, hfn, by decide⟩
    · exact hquiet _ h
  | wsOpen id => exact absurd rfl (he id)
  | wsMessage id data =>
    simp only [step] at h
    split at h
    · obtain ⟨calls, h1, h2⟩ := emit_calls _ _ _ _ _ _ _ h
      refine ⟨calls, h1, fun op hop => ?_⟩
      obtain ⟨fn, hfn⟩ := h2 op hop
      exact ⟨.evMessage, fn, _, hfn, by decide⟩
    · exact hquiet _ h
  | wsError id err =>
    simp only [step] at h
    split at h
    · obtain ⟨calls, h1, h2⟩ := emit_calls _ _ _ _ _ _ _ h
      refine ⟨calls, h1, fun op hop => ?_⟩
      obtain ⟨fn, hfn⟩ := h2 op hop
      exact ⟨.evError, fn, _, hfn, by decide⟩
    · exact hquiet _ h
  | wsClosed id =>
    simp only [step] at h
    split at h
    · obtain ⟨c1, hemit, -, rfl⟩ := onclose_eq _ _ _ _ _ h
      obtain ⟨calls, h1, h2⟩ := emit_calls _ _ _ _ _ _ _ hemit
      refine ⟨calls, by rw [scheduleReconnect_calls]; exact h1, fun op hop => ?_⟩
      obtain ⟨fn, hfn⟩ := h2 op hop
      exact ⟨.evClose, fn, _, hfn, by decide⟩
    · exact hquiet _ h
  | app a =>
    simp only [step, Option.some.injEq] at h
    subst h
    exact ⟨[], by simp [perform_calls], by simp⟩

theorem onopen_eq (P : Builtins) (app : App) (fuel : Nat) (c : Client)
    (res : Except JsVal Unit × Client) (h : onopen P app fuel c = some res) :
    ∃ c1, emit P app fuel .evOpen [] { c with attempts := 0 } = some (.ok (), c1) ∧
      res.2 = (safeSend P (helloFrame c1.cfg) c1).2 := by
  unfold onopen at h
  cases he : emit P app fuel .evOpen [] { c with attempts := 0 } with
  | none => simp [he] at h
  | some res1 =>
    obtain ⟨hok, -⟩ := emit_keeps _ _ _ _ _ _ _ he
    obtain ⟨r1, c1⟩ := res1
    simp only at hok
    subst hok
    simp only [he] at h
    refine ⟨c1, rfl, ?_⟩
    generalize safeSend P (helloFrame c1.cfg) c1 = sent at h
    obtain ⟨r2, c2⟩ := sent
    cases r2 <;>
    · simp only [Option.some.injEq] at h
      subst h
      rfl

theorem step_open_phase (P : Builtins) (app : App) (fuel : Nat) (e : Event) (c : Client)
    (res : Except JsVal Unit × Client) (hseq : c.sequential) (hlive : ∃ id, c.notClosed id)
    (hatt : c.attempts = 0) (he : e.isClosed = false) (h : step P app fuel e c = some res) :
    (∃ id, res.2.notClosed id) ∧ res.2.attempts = 0 := by
  rcases step_cases P app fuel e c res h with hk | ⟨id, -, h0, ho⟩ | ⟨id, rfl, -, -⟩ |
    ⟨id, -, ⟨t, ht, -⟩, -⟩
  · obtain ⟨id, hid⟩ := hlive
    exact ⟨⟨id, (hk.1 id).mpr hid⟩, hk.2.2.2.2.1.trans hatt⟩
  · have hk := onopen_keeps _ _ _ _ _ ho
    refine ⟨⟨id, (hk.1 id).mpr ?_⟩, hk.2.2.2.2.1⟩
    exact ⟨1, readyState_setReadyState c id 0 1 h0, by decide⟩
  · cases he
  · rw [hseq.2.1 hlive] at ht
    cases ht

theorem run_open_phase (P : Builtins) (app : App) (fuel : Nat) (events : List Event)
    (hev : ∀ e ∈ events, e.isClosed = false) :
    ∀ (c c' : Client), c.sequential → (∃ id, c.notClosed id) → c.attempts = 0 →
      run P app fuel events c = some c' → (∃ id, c'.notClosed id) ∧ c'.attempts = 0 := by
  induction events with
  | nil =>
    intro c c' _ hlive hatt h
    simp only [run, Option.some.injEq] at h
    subst h
    exact ⟨hlive, hatt⟩
  | cons e rest ih =>
    intro c c' hseq hlive hatt h
    simp only [run] at h
    cases hs : step P app fuel e c with
    | none => simp [hs] at h
    | some res =>
      obtain ⟨r, c1⟩ := res
      simp only [hs] at h
      obtain ⟨s1, -⟩ := step_sequential P app fuel e c _ hseq hs
      obtain ⟨t1, t2⟩ := step_open_phase P app fuel e c _ hseq hlive hatt
        (hev e (List.mem_cons_self _ _)) hs
      exact ih (fun e' he' => hev e' (List.mem_cons_of_mem _ he')) c1 c' s1 t1 t2 h

/-- C16, counterexample: with the policy `{baseMs: 60000, maxMs: 30000}` the socket of
the client opens and is reported closed. The counter was zero, and the delay of the timer
then set is the cap, 30000 ms, not the base delay of 60000 ms. -/
theorem first_close_delay_capped :
    (mergeDefaults cappedBaseOptions).reconnect =
      some { baseMs := some 60000, maxMs := some 30000 } ∧
    ((createVacClient sampleBuiltins silentApp 1 cappedBaseOptions).bind (fun r =>
        run sampleBuiltins silentApp 1 [.wsOpen 0] r.2)).map (fun c => c.attempts) = some 0 ∧
    ((createVacClient sampleBuiltins silentApp 1 cappedBaseOptions).bind (fun r =>
        run sampleBuiltins silentApp 1 [.wsOpen 0, .wsClosed 0] r.2)).map
      (fun c => (c.attempts, c.pending, c.trace)) =
      some (1, [(0, 30000)],
        [.newSocket 0 "ws://h:80?token=t&v=1", .wsSend 0 sampleHello,
         .clearTimeout none, .setTimeout 0 30000]) :=
  ⟨rfl, rfl, rfl⟩

/-- C16, amended. The attempt counter increases by one with each reconnect that
`scheduleReconnect` schedules and is not reset by scheduling. In every state reached
from `createVacClient`, when the transport opens the connecting socket the counter is
zero after `ws.onopen`, and it stays zero through every later event up to the first
report of a closed socket; for a reconnect policy `p`, `ws.onclose` then sets exactly
one timer, of delay `min(maxMs || 30000, baseMs || 1000)`, the first delay of the
schedule, and the counter is one afterwards. That delay is the base delay whenever the
base and the cap are non-zero and the base is at most the cap, and it is 1000 ms with
the default policy. `ws.onopen` runs the dispatch of `open` once, which calls each open
handler once when no handler changes the set of open handlers, and no other event calls
an open handler. -/
theorem attempts_reset_on_open (P : Builtins) (app : App) (fuel : Nat) (options : Options)
    (events quiet : List Event) (r r1 r3 : Except JsVal Unit) (c0 c c1 c2 c3 : Client)
    (id id' : Nat)
    (hcreate : createVacClient P app fuel options = some (r, c0))
    (hrun : run P app fuel events c0 = some c)
    (hconn : c.readyState id = some 0)
    (hopen : step P app fuel (.wsOpen id) c = some (r1, c1))
    (hquiet : ∀ e ∈ quiet, e.isClosed = false)
    (hrun' : run P app fuel quiet c1 = some c2)
    (hfires : c2.readyState id' = some 0 ∨ c2.readyState id' = some 1 ∨
      c2.readyState id' = some 2)
    (hclose : step P app fuel (.wsClosed id') c2 = some (r3, c3)) :
    (∀ (s : Client) p, s.cfg.reconnect = some p →
      (scheduleReconnect s).2.attempts = s.attempts + 1) ∧
    c1.attempts = 0 ∧ c2.attempts = 0 ∧
    (∃ c4, emit P app fuel .evOpen [] { c.setReadyState id 1 with attempts := 0 } =
        some (.ok (), c4) ∧
      c1.trace.filter Op.isCall = c4.trace.filter Op.isCall ∧
      ((∀ fn, some fn ∈ c.listeners.get .evOpen → ∀ a ∈ app fn [], a.touches .evOpen = false) →
        (c.listeners.get .evOpen).length < fuel →
        c1.trace.filter Op.isCall = c.trace.filter Op.isCall ++
          (HandlerSet.live (c.listeners.get .evOpen)).map
            (fun fn => Op.handlerCall .evOpen fn []))) ∧
    (∀ (s : Client) e res, step P app fuel e s = some res → (∀ i, e ≠ .wsOpen i) →
      ∀ fn args, Op.handlerCall .evOpen fn args ∈ res.2.trace →
        Op.handlerCall .evOpen fn args ∈ s.trace) ∧
    ∀ p, (mergeDefaults options).reconnect = some p →
      r3 = .ok () ∧ c3.attempts = 1 ∧
      (∃ n, c3.timer = some n ∧ c3.pending = [(n, reconnectDelay p 0)] ∧
        c3.trace.getLast? = some (.setTimeout n (reconnectDelay p 0))) ∧
      reconnectDelay p 0 = min (orDefault p.maxMs 30000) (orDefault p.baseMs 1000) ∧
      (∀ b m, p.baseMs = some b → p.maxMs = some m → b ≠ 0 → m ≠ 0 → b ≤ m →
        reconnectDelay p 0 = b) ∧
      (options.reconnect = none → reconnectDelay p 0 = 1000) := by
  obtain ⟨hseq0, hcfg0⟩ := createVacClient_sequential P app fuel options _ hcreate
  obtain ⟨hseq, hcfg⟩ := run_sequential P app fuel events c0 c hseq0 hrun
  obtain ⟨hseq1, hcfg1⟩ := step_sequential P app fuel _ c _ hseq hopen
  obtain ⟨hseq2, hcfg2⟩ := run_sequential P app fuel quiet c1 c2 hseq1 hrun'
  have ho : onopen P app fuel (c.setReadyState id 1) = some (r1, c1) := by
    simpa only [step, hconn, if_true] using hopen
  have hk1 := onopen_keeps _ _ _ _ _ ho
  have hlive1 : ∃ i, c1.notClosed i :=
    ⟨id, (hk1.1 id).mpr ⟨1, readyState_setReadyState c id 0 1 hconn, by decide⟩⟩
  have hatt1 : c1.attempts = 0 := hk1.2.2.2.2.1
  obtain ⟨hlive2, hatt2⟩ := run_open_phase P app fuel quiet hquiet c1 c2 hseq1 hlive1 hatt1 hrun'
  refine ⟨?_, hatt1, hatt2, ?_, ?_, ?_⟩
  · intro s p hp
    rw [scheduleReconnect_eq s p hp]
  · obtain ⟨c4, hemit, hc1⟩ := onopen_eq _ _ _ _ _ ho
    refine ⟨c4, hemit, ?_, ?_⟩
    · simp only at hc1
      rw [hc1]
      exact (safeSend_calls P _ c4).1
    · intro hstable hfuel
      obtain ⟨c', hrun4, -, htr⟩ := forEachListener_stable P app .evOpen []
        (c.listeners.get .evOpen) hstable fuel 0
        { c.setReadyState id 1 with attempts := 0 } rfl (by omega)
      simp only [emit, hrun4, Option.map_some', Option.some.injEq, Prod.mk.injEq,
        true_and] at hemit
      subst hemit
      simp only at hc1
      rw [hc1, (safeSend_calls P _ c').1, htr]
      rfl
  · intro s e res hstep hne fn args hmem
    obtain ⟨calls, h1, h2⟩ := step_calls P app fuel e s res hstep hne
    have hin : Op.handlerCall .evOpen fn args ∈ res.2.trace.filter Op.isCall :=
      List.mem_filter.mpr ⟨hmem, rfl⟩
    rw [h1] at hin
    rcases List.mem_append.mp hin with hin | hin
    · exact (List.mem_filter.mp hin).1
    · obtain ⟨ev, fn', args', heq, hev⟩ := h2 _ hin
      cases heq
      exact absurd rfl hev
  · intro p hp
    have hc : onclose P app fuel (c2.setReadyState id' 3) = some (r3, c3) := by
      simpa only [step, hfires, if_true] using hclose
    obtain ⟨c4, -, hk, hres⟩ := onclose_eq _ _ _ _ _ hc
    have hp4 : c4.cfg.reconnect = some p := by
      rw [hk.2.2.2.2.2.1]
      show c2.cfg.reconnect = some p
      rw [hcfg2, hcfg1, hcfg, hcfg0]
      exact hp
    have hatt4 : c4.attempts = 0 := hk.2.2.2.2.1.trans hatt2
    have hpend : c4.pending = [] := by
      cases hb : c4.pending with
      | nil => rfl
      | cons t rest =>
        have := hk.2.2.2.1 t (by rw [hb]; exact List.mem_cons_self _ _)
        have hp2 : c2.pending = [] := hseq2.2.1 hlive2
        have : t ∈ c2.pending := this
        rw [hp2] at this
        cases this
    rw [scheduleReconnect_eq c4 p hp4, Prod.mk.injEq] at hres
    obtain ⟨rfl, rfl⟩ := hres
    refine ⟨rfl, by simp only [hatt4], ⟨c4.timersSet, rfl, ?_, ?_⟩, ?_, ?_, ?_⟩
    · simp only [hpend, hatt4, List.filter_nil, List.nil_append]
    · simp only [hatt4, List.getLast?_append, List.getLast?_cons_cons, List.getLast?_singleton,
        Option.or_some]
    · simp [reconnectDelay]
    · intro b m hb hm hb0 hm0 hle
      simp [reconnectDelay, orDefault, hb, hm, hb0, hm0, hle]
    · intro hnone
      simp only [mergeDefaults, hnone, Option.some.injEq] at hp
      subst hp
      decide

/-- C16, witness: the client of `sampleOptions` is created, its socket opens, the
application sends a frame, and the transport reports the socket closed. The counter is
zero after the open and one after the close, which sets the timer 0 of 1000 ms. -/
theorem attempts_reset_on_open_witness :
    createVacClient sampleBuiltins silentApp 1 sampleOptions = some (.ok (), createdClient) ∧
    run sampleBuiltins silentApp 1 [] createdClient = some createdClient ∧
    createdClient.readyState 0 = some 0 ∧
    step sampleBuiltins silentApp 1 (.wsOpen 0) createdClient =
      some (.ok (), { openClient with
        trace := [.newSocket 0 "ws://h:80?token=t&v=1", .wsSend 0 sampleHello] }) ∧
    (∀ e ∈ [Event.app (.send (.str "hi"))], e.isClosed = false) ∧
    run sampleBuiltins silentApp 1 [.app (.send (.str "hi"))]
      { openClient with
        trace := [.newSocket 0 "ws://h:80?token=t&v=1", .wsSend 0 sampleHello] } =
      some talkingClient ∧
    talkingClient.readyState 0 = some 1 ∧
    step sampleBuiltins silentApp 1 (.wsClosed 0) talkingClient =
      some (.ok (), { waitingClient with
        trace := talkingClient.trace ++ [.clearTimeout none, .setTimeout 0 1000] }) ∧
    talkingClient.attempts = 0 ∧
    ∃ n, ({ waitingClient with
        trace := talkingClient.trace ++ [.clearTimeout none, .setTimeout 0 1000] } : Client).timer =
        some n ∧
      ({ waitingClient with
        trace := talkingClient.trace ++ [.clearTimeout none, .setTimeout 0 1000] } : Client).pending =
        [(n, reconnectDelay DEFAULTS.reconnect 0)] ∧
      ({ waitingClient with
        trace := talkingClient.trace ++ [.clearTimeout none, .setTimeout 0 1000] }
          : Client).trace.getLast? =
        some (.setTimeout n (reconnectDelay DEFAULTS.reconnect 0)) :=
  ⟨rfl, rfl, rfl, rfl, by intro e he; simp only [List.mem_singleton] at he; subst he; rfl,
    rfl, rfl, rfl,
    (attempts_reset_on_open sampleBuiltins silentApp 1 sampleOptions []
      [.app (.send (.str "hi"))] (.ok ()) (.ok ()) (.ok ()) createdClient createdClient
      { openClient with trace := [.newSocket 0 "ws://h:80?token=t&v=1", .wsSend 0 sampleHello] }
      talkingClient
      { waitingClient with
        trace := talkingClient.trace ++ [.clearTimeout none, .setTimeout 0 1000] }
      0 0 rfl rfl rfl rfl
      (by intro e he; simp only [List.mem_singleton] at he; subst he; rfl)
      rfl (Or.inr (Or.inl rfl)) rfl).2.2.1,
    ((attempts_reset_on_open sampleBuiltins silentApp 1 sampleOptions []
      [.app (.send (.str "hi"))] (.ok ()) (.ok ()) (.ok ()) createdClient createdClient
      { openClient with trace := [.newSocket 0 "ws://h:80?token=t&v=1", .wsSend 0 sampleHello] }
      talkingClient
      { waitingClient with
        trace := talkingClient.trace ++ [.clearTimeout none, .setTimeout 0 1000] }
      0 0 rfl rfl rfl rfl
      (by intro e he; simp only [List.mem_singleton] at he; subst he; rfl)
      rfl (Or.inr (Or.inl rfl)) rfl).2.2.2.2.2 DEFAULTS.reconnect rfl).2.2.1⟩

end Vac
